import Mathlib

/-!
EthereumLikeAccount: a shallow embedding.

Embedding of `core/src/wallet/ethereum/EthereumLikeAccount.cpp`.

* `BigInt` is arbitrary precision and signed: it is `Int`.
* `std::chrono::system_clock::time_point` is a tick count: it is `Int`.
* `Option<T>` and nullable `shared_ptr<T>` are `Option T`.
* a C++ exception carrying an `api::ErrorCode` is the `Except.error` of that code.
* member functions that mutate the account take the account and return the new one.
-/

set_option autoImplicit false

namespace ledger.core

/-! ## Data model -/

/-- The enum `api::OperationType`. -/
inductive OperationType where
  | SEND
  | RECEIVE
  | NONE
  deriving DecidableEq, Repr, Inhabited

/-- The members of `api::ErrorCode` that the account raises itself, and some of the codes that
its collaborators (explorer, storage) raise. -/
inductive ErrorCode where
  | INVALID_ARGUMENT
  | NOT_ENOUGH_FUNDS
  | TRANSACTION_NOT_FOUND
  | INVALID_DATE_FORMAT
  | RUNTIME_ERROR
  | ILLEGAL_STATE
  | HTTP_ERROR
  | NO_INTERNET_CONNECTIVITY
  | UNABLE_TO_CONNECT_TO_HOST
  | DATABASE_ERROR
  | FUTURE_WAS_SUCCESSFULL
  deriving DecidableEq, Repr, Inhabited

/-- The enum `api::WalletType`, as far as the account uses it. -/
inductive WalletType where
  | BITCOIN
  | ETHEREUM
  deriving DecidableEq, Repr, Inhabited

/-- A block reference: `Block` of the common wallet layer. -/
structure Block where
  hash : String
  height : Nat
  time : Int
  currencyName : String
  deriving DecidableEq, Repr, Inhabited

/-- A token transfer event of a transaction: `ERC20Transaction`. The fields `from` and `to` of
the source are `fromAddress` and `toAddress` here. -/
structure ERC20Transaction where
  fromAddress : String
  toAddress : String
  value : Int
  contractAddress : String
  type : OperationType
  deriving DecidableEq, Repr, Inhabited

/-- An internal call of a transaction: `InternalTx`. The account only tests the list of
internal transactions for emptiness. -/
structure InternalTx where
  fromAddress : String
  toAddress : String
  value : Int
  type : OperationType
  deriving DecidableEq, Repr, Inhabited

/-- The external transaction record `EthereumLikeBlockchainExplorerTransaction`. -/
structure EthereumLikeBlockchainExplorerTransaction where
  hash : String
  receivedAt : Int
  value : Int
  gasPrice : Int
  gasLimit : Int
  gasUsed : Option Int
  receiver : String
  sender : String
  block : Option Block
  status : Nat
  inputData : List Nat
  erc20Transactions : List ERC20Transaction
  internalTransactions : List InternalTx
  deriving DecidableEq, Repr, Inhabited

/-- The token descriptor `api::ERC20Token`. -/
structure ERC20Token where
  name : String
  symbol : String
  contractAddress : String
  numberOfDecimal : Nat
  deriving DecidableEq, Repr, Inhabited

/-- A token sub-account: `ERC20LikeAccount`, with its uid, its token and the address it
watches. -/
structure ERC20LikeAccount where
  uid : String
  token : ERC20Token
  address : String
  deriving DecidableEq, Repr, Inhabited

/-- A token sub-operation: `ERC20LikeOperation`, with the fields its constructor receives from
the account (its own uid, the uid of the parent operation, the transfer). -/
structure ERC20LikeOperation where
  uid : String
  ethUidOperation : String
  hash : String
  operationType : OperationType
  sender : String
  receiver : String
  value : Int
  deriving DecidableEq, Repr, Inhabited

/-- The attached data of an operation: `EthereumOperationAttachedData`. -/
structure EthereumOperationAttachedData where
  accounts : List ERC20LikeAccount
  erc20Operations : List (String × ERC20LikeOperation)
  deriving DecidableEq, Repr, Inhabited

/-- The confidence record `TrustIndicator`, default constructed by the interpreter. -/
structure TrustIndicator where
  trustWeight : Nat
  deriving DecidableEq, Repr, Inhabited

/-- One ledger entry: `Operation`. -/
structure Operation where
  uid : String
  accountUid : String
  walletUid : String
  walletType : WalletType
  currencyName : String
  block : Option Block
  ethereumTransaction : Option EthereumLikeBlockchainExplorerTransaction
  senders : List String
  recipients : List String
  amount : Int
  fees : Option Int
  type : OperationType
  date : Int
  trust : Option TrustIndicator
  attachedData : Option EthereumOperationAttachedData
  deriving DecidableEq, Repr, Inhabited

/-- A default constructed `Operation`. -/
def Operation.empty : Operation :=
  { uid := "", accountUid := "", walletUid := "", walletType := WalletType.BITCOIN,
    currencyName := "", block := none, ethereumTransaction := none, senders := [],
    recipients := [], amount := 0, fees := none, type := OperationType.NONE, date := 0,
    trust := none, attachedData := none }

/-- The assignment `operation.attachedData = data`. -/
def Operation.setAttachedData (op : Operation) (data : Option EthereumOperationAttachedData) :
    Operation :=
  { op with attachedData := data }

/-- The parent wallet, as far as the account reads it. -/
structure Wallet where
  walletUid : String
  name : String
  currencyName : String
  deriving DecidableEq, Repr, Inhabited

/-- The state of an `EthereumLikeAccount` that the interpreter reads and writes. The wallet is a
weak reference: `none` is a released wallet. `accountAddress` is `_accountAddress`, the keychain
address taken by the constructor. -/
structure EthereumLikeAccount where
  wallet : Option Wallet
  index : Int
  accountUid : String
  accountAddress : String
  erc20LikeAccounts : List ERC20LikeAccount
  deriving DecidableEq, Repr, Inhabited

/-- The account with `_erc20LikeAccounts` replaced by `l`. -/
def EthereumLikeAccount.setERC20LikeAccounts (acc : EthereumLikeAccount)
    (l : List ERC20LikeAccount) : EthereumLikeAccount :=
  { acc with erc20LikeAccounts := l }

/-- The digests of `OperationDatabaseHelper::createUid` and
`AccountDatabaseHelper::createERC20AccountUid`. Their bodies are not part of the account; they
are parameters of the embedding. -/
structure UidScheme where
  createUid : String → String → OperationType → String
  createERC20AccountUid : String → String → String

/-- Modelled from the spec: the constant `FLAG_TRANSACTION_IGNORED` of `AbstractAccount`, whose
declaration is missing; the interpreter only tests the flag for zero ("if neither holds"). -/
def FLAG_TRANSACTION_IGNORED : Nat := 0

/-- Modelled from the spec: the constant `FLAG_TRANSACTION_CREATED_SENDING_OPERATION` of
`AbstractAccount`, whose declaration is missing; a non-zero flag. -/
def FLAG_TRANSACTION_CREATED_SENDING_OPERATION : Nat := 16

/-- Modelled from the spec: the constant `FLAG_TRANSACTION_CREATED_RECEPTION_OPERATION` of
`AbstractAccount`, whose declaration is missing; a non-zero flag. -/
def FLAG_TRANSACTION_CREATED_RECEPTION_OPERATION : Nat := 32

/-! ## The interpreter -/

/-- Modelled from the spec: `Operation::refreshUid`, whose body is missing. The uid is "a
deterministic digest of (owning account id, chain-tx hash, ..., operation kind)". -/
def refreshUid (H : UidScheme) (op : Operation) : Operation :=
  let txHash : String :=
    match op.ethereumTransaction with
    | some tx => tx.hash
    | none => ""
  { op with uid := H.createUid op.accountUid txHash op.type }

/-- The function `EthereumLikeAccount::inflateOperation`. -/
def inflateOperation (acc : EthereumLikeAccount) (wallet : Wallet) (out : Operation)
    (tx : EthereumLikeBlockchainExplorerTransaction) : Operation :=
  let block := tx.block.map (fun b => { b with currencyName := wallet.currencyName })
  { out with
    accountUid := acc.accountUid
    block := block
    ethereumTransaction := some { tx with block := block }
    currencyName := wallet.currencyName
    walletType := WalletType.ETHEREUM
    walletUid := wallet.walletUid
    date := tx.receivedAt }

/-- Modelled from the spec: the constructor of `ERC20LikeOperation`, whose body is missing. It
receives the sub-operation uid, the parent operation and the transfer. -/
def ERC20LikeOperation.create (uid : String) (operation : Operation)
    (erc20Tx : ERC20Transaction) : ERC20LikeOperation :=
  let txHash : String :=
    match operation.ethereumTransaction with
    | some tx => tx.hash
    | none => ""
  { uid := uid
    ethUidOperation := operation.uid
    hash := txHash
    operationType := erc20Tx.type
    sender := erc20Tx.fromAddress
    receiver := erc20Tx.toAddress
    value := erc20Tx.value }

/-- Modelled from the spec: `ERC20LikeAccount::putOperation`, whose body is missing. The
transfer is delegated to the sub-account: the pair (sub-account uid, sub-operation) joins the
`erc20Operations` of the parent operation's attached data, where `bulkInsert` reads it. -/
def ERC20LikeAccount.putOperation (account : ERC20LikeAccount) (operation : Operation)
    (erc20Operation : ERC20LikeOperation) : Operation :=
  match operation.attachedData with
  | none => operation
  | some data =>
    operation.setAttachedData (some { data with
      erc20Operations := data.erc20Operations ++ [(account.uid, erc20Operation)] })

/-- The loop of `updateERC20Operation` over the registered sub-accounts: every matching
sub-account receives the sub-operation and clears `needNewAccount`. -/
def putInMatchingAccounts (accountAddress contractAddress : String)
    (erc20Operation : ERC20LikeOperation) :
    List ERC20LikeAccount → Operation × Bool → Operation × Bool
  | [], st => st
  | account :: rest, (operation, needNewAccount) =>
    if account.token.contractAddress = contractAddress ∧ account.address = accountAddress then
      putInMatchingAccounts accountAddress contractAddress erc20Operation rest
        (account.putOperation operation erc20Operation, false)
    else
      putInMatchingAccounts accountAddress contractAddress erc20Operation rest
        (operation, needNewAccount)

/-- The function `EthereumLikeAccount::updateERC20Operation`. -/
def updateERC20Operation (H : UidScheme) (acc : EthereumLikeAccount) (operation : Operation)
    (erc20Tx : ERC20Transaction) : Except ErrorCode (EthereumLikeAccount × Operation) :=
  match operation.attachedData with
  | none => Except.error ErrorCode.RUNTIME_ERROR
  | some _ =>
    let erc20ContractAddress := erc20Tx.contractAddress
    let erc20OperationUid := H.createUid operation.uid erc20ContractAddress erc20Tx.type
    let erc20Operation := ERC20LikeOperation.create erc20OperationUid operation erc20Tx
    let erc20AccountUid := H.createERC20AccountUid acc.accountUid erc20ContractAddress
    let looped := putInMatchingAccounts acc.accountAddress erc20ContractAddress erc20Operation
      acc.erc20LikeAccounts (operation, true)
    if looped.2 then
      let erc20Token : ERC20Token :=
        { name := "UNKNOWN_TOKEN", symbol := "UNKNOWN", contractAddress := erc20ContractAddress,
          numberOfDecimal := 0 }
      let newAccount : ERC20LikeAccount :=
        { uid := erc20AccountUid, token := erc20Token, address := acc.accountAddress }
      let pushed : Operation :=
        looped.1.setAttachedData (looped.1.attachedData.map
          (fun data => { data with accounts := data.accounts ++ [newAccount] }))
      Except.ok (acc.setERC20LikeAccounts (acc.erc20LikeAccounts ++ [newAccount]),
        newAccount.putOperation pushed erc20Operation)
    else
      Except.ok (acc, looped.1)

/-- The loop body of `updateERC20Accounts`, over the token transfers of the local copy of the
transaction. -/
def updateERC20AccountsLoop (H : UidScheme) :
    List ERC20Transaction → EthereumLikeAccount → Operation →
      Except ErrorCode (EthereumLikeAccount × Operation)
  | [], acc, operation => Except.ok (acc, operation)
  | erc20Tx :: rest, acc, operation =>
    let ty :=
      if erc20Tx.fromAddress = acc.accountAddress then OperationType.SEND
      else if erc20Tx.toAddress = acc.accountAddress then OperationType.RECEIVE
      else OperationType.NONE
    match updateERC20Operation H acc operation { erc20Tx with type := ty } with
    | Except.error e => Except.error e
    | Except.ok (acc1, operation1) =>
      if erc20Tx.toAddress = acc.accountAddress then
        match updateERC20Operation H acc1 operation1
            { erc20Tx with type := OperationType.RECEIVE } with
        | Except.error e => Except.error e
        | Except.ok (acc2, operation2) => updateERC20AccountsLoop H rest acc2 operation2
      else
        updateERC20AccountsLoop H rest acc1 operation1

/-- The function `EthereumLikeAccount::updateERC20Accounts`. Reading the transaction of an
operation that has none is an illegal state of `Option::getValue`. -/
def updateERC20Accounts (H : UidScheme) (acc : EthereumLikeAccount) (operation : Operation) :
    Except ErrorCode (EthereumLikeAccount × Operation) :=
  match operation.ethereumTransaction with
  | none => Except.error ErrorCode.ILLEGAL_STATE
  | some transaction => updateERC20AccountsLoop H transaction.erc20Transactions acc operation

/-- The state that the lambda `updateOperation` of `interpretTransaction` works on: the account,
the operation under construction, the output vector and the flag `result`. -/
structure InterpretState where
  acc : EthereumLikeAccount
  operation : Operation
  out : List Operation
  result : Nat
  deriving DecidableEq, Repr

/-- The first half of the lambda `updateOperation`: the amount (zero for a failed, confirmed
transaction), the kind and the refreshed uid. -/
def typedOperation (H : UidScheme) (transaction : EthereumLikeBlockchainExplorerTransaction)
    (operation : Operation) (ty : OperationType) : Operation :=
  let amount : Int :=
    if transaction.status = 0 ∧ transaction.block.isSome = true then 0 else transaction.value
  refreshUid H { operation with amount := amount, type := ty }

/-- The lambda `updateOperation` of `interpretTransaction`. -/
def updateOperation (H : UidScheme) (transaction : EthereumLikeBlockchainExplorerTransaction)
    (st : InterpretState) (ty : OperationType) : Except ErrorCode InterpretState :=
  let typed := typedOperation H transaction st.operation ty
  if st.result = 0 then
    match updateERC20Accounts H st.acc
        (typed.setAttachedData (some { accounts := [], erc20Operations := [] })) with
    | Except.error e => Except.error e
    | Except.ok (acc1, operation1) =>
      Except.ok { st with acc := acc1, operation := operation1.setAttachedData none,
                          out := st.out ++ [operation1] }
  else
    Except.ok { st with operation := typed.setAttachedData none,
                        out := st.out ++ [typed] }

/-- The operation that `interpretTransaction` builds before it looks at the addresses: the
inflated operation with its senders, recipients, fees, trust and date. -/
def operationSkeleton (acc : EthereumLikeAccount) (wallet : Wallet)
    (transaction : EthereumLikeBlockchainExplorerTransaction) : Operation :=
  let inflated := inflateOperation acc wallet Operation.empty transaction
  { inflated with
    senders := [transaction.sender]
    recipients := [transaction.receiver]
    fees := some (transaction.gasPrice * transaction.gasUsed.getD 0)
    trust := some { trustWeight := 0 }
    date := transaction.receivedAt }

/-- The function `EthereumLikeAccount::interpretTransaction`: the new account state and the
output vector, or the error thrown. -/
def interpretTransaction (H : UidScheme) (acc : EthereumLikeAccount)
    (transaction : EthereumLikeBlockchainExplorerTransaction) (out : List Operation) :
    Except ErrorCode (EthereumLikeAccount × List Operation) :=
  match acc.wallet with
  | none => Except.error ErrorCode.RUNTIME_ERROR
  | some wallet =>
    let operation : Operation := operationSkeleton acc wallet transaction
    let st0 : InterpretState :=
      { acc := acc, operation := operation, out := out, result := FLAG_TRANSACTION_IGNORED }
    let sent : Except ErrorCode InterpretState :=
      if acc.accountAddress = transaction.sender then
        (updateOperation H transaction st0 OperationType.SEND).map
          (fun st => { st with result := FLAG_TRANSACTION_CREATED_SENDING_OPERATION })
      else Except.ok st0
    match sent with
    | Except.error e => Except.error e
    | Except.ok st1 =>
      let received : Except ErrorCode InterpretState :=
        if acc.accountAddress = transaction.receiver then
          (updateOperation H transaction st1 OperationType.RECEIVE).map
            (fun st => { st with result := FLAG_TRANSACTION_CREATED_RECEPTION_OPERATION })
        else Except.ok st1
      match received with
      | Except.error e => Except.error e
      | Except.ok st2 =>
        if st2.result = 0 ∧ (¬ transaction.erc20Transactions.isEmpty = true
            ∨ ¬ transaction.internalTransactions.isEmpty = true) then
          (updateOperation H transaction st2 OperationType.NONE).map
            (fun st => (st.acc, st.out))
        else Except.ok (st2.acc, st2.out)

/-! ## The operation ledger and its events -/

/-- The payload of the batched event `_batchedErc20Event` (code `UPDATE_ERC20_OPERATIONS`): the
arrays `EV_NEW_OP_UID` and `EV_NEW_OP_ERC20_ACCOUNT_UID`, the wallet name and the account
index. -/
structure ERC20OperationsEvent where
  newOpUid : List String
  newOpErc20AccountUid : List String
  walletName : String
  accountIndex : Int
  deriving DecidableEq, Repr, Inhabited

/-- The event side of the account: the new-operations notifications handed to the base
account, the batched token event and the token events already pushed. -/
structure EventState where
  newOperationsEvents : List (List String)
  batchedErc20Event : Option ERC20OperationsEvent
  pushedErc20Events : List ERC20OperationsEvent
  deriving DecidableEq, Repr, Inhabited

/-- The storage side of the account: the rows of the operations table, and the events. -/
structure AccountStore where
  ledger : List Operation
  events : EventState
  deriving DecidableEq, Repr, Inhabited

/-- Modelled from the spec: one row write of `EthereumLikeOperationDatabaseHelper::bulkInsert`,
whose body is missing. The ledger is keyed by uid and "uid collisions are upserts, not
duplicates": a row with the uid of the operation is replaced, otherwise the operation is
added. -/
def upsertOperation : List Operation → Operation → List Operation
  | [], op => [op]
  | row :: rows, op =>
    if row.uid = op.uid then op :: rows else row :: upsertOperation rows op

/-- Modelled from the spec: `EthereumLikeOperationDatabaseHelper::bulkInsert`, whose body is
missing: every operation of the batch is upserted, in order. -/
def databaseBulkInsert (ledger : List Operation) (operations : List Operation) :
    List Operation :=
  operations.foldl upsertOperation ledger

/-- Modelled from the spec: `AbstractAccount::emitNewOperationsEvent`, whose body is missing:
one "new operations" notification carrying the uids of the operations it is given. -/
def emitNewOperationsEvent (ev : EventState) (operations : List Operation) : EventState :=
  { ev with newOperationsEvents := ev.newOperationsEvents ++ [operations.map (fun op => op.uid)] }

/-- The function `EthereumLikeAccount::emitNewERC20Operations`. -/
def emitNewERC20Operations (wallet : Wallet) (acc : EthereumLikeAccount) (ev : EventState)
    (ops : List ERC20LikeOperation) (accountUid : String) : EventState :=
  if ops.isEmpty = true then ev
  else
    let batched : ERC20OperationsEvent :=
      match ev.batchedErc20Event with
      | some e => e
      | none =>
        { newOpUid := [], newOpErc20AccountUid := [], walletName := wallet.name,
          accountIndex := acc.index }
    let pushed : ERC20OperationsEvent :=
      ops.foldl (fun e op =>
        { e with newOpUid := e.newOpUid ++ [op.uid]
                 newOpErc20AccountUid := e.newOpErc20AccountUid ++ [accountUid] }) batched
    { ev with batchedErc20Event := some pushed }

/-- The function `EthereumLikeAccount::emitNewERC20Operation`. -/
def emitNewERC20Operation (wallet : Wallet) (acc : EthereumLikeAccount) (ev : EventState)
    (op : ERC20LikeOperation) (accountUid : String) : EventState :=
  emitNewERC20Operations wallet acc ev [op] accountUid

/-- The loop of `bulkInsert` over the operations and their attached token sub-operations. -/
def emitAttachedERC20Operations (wallet : Wallet) (acc : EthereumLikeAccount) (ev : EventState)
    (operations : List Operation) : EventState :=
  operations.foldl (fun ev1 op =>
    match op.attachedData with
    | none => ev1
    | some data =>
      data.erc20Operations.foldl (fun ev2 it => emitNewERC20Operation wallet acc ev2 it.2 it.1)
        ev1) ev

/-- The function `EthereumLikeAccount::bulkInsert`: the store after the commit and the count
returned, or the failure of the `Try` (a dead wallet reference). -/
def bulkInsert (acc : EthereumLikeAccount) (store : AccountStore) (operations : List Operation) :
    Except ErrorCode (AccountStore × Nat) :=
  match acc.wallet with
  | none => Except.error ErrorCode.RUNTIME_ERROR
  | some wallet =>
    let ledger := databaseBulkInsert store.ledger operations
    let emitted := emitNewOperationsEvent store.events operations
    Except.ok ({ ledger := ledger
                 events := emitAttachedERC20Operations wallet acc emitted operations },
               operations.length)

/-- The kinds of the operations that the interpreter emits for a transaction, by the position of
the watched address. -/
def interpretedKinds (acc : EthereumLikeAccount)
    (tx : EthereumLikeBlockchainExplorerTransaction) : List OperationType :=
  if acc.accountAddress = tx.sender then
    if acc.accountAddress = tx.receiver then [OperationType.SEND, OperationType.RECEIVE]
    else [OperationType.SEND]
  else if acc.accountAddress = tx.receiver then [OperationType.RECEIVE]
  else if ¬ tx.erc20Transactions.isEmpty = true ∨ ¬ tx.internalTransactions.isEmpty = true then
    [OperationType.NONE]
  else []

/-- An empty store. -/
def emptyStore : AccountStore :=
  { ledger := []
    events := { newOperationsEvents := [], batchedErc20Event := none, pushedErc20Events := [] } }

/-! ## Balance history -/

/-- Modelled from the spec: `DateUtils::incrementDate`, whose body is missing: the date moves
forward by the width of one bucket. The width `precision` stands for the `api::TimePeriod`. -/
def incrementDate (date precision : Int) : Int :=
  date + precision

/-- A default constructed `EthereumLikeBlockchainExplorerTransaction`. -/
def EthereumLikeBlockchainExplorerTransaction.empty :
    EthereumLikeBlockchainExplorerTransaction :=
  { hash := "", receivedAt := 0, value := 0, gasPrice := 0, gasLimit := 0, gasUsed := none,
    receiver := "", sender := "", block := none, status := 0, inputData := [],
    erc20Transactions := [], internalTransactions := [] }

/-- A row of the query of `getInternalOperations`, with the hexadecimal columns decoded. -/
structure InternalOperationRow where
  type : OperationType
  value : Int
  sender : String
  receiver : String
  gasLimit : Int
  gasUsed : Int
  gasPrice : Int
  date : Int
  status : Nat
  deriving DecidableEq, Repr, Inhabited

/-- The loop body of `EthereumLikeAccount::getInternalOperations`: a NONE row is skipped, the
fees are zero and a failed row has amount zero. -/
def internalOperationOfRow (row : InternalOperationRow) : Option Operation :=
  if row.type = OperationType.NONE then none
  else
    some { Operation.empty with
      type := row.type
      date := row.date
      fees := some 0
      amount := if row.status = 0 then 0 else row.value
      ethereumTransaction :=
        some { EthereumLikeBlockchainExplorerTransaction.empty with status := row.status } }

/-- The function `EthereumLikeAccount::getInternalOperations`, on the rows of its query. -/
def getInternalOperations (rows : List InternalOperationRow) : List Operation :=
  rows.filterMap internalOperationOfRow

/-- The call of `std::sort` in `getBalanceHistory`: the operations by ascending date. -/
def sortOperations (operations : List Operation) : List Operation :=
  operations.insertionSort (fun a b => a.date ≤ b.date)

/-- The local variables of the bucket walk of `getBalanceHistory`. -/
structure HistoryState where
  lowerDate : Int
  upperDate : Int
  amounts : List Int
  sum : Int
  deriving DecidableEq, Repr, Inhabited

/-- The inner loop `while (operation.date > upperDate && lowerDate < endDate)`: each turn closes
a bucket and emits the running sum. `none` when the fuel runs out before the loop ends. -/
def advanceBuckets (precision endDate date : Int) : Nat → HistoryState → Option HistoryState
  | 0, st => if date > st.upperDate ∧ st.lowerDate < endDate then none else some st
  | fuel + 1, st =>
    if date > st.upperDate ∧ st.lowerDate < endDate then
      advanceBuckets precision endDate date fuel
        { lowerDate := incrementDate st.lowerDate precision
          upperDate := incrementDate st.upperDate precision
          amounts := st.amounts ++ [st.sum]
          sum := st.sum }
    else some st

/-- The `if (operation.date <= upperDate)` with its `switch` on the kind of the operation. -/
def accumulate (operation : Operation) (st : HistoryState) : HistoryState :=
  if operation.date ≤ st.upperDate then
    match operation.type with
    | OperationType.RECEIVE => { st with sum := st.sum + operation.amount }
    | OperationType.SEND => { st with sum := st.sum - (operation.amount + operation.fees.getD 0) }
    | OperationType.NONE => st
  else st

/-- The outer loop `while (lowerDate <= endDate && operationsCount < operations.size())`, over
the operations that are left. -/
def walkOperations (precision endDate : Int) (fuel : Nat) :
    List Operation → HistoryState → Option HistoryState
  | [], st => some st
  | operation :: rest, st =>
    if st.lowerDate ≤ endDate then
      match advanceBuckets precision endDate operation.date fuel st with
      | none => none
      | some st1 => walkOperations precision endDate fuel rest (accumulate operation st1)
    else some st

/-- The last loop `while (lowerDate < endDate)`: the trailing buckets repeat the running sum. -/
def trailingBuckets (precision endDate : Int) : Nat → HistoryState → Option HistoryState
  | 0, st => if st.lowerDate < endDate then none else some st
  | fuel + 1, st =>
    if st.lowerDate < endDate then
      trailingBuckets precision endDate fuel
        { st with lowerDate := incrementDate st.lowerDate precision
                  amounts := st.amounts ++ [st.sum] }
    else some st

/-- The bucket walk of `getBalanceHistory` on the sorted operations. Every loop may take `fuel`
turns; `none` when one of them needs more. -/
def balanceHistoryOfSorted (fuel : Nat) (startDate endDate precision : Int)
    (operations : List Operation) : Option (List Int) :=
  let st0 : HistoryState :=
    { lowerDate := startDate, upperDate := incrementDate startDate precision, amounts := [],
      sum := 0 }
  match walkOperations precision endDate fuel operations st0 with
  | none => none
  | some st1 => (trailingBuckets precision endDate fuel st1).map (fun st2 => st2.amounts)

/-- The function `EthereumLikeAccount::getBalanceHistory`, on parsed dates, the operations of
the account in the ledger and the rows of the internal operations. An `Amount` is its value.
The result is `none` when a loop does not end within `fuel` turns. -/
def getBalanceHistory (fuel : Nat) (startDate endDate precision : Int)
    (ledgerOperations : List Operation) (internalRows : List InternalOperationRow) :
    Option (Except ErrorCode (List Int)) :=
  if startDate ≥ endDate then some (Except.error ErrorCode.INVALID_DATE_FORMAT)
  else
    let operations := ledgerOperations ++ getInternalOperations internalRows
    (balanceHistoryOfSorted fuel startDate endDate precision (sortOperations operations)).map
      Except.ok

/-- The signed contribution of an operation to the balance: `+amount` for a RECEIVE,
`-(amount + fees)` for a SEND, nothing for another kind. -/
def signedAmount (op : Operation) : Int :=
  match op.type with
  | OperationType.RECEIVE => op.amount
  | OperationType.SEND => -(op.amount + op.fees.getD 0)
  | OperationType.NONE => 0

/-- The running signed sum over all operations dated at or before `date`. -/
def balanceAt (operations : List Operation) (date : Int) : Int :=
  ((operations.filter (fun op => op.date ≤ date)).map signedAmount).sum

/-- The number of buckets still to close from `lowerDate`: the ceiling of
`(endDate - lowerDate) / precision`, and 0 when `lowerDate` has reached `endDate`. -/
def remainingBuckets (precision endDate lowerDate : Int) : Nat :=
  ((endDate - lowerDate + precision - 1) / precision).toNat

/-- The number of buckets of a history: the ceiling of `(endDate - startDate) / precision`. -/
def bucketCount (startDate endDate precision : Int) : Nat :=
  remainingBuckets precision endDate startDate

/-- The history as the spec words it: one entry per bucket, entry `k` being the running signed
sum at the upper bound `startDate + (k + 1) * precision` of bucket `k`. -/
def expectedHistory (startDate endDate precision : Int) (operations : List Operation) :
    List Int :=
  (List.range (bucketCount startDate endDate precision)).map
    (fun k : Nat => balanceAt operations (startDate + ((k : Int) + 1) * precision))

/-- The invariant of the bucket walk, with the operations `done` already visited and the
operations `rest` still to visit: the entries emitted so far are those of the expected history,
the lower bound has moved by one width per entry, the entries emitted and the buckets still to
close add up to the bucket count, and, as long as the lower bound is before the end, the
running sum is the signed sum of the visited operations, none of them dated after the upper
bound of the current bucket. -/
structure HistoryInv (startDate endDate precision : Int) (done rest : List Operation)
    (st : HistoryState) : Prop where
  amounts_eq : st.amounts = (List.range st.amounts.length).map
    (fun k : Nat => balanceAt (done ++ rest) (startDate + ((k : Int) + 1) * precision))
  lower_eq : st.lowerDate = startDate + (st.amounts.length : Int) * precision
  count_eq : st.amounts.length + remainingBuckets precision endDate st.lowerDate
    = bucketCount startDate endDate precision
  sum_eq : st.lowerDate < endDate →
    st.sum = (done.map signedAmount).sum ∧ ∀ o ∈ done, o.date ≤ st.lowerDate + precision

/-- An operation of the given kind, date, amount and fees, for the examples. -/
def sampleOperation (ty : OperationType) (date amount fees : Int) : Operation :=
  { Operation.empty with type := ty, date := date, amount := amount, fees := some fees }

/-! ## Balance cache and transaction builder -/

/-- The outcome of `getBalance`: the value of the future, the balance cache of the wallet
afterwards and the number of fetches made at the explorer. -/
structure BalanceOutcome where
  result : Except ErrorCode Int
  balanceCache : Option Int
  fetches : Nat
  deriving Repr

/-- The function `EthereumLikeAccount::getBalance`. `balanceCache` is what
`getBalanceFromCache` holds for the account and `explorerBalance` is what the future of
`_explorer->getBalance` completes with. An `Amount` is its value. -/
def getBalance (balanceCache : Option Int) (explorerBalance : Except ErrorCode Int) :
    BalanceOutcome :=
  match balanceCache with
  | some cachedBalance =>
    { result := Except.ok cachedBalance, balanceCache := balanceCache, fetches := 0 }
  | none =>
    match explorerBalance with
    | Except.ok balance =>
      { result := Except.ok balance, balanceCache := some balance, fetches := 1 }
    | Except.error e =>
      { result := Except.error e, balanceCache := none, fetches := 1 }

/-- The request `EthereumLikeTransactionBuildRequest`; its pointers are options. -/
structure EthereumLikeTransactionBuildRequest where
  toAddress : Option String
  value : Option Int
  gasPrice : Option Int
  gasLimit : Option Int
  inputData : List Nat
  wipe : Bool
  deriving DecidableEq, Repr, Inhabited

/-- The transaction `EthereumLikeTransactionApi` that the build function fills. -/
structure EthereumLikeTransactionApi where
  value : Option Int
  data : List Nat
  gasLimit : Option Int
  gasPrice : Option Int
  receiver : Option String
  sender : String
  nonce : Option Int
  deriving DecidableEq, Repr, Inhabited

/-- The setters of the build function, from `setValue` to `setSender`. -/
def assembleTransaction (request : EthereumLikeTransactionBuildRequest)
    (maxPossibleAmountToSend : Int) (accountAddress : String) : EthereumLikeTransactionApi :=
  { value := if request.wipe = true then some maxPossibleAmountToSend else request.value
    data := request.inputData
    gasLimit := request.gasLimit
    gasPrice := request.gasPrice
    receiver := request.toAddress
    sender := accountAddress
    nonce := none }

/-- The continuation that the build function runs on the balance, once `getBalance` has
succeeded. `explorerNonce` is what the future of `explorer->getNonce` completes with. A
dereference `*request.x` reads `request.x.getD 0`; it is reached only past the check that the
pointer is set. -/
def buildWithBalance (request : EthereumLikeTransactionBuildRequest)
    (explorerNonce : Except ErrorCode Int) (accountAddress : String) (balance : Int) :
    Except ErrorCode EthereumLikeTransactionApi :=
  if request.gasLimit.isNone = true ∨ request.gasPrice.isNone = true
      ∨ (request.value.isNone = true ∧ request.wipe = false) then
    Except.error ErrorCode.INVALID_ARGUMENT
  else
    let maxPossibleAmountToSend : Int :=
      balance - request.gasLimit.getD 0 * request.gasPrice.getD 0
    let amountToSend : Int := if request.wipe = true then 0 else request.value.getD 0
    if maxPossibleAmountToSend < amountToSend then
      Except.error ErrorCode.NOT_ENOUGH_FUNDS
    else
      match explorerNonce with
      | Except.error e => Except.error e
      | Except.ok nonce =>
        Except.ok { assembleTransaction request maxPossibleAmountToSend accountAddress with
                    nonce := some nonce }

/-- The outcome of the build function: the value of the future, the balance cache afterwards
and the number of balance fetches made at the explorer. -/
structure BuildOutcome where
  result : Except ErrorCode EthereumLikeTransactionApi
  balanceCache : Option Int
  balanceFetches : Nat
  deriving Repr

/-- The lambda `buildFunction` of `EthereumLikeAccount::buildTransaction`: `getBalance` first,
then, by `flatMapPtr`, the continuation on the balance; a failed balance future fails the
build. -/
def buildFunction (balanceCache : Option Int) (explorerBalance explorerNonce : Except ErrorCode Int)
    (accountAddress : String) (request : EthereumLikeTransactionBuildRequest) : BuildOutcome :=
  let fetched := getBalance balanceCache explorerBalance
  { result :=
      match fetched.result with
      | Except.error e => Except.error e
      | Except.ok balance => buildWithBalance request explorerNonce accountAddress balance
    balanceCache := fetched.balanceCache
    balanceFetches := fetched.fetches }

/-- A request for the examples: to `"Y"`, gas price 2. -/
def sampleRequest (value gasLimit : Option Int) (wipe : Bool) :
    EthereumLikeTransactionBuildRequest :=
  { toAddress := some "Y", value := value, gasPrice := some 2, gasLimit := gasLimit,
    inputData := [], wipe := wipe }

/-! ## Optimistic update after a broadcast -/

/-- Modelled from the spec: a digit of `hex::toString`, whose body is missing: lower case
hexadecimal. -/
def hexDigit (n : Nat) : Char :=
  if n < 10 then Char.ofNat (48 + n) else Char.ofNat (87 + n)

/-- Modelled from the spec: the value of a hexadecimal digit read by `BigInt::fromHex`, whose
body is missing; a character that is no digit counts as 0. -/
def hexValue (c : Char) : Nat :=
  if 48 ≤ c.toNat ∧ c.toNat ≤ 57 then c.toNat - 48
  else if 97 ≤ c.toNat ∧ c.toNat ≤ 102 then c.toNat - 87
  else if 65 ≤ c.toNat ∧ c.toNat ≤ 70 then c.toNat - 55
  else 0

/-- Modelled from the spec: `hex::toString`, whose body is missing: two digits per byte. -/
def hex.toString (bytes : List Nat) : String :=
  String.mk (bytes.flatMap (fun b => [hexDigit (b / 16 % 16), hexDigit (b % 16)]))

/-- Modelled from the spec: `BigInt::fromHex`, whose body is missing: the integer that the
hexadecimal digits write, most significant digit first. -/
def BigInt.fromHex (s : String) : Int :=
  ((s.data.foldl (fun n c => n * 16 + hexValue c) 0 : Nat) : Int)

/-- Modelled from the spec: `BigInt::toHexString`, whose body is missing: the hexadecimal
digits of the integer, without leading zeros (the source takes the round trip through `BigInt`
to "get rid of leading zeros"). -/
def BigInt.toHexString (n : Int) : String :=
  String.mk (Nat.toDigits 16 n.toNat)

/-- The integer that bytes write, most significant byte first. -/
def bigEndian (bytes : List Nat) : Int :=
  ((bytes.foldl (fun n b => n * 256 + b) 0 : Nat) : Int)

/-- Modelled from the spec: the entry `ERC20MethodsID.at("transfer")` of the table of
`erc20Tokens.h`, which is missing; the source names it in a comment: `0xa9059cbb`. -/
def ERC20MethodsID_transfer : String := "a9059cbb"

/-- The bytes of the transfer selector: `hex::toByteArray(ERC20MethodsID.at("transfer"))`. -/
def transferSelector : List Nat := [0xa9, 0x05, 0x9c, 0xbb]

/-- Whether the characters `s` begin with the characters `p`. -/
def startsWith : List Char → List Char → Bool
  | _, [] => true
  | [], _ :: _ => false
  | c :: s, d :: p => c == d && startsWith s p

/-- The test `s.find(p) != std::string::npos`: whether `p` occurs in `s`, at any offset. -/
def containsSubstring : List Char → List Char → Bool
  | [], p => startsWith [] p
  | c :: s, p => startsWith (c :: s) p || containsSubstring s p

/-- What the account reads of the transaction that `parseRawSignedTransaction` returns: the gas
limit, the gas price, the value, the receiver in EIP55 form and the optional data. -/
structure ParsedRawTransaction where
  gasLimit : Int
  gasPrice : Int
  value : Int
  receiver : String
  data : Option (List Nat)
  deriving DecidableEq, Repr, Inhabited

/-- The transaction parser and the address codec, whose bodies are not part of the account;
they are parameters of the embedding. `addressToEIP55 s` is
`EthereumLikeAddress::fromEIP55(s, currency, "", skipEIP55Check)->toEIP55()`. -/
structure RawTransactionCodec where
  parseRawSignedTransaction : List Nat → Except ErrorCode ParsedRawTransaction
  addressToEIP55 : String → Except ErrorCode String

/-- The string that `getETHLikeBlockchainExplorerTxFromRawTx` hands to the address codec for
the recipient of a token transfer: `"0x"` and the 32 bytes after the selector, taken through
`BigInt`. The reader skips the 4 bytes of the selector first. -/
def erc20RecipientString (inputData : List Nat) : String :=
  "0x" ++ BigInt.toHexString (BigInt.fromHex (hex.toString ((inputData.drop 4).take 32)))

/-- The value of a token transfer: the next 32 bytes of the reader, through `BigInt`. -/
def erc20TransferValue (inputData : List Nat) : Int :=
  BigInt.fromHex (hex.toString (((inputData.drop 4).drop 32).take 32))

/-- The function `EthereumLikeAccount::getETHLikeBlockchainExplorerTxFromRawTx`. `now` is the
reading of the system clock. -/
def getETHLikeBlockchainExplorerTxFromRawTx (codec : RawTransactionCodec)
    (account : EthereumLikeAccount) (txHash : String) (now : Int) (rawTx : List Nat) :
    Except ErrorCode EthereumLikeBlockchainExplorerTransaction :=
  match codec.parseRawSignedTransaction rawTx with
  | Except.error e => Except.error e
  | Except.ok tx =>
    let sender := account.accountAddress
    let txExplorer : EthereumLikeBlockchainExplorerTransaction :=
      { EthereumLikeBlockchainExplorerTransaction.empty with
        status := 1
        hash := txHash
        gasLimit := tx.gasLimit
        gasPrice := tx.gasPrice
        gasUsed := some 0
        value := tx.value
        sender := sender
        receiver := tx.receiver
        receivedAt := now
        inputData := tx.data.getD [] }
    let strInputData := hex.toString txExplorer.inputData
    if strInputData.length = 136
        ∧ containsSubstring strInputData.data ERC20MethodsID_transfer.data = true then
      match codec.addressToEIP55 (erc20RecipientString txExplorer.inputData) with
      | Except.error e => Except.error e
      | Except.ok toAddress =>
        let erc20Tx : ERC20Transaction :=
          { fromAddress := sender
            toAddress := toAddress
            value := erc20TransferValue txExplorer.inputData
            type := OperationType.SEND
            contractAddress := tx.receiver }
        Except.ok { txExplorer with
          erc20Transactions := txExplorer.erc20Transactions ++ [erc20Tx] }
    else Except.ok txExplorer

/-- The function `EthereumLikeAccount::emitEventsNow`: the batched token event, if any, is
pushed and the batch is cleared. The flush of the base account, which follows, keeps its own
batch and does not touch this state. -/
def emitEventsNow (ev : EventState) : EventState :=
  match ev.batchedErc20Event with
  | some e => { ev with pushedErc20Events := ev.pushedErc20Events ++ [e]
                        batchedErc20Event := none }
  | none => ev

/-- The body of the `Try` named `optimisticUpdate` in `broadcastRawTransaction`: the new
account, the new store and the count, or the exception that the `Try` catches. The `Try` that
`bulkInsert` returns is dropped. -/
def optimisticUpdate (codec : RawTransactionCodec) (H : UidScheme)
    (account : EthereumLikeAccount) (store : AccountStore) (txHash : String) (now : Int)
    (transaction : List Nat) : Except ErrorCode (EthereumLikeAccount × AccountStore × Nat) :=
  match getETHLikeBlockchainExplorerTxFromRawTx codec account txHash now transaction with
  | Except.error e => Except.error e
  | Except.ok txExplorer =>
    match interpretTransaction H account txExplorer [] with
    | Except.error e => Except.error e
    | Except.ok (account1, operations) =>
      let store1 : AccountStore :=
        match bulkInsert account1 store operations with
        | Except.ok (inserted, _) => inserted
        | Except.error _ => store
      Except.ok (account1, { store1 with events := emitEventsNow store1.events },
        operations.length)

/-- The outcome of `broadcastRawTransaction`: the value handed to the callback, and the account
and the store afterwards. -/
structure BroadcastOutcome where
  result : Except ErrorCode String
  account : EthereumLikeAccount
  store : AccountStore
  deriving Repr

/-- The function `EthereumLikeAccount::broadcastRawTransaction`. `pushed` is what the future of
`_explorer->pushTransaction` completes with; the continuation runs on its success only, and
returns the hash whatever the `Try` of the optimistic update holds. -/
def broadcastRawTransaction (codec : RawTransactionCodec) (H : UidScheme)
    (account : EthereumLikeAccount) (store : AccountStore) (now : Int)
    (pushed : Except ErrorCode String) (transaction : List Nat) : BroadcastOutcome :=
  match pushed with
  | Except.error e => { result := Except.error e, account := account, store := store }
  | Except.ok txHash =>
    match optimisticUpdate codec H account store txHash now transaction with
    | Except.ok (account1, store1, _) =>
      { result := Except.ok txHash, account := account1, store := store1 }
    | Except.error _ =>
      { result := Except.ok txHash, account := account, store := store }

/-- A codec for the examples: the raw bytes are the data of a transaction to the contract
`"0xToken"`, and the address codec returns its argument. -/
def sampleCodec : RawTransactionCodec :=
  { parseRawSignedTransaction := fun raw =>
      Except.ok { gasLimit := 21000, gasPrice := 2, value := 0, receiver := "0xToken",
                  data := some raw }
    addressToEIP55 := fun s => Except.ok s }

/-- A codec whose parser rejects every transaction. -/
def failingCodec : RawTransactionCodec :=
  { parseRawSignedTransaction := fun _ => Except.error ErrorCode.INVALID_ARGUMENT
    addressToEIP55 := fun s => Except.ok s }

/-- The 20 bytes of the address `0x000000000000000000000000000000000000dead`. -/
def deadAddressBytes : List Nat := List.replicate 18 0 ++ [0xde, 0xad]

/-- The call data of a transfer of 5 units to the address of `deadAddressBytes`: the selector,
the address in a 32-byte word and the value in a 32-byte word. -/
def transferToDeadAddress : List Nat :=
  transferSelector ++ (List.replicate 12 0 ++ deadAddressBytes) ++ (List.replicate 31 0 ++ [5])

/-- The 20 bytes of an address in which the bytes of the transfer selector occur. -/
def selectorLikeAddressBytes : List Nat := [0xa9, 0x05, 0x9c, 0xbb] ++ List.replicate 16 0x11

/-- 68 bytes of call data that begin with another selector, `0x12345678`, followed by the
address of `selectorLikeAddressBytes` in a 32-byte word and the value 5 in a 32-byte word. -/
def otherCallData : List Nat :=
  [0x12, 0x34, 0x56, 0x78] ++ (List.replicate 12 0 ++ selectorLikeAddressBytes)
    ++ (List.replicate 31 0 ++ [5])

/-! ## Synchronization -/

/-- The enum `api::EventCode`, as far as the account posts it. -/
inductive EventCode where
  | SYNCHRONIZATION_STARTED
  | SYNCHRONIZATION_SUCCEED
  | SYNCHRONIZATION_FAILED
  | UPDATE_ERC20_OPERATIONS
  deriving DecidableEq, Repr, Inhabited

/-- The keys `api::Account::EV_SYNC_...` of the payload of a synchronization event. -/
inductive PayloadKey where
  | EV_SYNC_DURATION_MS
  | EV_SYNC_LAST_BLOCK_HEIGHT
  | EV_SYNC_NEW_OPERATIONS
  | EV_SYNC_REORG_BLOCK_HEIGHT
  | EV_SYNC_ERROR_CODE
  | EV_SYNC_ERROR_CODE_INT
  | EV_SYNC_ERROR_MESSAGE
  deriving DecidableEq, Repr, Inhabited

/-- A value of a payload, by the setter that stores it: `putLong`, `putInt`, `putString`. -/
inductive DynamicValue where
  | long (value : Int)
  | int (value : Int)
  | string (value : String)
  deriving DecidableEq, Repr, Inhabited

/-- Modelled from the spec: the payload `DynamicObject`, whose body is missing: "a flat, ordered
key/value bag". -/
abbrev DynamicObject := List (PayloadKey × DynamicValue)

/-- Modelled from the spec: a setter of `DynamicObject`: the value of the key is replaced, or
the pair is added. -/
def DynamicObject.put (obj : DynamicObject) (key : PayloadKey) (value : DynamicValue) :
    DynamicObject :=
  obj.filter (fun kv => decide (kv.1 ≠ key)) ++ [(key, value)]

/-- Modelled from the spec: the reader of `DynamicObject`: the value of the key, if any. -/
def DynamicObject.get (obj : DynamicObject) (key : PayloadKey) : Option DynamicValue :=
  (obj.find? (fun kv => decide (kv.1 = key))).map (fun kv => kv.2)

/-- An event: its code and its payload. -/
structure Event where
  code : EventCode
  payload : DynamicObject
  deriving DecidableEq, Repr, Inhabited

/-- The cast `static_cast<int32_t>` of an integer. -/
def toInt32 (n : Int) : Int :=
  (n + 2 ^ 31) % 2 ^ 32 - 2 ^ 31

/-- The context that a successful synchronization pass returns. -/
structure SynchronizationContext where
  reorgBlockHeight : Option Nat
  lastBlockHeight : Nat
  newOperations : Nat
  deriving DecidableEq, Repr, Inhabited

/-- The exception that a failed synchronization pass holds. -/
structure SynchronizationFailure where
  errorCode : ErrorCode
  message : String
  deriving DecidableEq, Repr, Inhabited

/-- The name `api::to_string` and the number of an error code; the enum is declared outside
the account, so both are parameters of the embedding. -/
structure ErrorCodeNames where
  name : ErrorCode → String
  number : ErrorCode → Int

/-- The handler that `synchronize` attaches to the future of the pass, up to the event it
posts: the code and the payload of the terminal event. Dates are in milliseconds. -/
def synchronizationTerminalEvent (names : ErrorCodeNames) (startTime now : Int)
    (result : Except SynchronizationFailure SynchronizationContext) : Event :=
  let payload : DynamicObject :=
    DynamicObject.put [] PayloadKey.EV_SYNC_DURATION_MS (DynamicValue.long (now - startTime))
  match result with
  | Except.ok context =>
    let payload1 := DynamicObject.put payload PayloadKey.EV_SYNC_LAST_BLOCK_HEIGHT
      (DynamicValue.int (toInt32 context.lastBlockHeight))
    let payload2 := DynamicObject.put payload1 PayloadKey.EV_SYNC_NEW_OPERATIONS
      (DynamicValue.int (toInt32 context.newOperations))
    let payload3 :=
      match context.reorgBlockHeight with
      | some height =>
        DynamicObject.put payload2 PayloadKey.EV_SYNC_REORG_BLOCK_HEIGHT
          (DynamicValue.int (toInt32 height))
      | none => payload2
    { code := EventCode.SYNCHRONIZATION_SUCCEED, payload := payload3 }
  | Except.error failure =>
    let payload1 := DynamicObject.put payload PayloadKey.EV_SYNC_ERROR_CODE
      (DynamicValue.string (names.name failure.errorCode))
    let payload2 := DynamicObject.put payload1 PayloadKey.EV_SYNC_ERROR_CODE_INT
      (DynamicValue.int (toInt32 (names.number failure.errorCode)))
    let payload3 := DynamicObject.put payload2 PayloadKey.EV_SYNC_ERROR_MESSAGE
      (DynamicValue.string failure.message)
    { code := EventCode.SYNCHRONIZATION_FAILED, payload := payload3 }

/-- A synchronization pass in flight: the number of the event publisher created for it and its
start time. An event bus is known by the number of its publisher. -/
structure SynchronizationPass where
  eventPublisher : Nat
  startTime : Int
  deriving DecidableEq, Repr, Inhabited

/-- The synchronization state of the account: `_currentSyncEventBus`, the number of event
publishers created so far, the passes launched whose future has not completed, the number of
passes launched so far and the sticky events posted, each with its publisher. -/
structure SyncState where
  currentSyncEventBus : Option Nat
  publishers : Nat
  running : List SynchronizationPass
  launched : Nat
  posted : List (Nat × Event)
  deriving DecidableEq, Repr, Inhabited

/-- The account before any synchronization. -/
def SyncState.idle : SyncState :=
  { currentSyncEventBus := none, publishers := 0, running := [], launched := 0, posted := [] }

/-- The function `EthereumLikeAccount::synchronize`, under its lock: the new state and the event
bus returned. The refresh of the current block height, which it starts beside the pass, does
not touch this state. -/
def synchronize (now : Int) (st : SyncState) : SyncState × Nat :=
  match st.currentSyncEventBus with
  | some bus => (st, bus)
  | none =>
    let eventPublisher := st.publishers
    ({ currentSyncEventBus := some eventPublisher
       publishers := st.publishers + 1
       running := st.running ++ [{ eventPublisher := eventPublisher, startTime := now }]
       launched := st.launched + 1
       posted := st.posted ++
         [(eventPublisher, { code := EventCode.SYNCHRONIZATION_STARTED, payload := [] })] },
     eventPublisher)

/-- The handler that `synchronize` attaches to the future of the pass: the terminal event is
posted on the publisher of the pass and `_currentSyncEventBus` is cleared. -/
def completeSynchronization (names : ErrorCodeNames) (now : Int) (pass : SynchronizationPass)
    (result : Except SynchronizationFailure SynchronizationContext) (st : SyncState) :
    SyncState :=
  { st with
    posted := st.posted ++
      [(pass.eventPublisher, synchronizationTerminalEvent names pass.startTime now result)]
    currentSyncEventBus := none
    running := st.running.filter (fun p => decide (p.eventPublisher ≠ pass.eventPublisher)) }

/-- The function `EthereumLikeAccount::eraseDataSince`, on the synchronization state: the
stored event bus is cleared; the passes in flight are not stopped. Its deletions in the
database do not touch this state. The future it returns holds `FUTURE_WAS_SUCCESSFULL`. -/
def eraseDataSince (st : SyncState) : SyncState × ErrorCode :=
  ({ st with currentSyncEventBus := none }, ErrorCode.FUTURE_WAS_SUCCESSFULL)

/-- What can happen to the synchronization state: a call of `synchronize`, the completion of
the pass of a publisher, a call of `eraseDataSince`. -/
inductive SyncAction where
  | synchronize (now : Int)
  | complete (eventPublisher : Nat) (now : Int)
      (result : Except SynchronizationFailure SynchronizationContext)
  | eraseDataSince

/-- One action on the synchronization state. The completion of a pass that is not in flight
does nothing. -/
def SyncState.step (names : ErrorCodeNames) (st : SyncState) : SyncAction → SyncState
  | SyncAction.synchronize now => (synchronize now st).1
  | SyncAction.complete eventPublisher now result =>
    match st.running.find? (fun p => decide (p.eventPublisher = eventPublisher)) with
    | some pass => completeSynchronization names now pass result st
    | none => st
  | SyncAction.eraseDataSince => (eraseDataSince st).1

/-- A sequence of actions on the synchronization state. -/
def SyncState.run (names : ErrorCodeNames) (st : SyncState) (actions : List SyncAction) :
    SyncState :=
  actions.foldl (SyncState.step names) st

/-- Whether every `eraseDataSince` of the sequence is called while no pass is in flight. -/
def erasesWhileIdle (names : ErrorCodeNames) : SyncState → List SyncAction → Bool
  | _, [] => true
  | st, SyncAction.eraseDataSince :: rest =>
    st.running.isEmpty && erasesWhileIdle names (st.step names SyncAction.eraseDataSince) rest
  | st, action :: rest => erasesWhileIdle names (st.step names action) rest

/-- The invariant of the single flight: either no bus is stored and no pass is in flight, or
the stored bus is the bus of the one pass in flight. -/
def SingleFlight (st : SyncState) : Prop :=
  (st.currentSyncEventBus = none ∧ st.running = [])
  ∨ ∃ pass, st.currentSyncEventBus = some pass.eventPublisher ∧ st.running = [pass]

/-- The context of a pass that ended at block 7 with 2 new operations and no
reorganization. -/
def sampleContext : SynchronizationContext :=
  { reorgBlockHeight := none, lastBlockHeight := 7, newOperations := 2 }

/-- Names of the error codes for the examples. -/
def sampleNames : ErrorCodeNames :=
  { name := fun _ => "ERROR", number := fun _ => 1 }

/-! ## Token sub-operation handling, call by call -/

/-- The kind that `updateERC20Accounts` gives a token transfer: SEND when its source is the
watched address, else RECEIVE when its destination is, else NONE. -/
def classifyERC20 (accountAddress : String) (erc20Tx : ERC20Transaction) : OperationType :=
  if erc20Tx.fromAddress = accountAddress then OperationType.SEND
  else if erc20Tx.toAddress = accountAddress then OperationType.RECEIVE
  else OperationType.NONE

/-- The calls of `updateERC20Operation` that the loop of `updateERC20Accounts` makes, in order,
each by its argument: one call with the classified kind, and one more with the kind RECEIVE
under the test `erc20Tx.to == _accountAddress`. -/
def erc20HandlingCalls (accountAddress : String) : List ERC20Transaction → List ERC20Transaction
  | [] => []
  | erc20Tx :: rest =>
    { erc20Tx with type := classifyERC20 accountAddress erc20Tx }
      :: ((if erc20Tx.toAddress = accountAddress then
            [{ erc20Tx with type := OperationType.RECEIVE }]
          else [])
        ++ erc20HandlingCalls accountAddress rest)

/-- The calls of `updateERC20Operation` of a list of arguments, one after the other. -/
def handleERC20Calls (H : UidScheme) :
    List ERC20Transaction → EthereumLikeAccount → Operation →
      Except ErrorCode (EthereumLikeAccount × Operation)
  | [], acc, operation => Except.ok (acc, operation)
  | erc20Tx :: rest, acc, operation =>
    match updateERC20Operation H acc operation erc20Tx with
    | Except.error e => Except.error e
    | Except.ok (acc1, operation1) => handleERC20Calls H rest acc1 operation1

/-- The sub-accounts of a registry that match a contract and an address. -/
def matchingAccounts (accountAddress contractAddress : String)
    (accounts : List ERC20LikeAccount) : List ERC20LikeAccount :=
  accounts.filter (fun account =>
    decide (account.token.contractAddress = contractAddress ∧ account.address = accountAddress))


/-- The sub-account that `updateERC20Operation` creates for a contract: the uid of the pair
(account, contract), a placeholder token and the watched address. -/
def newERC20Account (H : UidScheme) (acc : EthereumLikeAccount) (contractAddress : String) :
    ERC20LikeAccount :=
  { uid := H.createERC20AccountUid acc.accountUid contractAddress
    token := { name := "UNKNOWN_TOKEN", symbol := "UNKNOWN", contractAddress := contractAddress,
               numberOfDecimal := 0 }
    address := acc.accountAddress }

/-- The sub-operation that `updateERC20Operation` builds for a parent operation and a token
transfer. -/
def erc20OperationOf (H : UidScheme) (operation : Operation) (erc20Tx : ERC20Transaction) :
    ERC20LikeOperation :=
  ERC20LikeOperation.create
    (H.createUid operation.uid erc20Tx.contractAddress erc20Tx.type) operation erc20Tx

/-- The key of a sub-account in the registry: its contract address and its address. -/
def ERC20LikeAccount.key (account : ERC20LikeAccount) : String × String :=
  (account.token.contractAddress, account.address)

/-- The account uids that the batched token event holds; none when there is no batch. -/
def EventState.batchedAccountUids (ev : EventState) : List String :=
  match ev.batchedErc20Event with
  | some e => e.newOpErc20AccountUid
  | none => []

/-- A sequence of calls of `emitNewERC20Operations`, each with its sub-operations and its
account uid. -/
def emitAllERC20Operations (wallet : Wallet) (acc : EthereumLikeAccount) (ev : EventState)
    (calls : List (List ERC20LikeOperation × String)) : EventState :=
  calls.foldl (fun ev1 call => emitNewERC20Operations wallet acc ev1 call.1 call.2) ev

/-- The pairs (operation uid, account uid) that a sequence of calls of `emitNewERC20Operations`
appends, in the order of the appends. -/
def appendedPairs (calls : List (List ERC20LikeOperation × String)) : List (String × String) :=
  calls.flatMap (fun call => call.1.map (fun op => (op.uid, call.2)))

/-- The sub-accounts that receive the sub-operation of one call of `updateERC20Operation`: the
registered sub-accounts that match the contract and the watched address, or the new
sub-account when none matches. -/
def receivingAccounts (H : UidScheme) (acc : EthereumLikeAccount) (contractAddress : String) :
    List ERC20LikeAccount :=
  if matchingAccounts acc.accountAddress contractAddress acc.erc20LikeAccounts = [] then
    [newERC20Account H acc contractAddress]
  else matchingAccounts acc.accountAddress contractAddress acc.erc20LikeAccounts

/-- The pairs (sub-account uid, sub-operation) that a sequence of calls of
`updateERC20Operation` on the parent operation hands to `putOperation`, in order. -/
def attachedERC20Operations (H : UidScheme) (acc : EthereumLikeAccount) (operation : Operation)
    (calls : List ERC20Transaction) : List (String × ERC20LikeOperation) :=
  calls.flatMap (fun erc20Tx =>
    (receivingAccounts H acc erc20Tx.contractAddress).map
      (fun account => (account.uid, erc20OperationOf H operation erc20Tx)))

/-- A token sub-operation of the given uid, for the examples. -/
def sampleERC20Operation (uid : String) : ERC20LikeOperation :=
  { uid := uid, ethUidOperation := "op", hash := "h", operationType := OperationType.SEND,
    sender := "X", receiver := "Y", value := 1 }

/-! ## Sample data -/

/-- A uid scheme that concatenates its arguments, for the examples. -/
def sampleScheme : UidScheme :=
  { createUid := fun a b ty =>
      a ++ "/" ++ b ++ "/" ++
        (match ty with
         | OperationType.SEND => "SEND"
         | OperationType.RECEIVE => "RECEIVE"
         | OperationType.NONE => "NONE")
    createERC20AccountUid := fun a c => a ++ "#" ++ c }

/-- A wallet for the examples. -/
def sampleWallet : Wallet :=
  { walletUid := "w", name := "wallet", currencyName := "ethereum" }

/-- An account watching the address `"X"`, with no token sub-account. -/
def sampleAccount : EthereumLikeAccount :=
  { wallet := some sampleWallet, index := 0, accountUid := "acc", accountAddress := "X",
    erc20LikeAccounts := [] }

/-- A block for the examples. -/
def sampleBlock : Block :=
  { hash := "b", height := 7, time := 100, currencyName := "" }

/-- A transaction of value 5 from `sender` to `receiver`, gas price 2 and 3 units of gas
used. -/
def sampleTx (sender receiver : String) (status : Nat) (block : Option Block)
    (erc20 : List ERC20Transaction) : EthereumLikeBlockchainExplorerTransaction :=
  { hash := "h", receivedAt := 50, value := 5, gasPrice := 2, gasLimit := 10, gasUsed := some 3,
    receiver := receiver, sender := sender, block := block, status := status, inputData := [],
    erc20Transactions := erc20, internalTransactions := [] }

/-- A token transfer of 9 units of the contract `"C"`. -/
def sampleTransfer (sender receiver : String) : ERC20Transaction :=
  { fromAddress := sender, toAddress := receiver, value := 9, contractAddress := "C",
    type := OperationType.NONE }

/-- A parent operation of the sample account, with empty attached data: the operation of a
transaction from `"Y"` to `"X"` that carries a token transfer from `"Y"` to `"X"`. -/
def sampleParent : Operation :=
  { Operation.empty with
    uid := "op", accountUid := "acc"
    ethereumTransaction :=
      some (sampleTx "Y" "X" 1 (some sampleBlock) [sampleTransfer "Y" "X"])
    attachedData := some { accounts := [], erc20Operations := [] } }

/-- A confirmed transaction that the address `"X"` sends to itself and that carries a token
transfer from `"X"` to `"X"`. -/
def sampleSelfTransfer : EthereumLikeBlockchainExplorerTransaction :=
  sampleTx "X" "X" 1 (some sampleBlock) [sampleTransfer "X" "X"]

/-- The operation uids that the batched token event holds; none when there is no batch. -/
def EventState.batchedOpUids (ev : EventState) : List String :=
  match ev.batchedErc20Event with
  | some e => e.newOpUid
  | none => []

/-- The uids of the token sub-operations attached to the operations of a batch, in order. -/
def attachedERC20Uids (operations : List Operation) : List String :=
  operations.flatMap (fun op =>
    match op.attachedData with
    | none => []
    | some data => data.erc20Operations.map (fun it => it.2.uid))

/-- The operations that the sample account interprets from a send of 5 to `"Y"` that carries
a token transfer; empty if the interpreter fails. -/
def sampleInterpreted : List Operation :=
  match interpretTransaction sampleScheme sampleAccount
      (sampleTx "X" "Y" 1 (some sampleBlock) [sampleTransfer "X" "Y"]) [] with
  | Except.ok (_, operations) => operations
  | Except.error _ => []

end ledger.core

/-! ## Lemmas on the interpreter -/

namespace ledger.core

theorem putOperation_attached (account : ERC20LikeAccount) (op : Operation)
    (e : ERC20LikeOperation) (d : EthereumOperationAttachedData)
    (h : op.attachedData = some d) :
    ∃ d1, account.putOperation op e = op.setAttachedData (some d1) := by
  unfold ERC20LikeAccount.putOperation
  rw [h]
  exact ⟨_, rfl⟩

theorem putInMatchingAccounts_attached (a c : String) (e : ERC20LikeOperation)
    (l : List ERC20LikeAccount) :
    ∀ (op : Operation) (need : Bool) (d : EthereumOperationAttachedData),
      op.attachedData = some d →
      ∃ d1 b, putInMatchingAccounts a c e l (op, need) = (op.setAttachedData (some d1), b) := by
  induction l with
  | nil =>
    intro op need d h
    refine ⟨d, need, ?_⟩
    simp only [putInMatchingAccounts]
    rw [← h]
    rfl
  | cons account rest ih =>
    intro op need d h
    simp only [putInMatchingAccounts]
    split
    · obtain ⟨d1, h1⟩ := putOperation_attached account op e d h
      rw [h1]
      obtain ⟨d2, b, h2⟩ := ih (op.setAttachedData (some d1)) false d1 rfl
      exact ⟨d2, b, h2⟩
    · exact ih op need d h

theorem updateERC20Operation_ok (H : UidScheme) (acc : EthereumLikeAccount) (op : Operation)
    (t : ERC20Transaction) (d : EthereumOperationAttachedData) (h : op.attachedData = some d) :
    ∃ l d1, updateERC20Operation H acc op t
      = Except.ok (acc.setERC20LikeAccounts l, op.setAttachedData (some d1)) := by
  unfold updateERC20Operation
  rw [h]
  simp only
  obtain ⟨d1, b, h1⟩ := putInMatchingAccounts_attached acc.accountAddress t.contractAddress
    (ERC20LikeOperation.create (H.createUid op.uid t.contractAddress t.type) op t)
    acc.erc20LikeAccounts op true d h
  rw [h1]
  cases b with
  | true =>
    simp only [if_true]
    obtain ⟨d2, h2⟩ := putOperation_attached
      { uid := H.createERC20AccountUid acc.accountUid t.contractAddress,
        token := { name := "UNKNOWN_TOKEN", symbol := "UNKNOWN",
                   contractAddress := t.contractAddress, numberOfDecimal := 0 },
        address := acc.accountAddress }
      ((op.setAttachedData (some d1)).setAttachedData
        ((op.setAttachedData (some d1)).attachedData.map (fun data => { data with
          accounts := data.accounts ++
          [{ uid := H.createERC20AccountUid acc.accountUid t.contractAddress,
             token := { name := "UNKNOWN_TOKEN", symbol := "UNKNOWN",
                        contractAddress := t.contractAddress, numberOfDecimal := 0 },
             address := acc.accountAddress }] })))
      (ERC20LikeOperation.create (H.createUid op.uid t.contractAddress t.type) op t) _ rfl
    rw [h2]
    exact ⟨_, _, rfl⟩
  | false =>
    exact ⟨acc.erc20LikeAccounts, d1, rfl⟩

theorem updateERC20AccountsLoop_ok (H : UidScheme) (ts : List ERC20Transaction) :
    ∀ (acc : EthereumLikeAccount) (op : Operation) (d : EthereumOperationAttachedData),
      op.attachedData = some d →
      ∃ l d1, updateERC20AccountsLoop H ts acc op
        = Except.ok (acc.setERC20LikeAccounts l, op.setAttachedData (some d1)) := by
  induction ts with
  | nil =>
    intro acc op d h
    refine ⟨acc.erc20LikeAccounts, d, ?_⟩
    simp only [updateERC20AccountsLoop]
    rw [← h]
    rfl
  | cons t rest ih =>
    intro acc op d h
    simp only [updateERC20AccountsLoop]
    obtain ⟨l1, d1, h1⟩ := updateERC20Operation_ok H acc op
      { t with type := if t.fromAddress = acc.accountAddress then OperationType.SEND
                       else if t.toAddress = acc.accountAddress then OperationType.RECEIVE
                       else OperationType.NONE } d h
    rw [h1]
    simp only
    split
    · obtain ⟨l2, d2, h2⟩ := updateERC20Operation_ok H (acc.setERC20LikeAccounts l1)
        (op.setAttachedData (some d1)) { t with type := OperationType.RECEIVE } d1 rfl
      rw [h2]
      simp only
      exact ih _ _ d2 rfl
    · exact ih _ _ d1 rfl

theorem updateOperation_first (H : UidScheme)
    (tx tx0 : EthereumLikeBlockchainExplorerTransaction) (st : InterpretState)
    (ty : OperationType) (hres : st.result = 0)
    (htx : st.operation.ethereumTransaction = some tx0) :
    ∃ l d, updateOperation H tx st ty = Except.ok
      { acc := st.acc.setERC20LikeAccounts l
        operation := (typedOperation H tx st.operation ty).setAttachedData none
        out := st.out ++ [(typedOperation H tx st.operation ty).setAttachedData (some d)]
        result := st.result } := by
  obtain ⟨l, d, h⟩ := updateERC20AccountsLoop_ok H tx0.erc20Transactions st.acc
    ((typedOperation H tx st.operation ty).setAttachedData
      (some { accounts := [], erc20Operations := [] })) _ rfl
  have h0 : ((typedOperation H tx st.operation ty).setAttachedData
      (some { accounts := [], erc20Operations := [] })).ethereumTransaction = some tx0 := htx
  refine ⟨l, d, ?_⟩
  unfold updateOperation updateERC20Accounts
  simp only [hres, if_true, h0, h]
  rfl

theorem updateOperation_later (H : UidScheme) (tx : EthereumLikeBlockchainExplorerTransaction)
    (st : InterpretState) (ty : OperationType) (hres : st.result ≠ 0) :
    updateOperation H tx st ty = Except.ok
      { st with operation := (typedOperation H tx st.operation ty).setAttachedData none
                out := st.out ++ [typedOperation H tx st.operation ty] } := by
  unfold updateOperation
  simp only [hres, if_false]

/-- The interpreter on a transaction that the watched address sends to itself. -/
theorem interpretTransaction_send_receive (H : UidScheme) (acc : EthereumLikeAccount)
    (wallet : Wallet) (tx : EthereumLikeBlockchainExplorerTransaction) (out : List Operation)
    (hw : acc.wallet = some wallet) (hs : acc.accountAddress = tx.sender)
    (hr : acc.accountAddress = tx.receiver) :
    ∃ l d, interpretTransaction H acc tx out = Except.ok
      (acc.setERC20LikeAccounts l,
        out ++ [(typedOperation H tx (operationSkeleton acc wallet tx)
                  OperationType.SEND).setAttachedData (some d),
                typedOperation H tx (operationSkeleton acc wallet tx) OperationType.RECEIVE]) := by
  obtain ⟨l, d, h⟩ := updateOperation_first H tx _
    { acc := acc, operation := operationSkeleton acc wallet tx, out := out,
      result := FLAG_TRANSACTION_IGNORED } OperationType.SEND rfl rfl
  refine ⟨l, d, ?_⟩
  unfold interpretTransaction
  simp only [hw]
  rw [if_pos hs, h]
  simp only [Except.map]
  rw [if_pos hr, updateOperation_later _ _ _ _
    (by simp [FLAG_TRANSACTION_CREATED_SENDING_OPERATION])]
  simp only [Except.map]
  rw [if_neg (by simp [FLAG_TRANSACTION_CREATED_RECEPTION_OPERATION])]
  simp only [List.append_assoc, List.singleton_append]
  rfl

/-- The interpreter on a transaction that the watched address sends to another address. -/
theorem interpretTransaction_send_only (H : UidScheme) (acc : EthereumLikeAccount)
    (wallet : Wallet) (tx : EthereumLikeBlockchainExplorerTransaction) (out : List Operation)
    (hw : acc.wallet = some wallet) (hs : acc.accountAddress = tx.sender)
    (hr : ¬ acc.accountAddress = tx.receiver) :
    ∃ l d, interpretTransaction H acc tx out = Except.ok
      (acc.setERC20LikeAccounts l,
        out ++ [(typedOperation H tx (operationSkeleton acc wallet tx)
                  OperationType.SEND).setAttachedData (some d)]) := by
  obtain ⟨l, d, h⟩ := updateOperation_first H tx _
    { acc := acc, operation := operationSkeleton acc wallet tx, out := out,
      result := FLAG_TRANSACTION_IGNORED } OperationType.SEND rfl rfl
  refine ⟨l, d, ?_⟩
  unfold interpretTransaction
  simp only [hw]
  rw [if_pos hs, h]
  simp only [Except.map]
  rw [if_neg hr]
  simp only
  rw [if_neg (by simp [FLAG_TRANSACTION_CREATED_SENDING_OPERATION])]

/-- The interpreter on a transaction that the watched address receives from another address. -/
theorem interpretTransaction_receive_only (H : UidScheme) (acc : EthereumLikeAccount)
    (wallet : Wallet) (tx : EthereumLikeBlockchainExplorerTransaction) (out : List Operation)
    (hw : acc.wallet = some wallet) (hs : ¬ acc.accountAddress = tx.sender)
    (hr : acc.accountAddress = tx.receiver) :
    ∃ l d, interpretTransaction H acc tx out = Except.ok
      (acc.setERC20LikeAccounts l,
        out ++ [(typedOperation H tx (operationSkeleton acc wallet tx)
                  OperationType.RECEIVE).setAttachedData (some d)]) := by
  obtain ⟨l, d, h⟩ := updateOperation_first H tx _
    { acc := acc, operation := operationSkeleton acc wallet tx, out := out,
      result := FLAG_TRANSACTION_IGNORED } OperationType.RECEIVE rfl rfl
  refine ⟨l, d, ?_⟩
  unfold interpretTransaction
  simp only [hw]
  rw [if_neg hs]
  simp only
  rw [if_pos hr, h]
  simp only [Except.map]
  rw [if_neg (by simp [FLAG_TRANSACTION_CREATED_RECEPTION_OPERATION])]

/-- The interpreter on a transaction that the watched address neither sends nor receives, with
a token transfer or an internal transaction. -/
theorem interpretTransaction_carrier (H : UidScheme) (acc : EthereumLikeAccount)
    (wallet : Wallet) (tx : EthereumLikeBlockchainExplorerTransaction) (out : List Operation)
    (hw : acc.wallet = some wallet) (hs : ¬ acc.accountAddress = tx.sender)
    (hr : ¬ acc.accountAddress = tx.receiver)
    (hside : ¬ tx.erc20Transactions.isEmpty = true ∨ ¬ tx.internalTransactions.isEmpty = true) :
    ∃ l d, interpretTransaction H acc tx out = Except.ok
      (acc.setERC20LikeAccounts l,
        out ++ [(typedOperation H tx (operationSkeleton acc wallet tx)
                  OperationType.NONE).setAttachedData (some d)]) := by
  obtain ⟨l, d, h⟩ := updateOperation_first H tx _
    { acc := acc, operation := operationSkeleton acc wallet tx, out := out,
      result := FLAG_TRANSACTION_IGNORED } OperationType.NONE rfl rfl
  refine ⟨l, d, ?_⟩
  unfold interpretTransaction
  simp only [hw]
  rw [if_neg hs]
  simp only
  rw [if_neg hr]
  simp only
  rw [if_pos ⟨rfl, hside⟩, h]
  rfl

/-- The interpreter on a transaction that does not concern the watched address at all. -/
theorem interpretTransaction_ignored (H : UidScheme) (acc : EthereumLikeAccount)
    (wallet : Wallet) (tx : EthereumLikeBlockchainExplorerTransaction) (out : List Operation)
    (hw : acc.wallet = some wallet) (hs : ¬ acc.accountAddress = tx.sender)
    (hr : ¬ acc.accountAddress = tx.receiver)
    (hside : ¬ (¬ tx.erc20Transactions.isEmpty = true ∨ ¬ tx.internalTransactions.isEmpty = true)) :
    interpretTransaction H acc tx out = Except.ok (acc, out) := by
  unfold interpretTransaction
  simp only [hw]
  rw [if_neg hs]
  simp only
  rw [if_neg hr]
  simp only
  rw [if_neg (fun h => hside h.2)]

/-- With a live wallet the interpreter returns: it appends operations to the output, each of
them the typed skeleton with some attached data or none, and changes nothing of the account but
its list of token sub-accounts. -/
theorem interpretTransaction_shape (H : UidScheme) (acc : EthereumLikeAccount)
    (wallet : Wallet) (tx : EthereumLikeBlockchainExplorerTransaction) (out : List Operation)
    (hw : acc.wallet = some wallet) :
    ∃ l ops, interpretTransaction H acc tx out
        = Except.ok (acc.setERC20LikeAccounts l, out ++ ops)
      ∧ ∀ op ∈ ops, ∃ ty a,
          op = (typedOperation H tx (operationSkeleton acc wallet tx) ty).setAttachedData a := by
  by_cases hs : acc.accountAddress = tx.sender
  · by_cases hr : acc.accountAddress = tx.receiver
    · obtain ⟨l, d, h⟩ := interpretTransaction_send_receive H acc wallet tx out hw hs hr
      refine ⟨l, _, h, ?_⟩
      intro op hop
      simp only [List.mem_cons, List.mem_singleton, List.not_mem_nil, or_false] at hop
      rcases hop with rfl | rfl
      · exact ⟨_, _, rfl⟩
      · exact ⟨OperationType.RECEIVE, none, rfl⟩
    · obtain ⟨l, d, h⟩ := interpretTransaction_send_only H acc wallet tx out hw hs hr
      refine ⟨l, _, h, ?_⟩
      intro op hop
      simp only [List.mem_singleton] at hop
      exact ⟨_, _, hop⟩
  · by_cases hr : acc.accountAddress = tx.receiver
    · obtain ⟨l, d, h⟩ := interpretTransaction_receive_only H acc wallet tx out hw hs hr
      refine ⟨l, _, h, ?_⟩
      intro op hop
      simp only [List.mem_singleton] at hop
      exact ⟨_, _, hop⟩
    · by_cases hside : ¬ tx.erc20Transactions.isEmpty = true
          ∨ ¬ tx.internalTransactions.isEmpty = true
      · obtain ⟨l, d, h⟩ := interpretTransaction_carrier H acc wallet tx out hw hs hr hside
        refine ⟨l, _, h, ?_⟩
        intro op hop
        simp only [List.mem_singleton] at hop
        exact ⟨_, _, hop⟩
      · refine ⟨acc.erc20LikeAccounts, [], ?_, ?_⟩
        · rw [interpretTransaction_ignored H acc wallet tx out hw hs hr hside]
          simp only [List.append_nil]
          rfl
        · intro op hop
          exact absurd hop (List.not_mem_nil op)

end ledger.core

/-! ## Lemmas on the replay of a transaction -/

namespace ledger.core

/-- With a live wallet the interpreter returns, and the operations it appends are, up to their
attached data, the typed skeletons of the kinds `interpretedKinds`. -/
theorem interpretTransaction_kinds (H : UidScheme) (acc : EthereumLikeAccount)
    (wallet : Wallet) (tx : EthereumLikeBlockchainExplorerTransaction) (out : List Operation)
    (hw : acc.wallet = some wallet) :
    ∃ l ops, interpretTransaction H acc tx out
        = Except.ok (acc.setERC20LikeAccounts l, out ++ ops)
      ∧ ops.map (fun op => op.setAttachedData none)
        = (interpretedKinds acc tx).map
            (typedOperation H tx (operationSkeleton acc wallet tx)) := by
  unfold interpretedKinds
  by_cases hs : acc.accountAddress = tx.sender
  · by_cases hr : acc.accountAddress = tx.receiver
    · obtain ⟨l, d, h⟩ := interpretTransaction_send_receive H acc wallet tx out hw hs hr
      refine ⟨l, _, h, ?_⟩
      rw [if_pos hs, if_pos hr]
      rfl
    · obtain ⟨l, d, h⟩ := interpretTransaction_send_only H acc wallet tx out hw hs hr
      refine ⟨l, _, h, ?_⟩
      rw [if_pos hs, if_neg hr]
      rfl
  · by_cases hr : acc.accountAddress = tx.receiver
    · obtain ⟨l, d, h⟩ := interpretTransaction_receive_only H acc wallet tx out hw hs hr
      refine ⟨l, _, h, ?_⟩
      rw [if_neg hs, if_pos hr]
      rfl
    · by_cases hside : ¬ tx.erc20Transactions.isEmpty = true
          ∨ ¬ tx.internalTransactions.isEmpty = true
      · obtain ⟨l, d, h⟩ := interpretTransaction_carrier H acc wallet tx out hw hs hr hside
        refine ⟨l, _, h, ?_⟩
        rw [if_neg hs, if_neg hr, if_pos hside]
        rfl
      · refine ⟨acc.erc20LikeAccounts, [], ?_, ?_⟩
        · rw [interpretTransaction_ignored H acc wallet tx out hw hs hr hside]
          simp only [List.append_nil]
          rfl
        · rw [if_neg hs, if_neg hr, if_neg hside]
          rfl

theorem upsertOperation_uids (l : List Operation) (op : Operation) :
    (upsertOperation l op).map (fun r => r.uid)
      = if op.uid ∈ l.map (fun r => r.uid) then l.map (fun r => r.uid)
        else l.map (fun r => r.uid) ++ [op.uid] := by
  induction l with
  | nil => simp [upsertOperation]
  | cons row rows ih =>
    by_cases h : row.uid = op.uid
    · simp [upsertOperation, h]
    · have h1 : ¬ op.uid = row.uid := fun e => h e.symm
      simp only [upsertOperation, if_neg h, List.map_cons, ih, List.mem_cons, h1, false_or]
      split <;> simp

theorem upsertOperation_length_of_mem (l : List Operation) (op : Operation)
    (h : op.uid ∈ l.map (fun r => r.uid)) :
    (upsertOperation l op).length = l.length := by
  have h1 := congrArg List.length (upsertOperation_uids l op)
  rw [if_pos h] at h1
  simpa using h1

theorem upsertOperation_nodup (l : List Operation) (op : Operation)
    (h : (l.map (fun r => r.uid)).Nodup) :
    ((upsertOperation l op).map (fun r => r.uid)).Nodup := by
  rw [upsertOperation_uids]
  split
  · exact h
  · rename_i hn
    rw [List.nodup_append]
    refine ⟨h, List.nodup_singleton _, ?_⟩
    intro a ha hb
    rw [List.mem_singleton] at hb
    exact hn (hb ▸ ha)

theorem upsertOperation_mem (l : List Operation) (op : Operation) (u : String) :
    u ∈ (upsertOperation l op).map (fun r => r.uid)
      ↔ u ∈ l.map (fun r => r.uid) ∨ u = op.uid := by
  rw [upsertOperation_uids]
  split
  · rename_i hm
    constructor
    · exact Or.inl
    · rintro (h | rfl)
      · exact h
      · exact hm
  · simp

theorem databaseBulkInsert_nodup (ops : List Operation) :
    ∀ l : List Operation, (l.map (fun r => r.uid)).Nodup →
      ((databaseBulkInsert l ops).map (fun r => r.uid)).Nodup := by
  induction ops with
  | nil => intro l h; exact h
  | cons op rest ih =>
    intro l h
    exact ih _ (upsertOperation_nodup l op h)

theorem databaseBulkInsert_mem (ops : List Operation) :
    ∀ (l : List Operation) (u : String),
      u ∈ (databaseBulkInsert l ops).map (fun r => r.uid)
        ↔ u ∈ l.map (fun r => r.uid) ∨ u ∈ ops.map (fun r => r.uid) := by
  induction ops with
  | nil => intro l u; simp [databaseBulkInsert]
  | cons op rest ih =>
    intro l u
    have h := ih (upsertOperation l op) u
    simp only [databaseBulkInsert, List.foldl_cons] at h ⊢
    rw [h, upsertOperation_mem]
    simp only [List.map_cons, List.mem_cons]
    tauto

theorem databaseBulkInsert_length_of_subset (ops : List Operation) :
    ∀ l : List Operation, (∀ op ∈ ops, op.uid ∈ l.map (fun r => r.uid)) →
      (databaseBulkInsert l ops).length = l.length := by
  induction ops with
  | nil => intro l _; rfl
  | cons op rest ih =>
    intro l h
    have hop : op.uid ∈ l.map (fun r => r.uid) := h op (List.mem_cons_self _ _)
    have hrest : ∀ o ∈ rest, o.uid ∈ (upsertOperation l op).map (fun r => r.uid) := by
      intro o ho
      rw [upsertOperation_mem]
      exact Or.inl (h o (List.mem_cons_of_mem _ ho))
    have h1 := ih (upsertOperation l op) hrest
    simp only [databaseBulkInsert, List.foldl_cons] at h1 ⊢
    rw [h1, upsertOperation_length_of_mem l op hop]

end ledger.core

/-! ## Lemmas on the balance history -/

namespace ledger.core

theorem remainingBuckets_step (p e l : Int) (hp : 0 < p) (hl : l < e) :
    remainingBuckets p e l = remainingBuckets p e (l + p) + 1 := by
  unfold remainingBuckets
  have h1 : e - l + p - 1 = (e - (l + p) + p - 1) + 1 * p := by ring
  have h2 : 0 ≤ (e - (l + p) + p - 1) / p := by
    apply Int.ediv_nonneg
    · omega
    · omega
  rw [h1, Int.add_mul_ediv_right _ _ (ne_of_gt hp)]
  omega

theorem remainingBuckets_done (p e l : Int) (hp : 0 < p) (hl : e ≤ l) :
    remainingBuckets p e l = 0 := by
  unfold remainingBuckets
  have h : (e - l + p - 1) / p < 1 := by
    apply Int.ediv_lt_of_lt_mul hp
    omega
  omega

theorem accumulate_eq (op : Operation) (st : HistoryState) :
    accumulate op st
      = if op.date ≤ st.upperDate then { st with sum := st.sum + signedAmount op } else st := by
  unfold accumulate signedAmount
  split
  · cases h : op.type
    · simp only [sub_eq_add_neg]
    · simp only
    · simp only [add_zero]
  · rfl

end ledger.core

namespace ledger.core

theorem balanceAt_append (a b : List Operation) (t : Int) :
    balanceAt (a ++ b) t = balanceAt a t + balanceAt b t := by
  simp [balanceAt, List.filter_append, List.map_append, List.sum_append]

theorem balanceAt_of_all_le (l : List Operation) (t : Int) (h : ∀ o ∈ l, o.date ≤ t) :
    balanceAt l t = (l.map signedAmount).sum := by
  unfold balanceAt
  rw [List.filter_eq_self.mpr]
  intro o ho
  simpa using h o ho

theorem balanceAt_of_all_gt (l : List Operation) (t : Int) (h : ∀ o ∈ l, t < o.date) :
    balanceAt l t = 0 := by
  unfold balanceAt
  rw [List.filter_eq_nil_iff.mpr]
  · rfl
  · intro o ho
    have := h o ho
    simp only [decide_eq_true_eq, not_le]
    exact this

/-- Closing a bucket keeps the invariant: the running sum is the expected entry. -/
theorem HistoryInv.push (s e p : Int) (done rest : List Operation) (st : HistoryState)
    (hinv : HistoryInv s e p done rest st) (hp : 0 < p) (hl : st.lowerDate < e)
    (hrest : ∀ o ∈ rest, st.lowerDate + p < o.date) (u : Int) :
    HistoryInv s e p done rest
      { lowerDate := incrementDate st.lowerDate p, upperDate := u,
        amounts := st.amounts ++ [st.sum], sum := st.sum } := by
  obtain ⟨hsum, hdone⟩ := hinv.sum_eq hl
  have hentry : balanceAt (done ++ rest) (s + ((st.amounts.length : Int) + 1) * p) = st.sum := by
    have ht : s + ((st.amounts.length : Int) + 1) * p = st.lowerDate + p := by
      rw [hinv.lower_eq]
      ring
    rw [ht, balanceAt_append, balanceAt_of_all_le done _ hdone,
      balanceAt_of_all_gt rest _ hrest, hsum, add_zero]
  constructor
  · show st.amounts ++ [st.sum] = _
    rw [List.length_append, List.length_singleton, List.range_succ, List.map_append,
      List.map_singleton, hentry, ← hinv.amounts_eq]
  · show incrementDate st.lowerDate p = _
    unfold incrementDate
    rw [hinv.lower_eq, List.length_append, List.length_singleton]
    push_cast
    ring
  · show (st.amounts ++ [st.sum]).length + remainingBuckets p e (incrementDate st.lowerDate p) = _
    have h1 := remainingBuckets_step p e st.lowerDate hp hl
    have h2 := hinv.count_eq
    unfold incrementDate
    rw [List.length_append, List.length_singleton]
    omega
  · intro _
    refine ⟨hsum, ?_⟩
    intro o ho
    have := hdone o ho
    show o.date ≤ incrementDate st.lowerDate p + p
    unfold incrementDate
    omega

end ledger.core

namespace ledger.core

/-- The inner loop ends within the buckets that remain, keeps the invariant and stops either
at a bucket that contains the date or at the end of the range. -/
theorem advanceBuckets_spec (s e p : Int) (done rest : List Operation) (op : Operation)
    (hp : 0 < p) (hsorted : ∀ o ∈ op :: rest, op.date ≤ o.date) :
    ∀ (fuel : Nat) (st : HistoryState),
      HistoryInv s e p done (op :: rest) st →
      st.upperDate = st.lowerDate + p →
      remainingBuckets p e st.lowerDate ≤ fuel →
      ∃ st1, advanceBuckets p e op.date fuel st = some st1
        ∧ HistoryInv s e p done (op :: rest) st1
        ∧ st1.upperDate = st1.lowerDate + p
        ∧ ¬ (op.date > st1.upperDate ∧ st1.lowerDate < e) := by
  intro fuel
  induction fuel with
  | zero =>
    intro st hinv hup hfuel
    have hcond : ¬ (op.date > st.upperDate ∧ st.lowerDate < e) := by
      intro hc
      have := remainingBuckets_step p e st.lowerDate hp hc.2
      omega
    refine ⟨st, ?_, hinv, hup, hcond⟩
    simp only [advanceBuckets, if_neg hcond]
  | succ fuel ih =>
    intro st hinv hup hfuel
    by_cases hcond : op.date > st.upperDate ∧ st.lowerDate < e
    · have hrest : ∀ o ∈ op :: rest, st.lowerDate + p < o.date := by
        intro o ho
        have := hsorted o ho
        omega
      have hinv1 := HistoryInv.push s e p done (op :: rest) st hinv hp hcond.2 hrest
        (incrementDate st.upperDate p)
      have hstep := remainingBuckets_step p e st.lowerDate hp hcond.2
      obtain ⟨st1, h1, h2, h3, h4⟩ := ih _ hinv1
        (by show incrementDate st.upperDate p = incrementDate st.lowerDate p + p
            unfold incrementDate
            omega)
        (by show remainingBuckets p e (incrementDate st.lowerDate p) ≤ fuel
            unfold incrementDate
            omega)
      refine ⟨st1, ?_, h2, h3, h4⟩
      simp only [advanceBuckets, if_pos hcond]
      exact h1
    · refine ⟨st, ?_, hinv, hup, hcond⟩
      simp only [advanceBuckets, if_neg hcond]

/-- Visiting an operation after the inner loop keeps the invariant, with the operation moved
to the visited ones. -/
theorem HistoryInv.visit (s e p : Int) (done rest : List Operation) (op : Operation)
    (st : HistoryState) (hinv : HistoryInv s e p done (op :: rest) st)
    (hup : st.upperDate = st.lowerDate + p)
    (hstop : ¬ (op.date > st.upperDate ∧ st.lowerDate < e)) :
    HistoryInv s e p (done ++ [op]) rest (accumulate op st)
      ∧ (accumulate op st).upperDate = (accumulate op st).lowerDate + p := by
  have hall : (done ++ [op]) ++ rest = done ++ op :: rest := by
    rw [List.append_assoc, List.singleton_append]
  rw [accumulate_eq]
  by_cases hle : op.date ≤ st.upperDate
  · rw [if_pos hle]
    refine ⟨⟨?_, hinv.lower_eq, hinv.count_eq, ?_⟩, hup⟩
    · rw [hall]
      exact hinv.amounts_eq
    · intro hl
      obtain ⟨hsum, hdone⟩ := hinv.sum_eq hl
      constructor
      · show st.sum + signedAmount op = _
        rw [List.map_append, List.sum_append, hsum, List.map_singleton, List.sum_singleton]
      · intro o ho
        rw [List.mem_append, List.mem_singleton] at ho
        rcases ho with ho | rfl
        · exact hdone o ho
        · show o.date ≤ st.lowerDate + p
          omega
  · rw [if_neg hle]
    refine ⟨⟨?_, hinv.lower_eq, hinv.count_eq, ?_⟩, hup⟩
    · rw [hall]
      exact hinv.amounts_eq
    · intro hl
      exact absurd ⟨lt_of_not_le hle, hl⟩ hstop

/-- The outer loop returns with the invariant; if the lower bound is still before the end, it
has visited every operation. -/
theorem walkOperations_spec (s e p : Int) (fuel : Nat) (hp : 0 < p)
    (hfuel : bucketCount s e p ≤ fuel) :
    ∀ (rest done : List Operation) (st : HistoryState),
      rest.Pairwise (fun a b => a.date ≤ b.date) →
      HistoryInv s e p done rest st →
      st.upperDate = st.lowerDate + p →
      ∃ st1 done1 rest1, walkOperations p e fuel rest st = some st1
        ∧ done1 ++ rest1 = done ++ rest
        ∧ HistoryInv s e p done1 rest1 st1
        ∧ (st1.lowerDate < e → rest1 = []) := by
  intro rest
  induction rest with
  | nil =>
    intro done st _ hinv _
    exact ⟨st, done, [], rfl, rfl, hinv, fun _ => rfl⟩
  | cons op rest ih =>
    intro done st hsorted hinv hup
    rw [List.pairwise_cons] at hsorted
    by_cases hle : st.lowerDate ≤ e
    · have hhead : ∀ o ∈ op :: rest, op.date ≤ o.date := by
        intro o ho
        rw [List.mem_cons] at ho
        rcases ho with rfl | ho
        · exact le_refl _
        · exact hsorted.1 o ho
      have hrem : remainingBuckets p e st.lowerDate ≤ fuel := by
        have := hinv.count_eq
        omega
      obtain ⟨st1, h1, h2, h3, h4⟩ :=
        advanceBuckets_spec s e p done rest op hp hhead fuel st hinv hup hrem
      obtain ⟨hv, hvu⟩ := HistoryInv.visit s e p done rest op st1 h2 h3 h4
      obtain ⟨st2, done2, rest2, k1, k2, k3, k4⟩ :=
        ih (done ++ [op]) (accumulate op st1) hsorted.2 hv hvu
      refine ⟨st2, done2, rest2, ?_, ?_, k3, k4⟩
      · simp only [walkOperations, if_pos hle, h1]
        exact k1
      · rw [k2, List.append_assoc, List.singleton_append]
    · refine ⟨st, done, op :: rest, ?_, rfl, hinv, ?_⟩
      · simp only [walkOperations, if_neg hle]
      · intro hl
        exact absurd (le_of_lt hl) hle

/-- The last loop ends within the buckets that remain, keeps the invariant and reaches the
end of the range. -/
theorem trailingBuckets_spec (s e p : Int) (done rest : List Operation) (hp : 0 < p) :
    ∀ (fuel : Nat) (st : HistoryState),
      HistoryInv s e p done rest st →
      (st.lowerDate < e → rest = []) →
      remainingBuckets p e st.lowerDate ≤ fuel →
      ∃ st1, trailingBuckets p e fuel st = some st1
        ∧ HistoryInv s e p done rest st1
        ∧ e ≤ st1.lowerDate := by
  intro fuel
  induction fuel with
  | zero =>
    intro st hinv _ hfuel
    have hcond : ¬ st.lowerDate < e := by
      intro hc
      have := remainingBuckets_step p e st.lowerDate hp hc
      omega
    refine ⟨st, ?_, hinv, le_of_not_lt hcond⟩
    simp only [trailingBuckets, if_neg hcond]
  | succ fuel ih =>
    intro st hinv hrest hfuel
    by_cases hcond : st.lowerDate < e
    · have hnone : ∀ o ∈ rest, st.lowerDate + p < o.date := by
        intro o ho
        rw [hrest hcond] at ho
        exact absurd ho (List.not_mem_nil o)
      have hinv1 := HistoryInv.push s e p done rest st hinv hp hcond hnone st.upperDate
      have hstep := remainingBuckets_step p e st.lowerDate hp hcond
      obtain ⟨st1, h1, h2, h3⟩ := ih _ hinv1 (fun _ => hrest hcond)
        (by show remainingBuckets p e (incrementDate st.lowerDate p) ≤ fuel
            unfold incrementDate
            omega)
      refine ⟨st1, ?_, h2, h3⟩
      simp only [trailingBuckets, if_pos hcond]
      exact h1
    · refine ⟨st, ?_, hinv, le_of_not_lt hcond⟩
      simp only [trailingBuckets, if_neg hcond]

/-- On operations sorted by date, with a positive bucket width and fuel for every bucket, the
bucket walk returns the expected history. -/
theorem balanceHistoryOfSorted_eq (fuel : Nat) (s e p : Int) (ops : List Operation)
    (hp : 0 < p) (hfuel : bucketCount s e p ≤ fuel)
    (hsorted : ops.Pairwise (fun a b => a.date ≤ b.date)) :
    balanceHistoryOfSorted fuel s e p ops = some (expectedHistory s e p ops) := by
  have hinit : HistoryInv s e p [] ops
      { lowerDate := s, upperDate := incrementDate s p, amounts := [], sum := 0 } := by
    constructor
    · rfl
    · show s = s + ((0 : Nat) : Int) * p
      simp
    · show 0 + remainingBuckets p e s = bucketCount s e p
      unfold bucketCount
      omega
    · intro _
      exact ⟨rfl, fun o ho => absurd ho (List.not_mem_nil o)⟩
  obtain ⟨st1, done1, rest1, h1, h2, h3, h4⟩ :=
    walkOperations_spec s e p fuel hp hfuel ops [] _ hsorted hinit rfl
  have hrem : remainingBuckets p e st1.lowerDate ≤ fuel := by
    have := h3.count_eq
    omega
  obtain ⟨st2, k1, k2, k3⟩ := trailingBuckets_spec s e p done1 rest1 hp fuel st1 h3 h4 hrem
  have hlen : st2.amounts.length = bucketCount s e p := by
    have h5 := k2.count_eq
    have h6 := remainingBuckets_done p e st2.lowerDate hp k3
    omega
  unfold balanceHistoryOfSorted
  simp only [h1, k1, Option.map_some']
  rw [k2.amounts_eq, hlen, h2, List.nil_append]
  rfl

end ledger.core

namespace ledger.core

theorem sortOperations_sorted (ops : List Operation) :
    (sortOperations ops).Pairwise (fun a b => a.date ≤ b.date) :=
  @List.sorted_insertionSort Operation (fun a b => a.date ≤ b.date) _
    ⟨fun a b => le_total a.date b.date⟩ ⟨fun _ _ _ hab hbc => le_trans hab hbc⟩ ops

theorem sortOperations_perm (ops : List Operation) : (sortOperations ops).Perm ops :=
  List.perm_insertionSort _ ops

theorem balanceAt_perm (a b : List Operation) (h : a.Perm b) (t : Int) :
    balanceAt a t = balanceAt b t := by
  unfold balanceAt
  exact ((h.filter _).map _).sum_eq

theorem expectedHistory_perm (s e p : Int) (a b : List Operation) (h : a.Perm b) :
    expectedHistory s e p a = expectedHistory s e p b := by
  unfold expectedHistory
  apply List.map_congr_left
  intro k _
  exact balanceAt_perm a b h _

theorem expectedHistory_length (s e p : Int) (ops : List Operation) :
    (expectedHistory s e p ops).length = bucketCount s e p := by
  simp [expectedHistory]

/-- With `startDate < endDate`, a positive bucket width and fuel for every bucket,
`getBalanceHistory` returns the expected history of the gathered operations. -/
theorem getBalanceHistory_eq (fuel : Nat) (s e p : Int) (ledgerOperations : List Operation)
    (rows : List InternalOperationRow) (hse : s < e) (hp : 0 < p)
    (hfuel : bucketCount s e p ≤ fuel) :
    getBalanceHistory fuel s e p ledgerOperations rows
      = some (Except.ok
          (expectedHistory s e p (ledgerOperations ++ getInternalOperations rows))) := by
  unfold getBalanceHistory
  rw [if_neg (not_le.mpr hse)]
  simp only
  rw [balanceHistoryOfSorted_eq fuel s e p _ hp hfuel (sortOperations_sorted _),
    Option.map_some']
  rw [expectedHistory_perm s e p _ _ (sortOperations_perm _)]

/-- The bucket count is the ceiling of `(endDate - startDate) / precision`. -/
theorem bucketCount_eq_ceil (s e p : Int) (hse : s < e) (hp : 0 < p) :
    ((bucketCount s e p : Nat) : Int) = ⌈((e - s : Int) : ℚ) / ((p : Int) : ℚ)⌉ := by
  unfold bucketCount remainingBuckets
  have hq : 0 ≤ (e - s + p - 1) / p := Int.ediv_nonneg (by omega) (by omega)
  rw [Int.toNat_of_nonneg hq]
  symm
  rw [Int.ceil_eq_iff]
  have h1 : (e - s + p - 1) / p * p ≤ e - s + p - 1 := Int.ediv_mul_le _ (ne_of_gt hp)
  have h2 : e - s + p - 1 < ((e - s + p - 1) / p + 1) * p :=
    Int.lt_ediv_add_one_mul_self _ hp
  have hpq : (0 : ℚ) < ((p : Int) : ℚ) := by exact_mod_cast hp
  constructor
  · rw [lt_div_iff₀ hpq]
    have h3 : ((e - s + p - 1) / p - 1) * p < e - s := by
      have : ((e - s + p - 1) / p - 1) * p = (e - s + p - 1) / p * p - p := by ring
      omega
    exact_mod_cast h3
  · rw [div_le_iff₀ hpq]
    have h4 : e - s ≤ (e - s + p - 1) / p * p := by
      have : ((e - s + p - 1) / p + 1) * p = (e - s + p - 1) / p * p + p := by ring
      omega
    exact_mod_cast h4

end ledger.core

/-! ## The interpreter: self-transfers, failed transactions, plain sends -/

namespace ledger.core

/-- C1: with a live wallet, a transaction whose sender and receiver are both the watched address
makes `interpretTransaction` append exactly two operations, first a SEND and then a RECEIVE,
and both come from the same source transaction: same transaction record (of the hash of the
input), same amount, same fees, same senders and recipients. -/
theorem interpretTransaction_self_transfer (H : UidScheme) (acc : EthereumLikeAccount)
    (wallet : Wallet) (tx : EthereumLikeBlockchainExplorerTransaction) (out : List Operation)
    (hw : acc.wallet = some wallet) (hs : tx.sender = acc.accountAddress)
    (hr : tx.receiver = acc.accountAddress) :
    ∃ acc1 send recv,
      interpretTransaction H acc tx out = Except.ok (acc1, out ++ [send, recv])
      ∧ send.type = OperationType.SEND ∧ recv.type = OperationType.RECEIVE
      ∧ send.ethereumTransaction = recv.ethereumTransaction
      ∧ send.ethereumTransaction.map (fun t => t.hash) = some tx.hash
      ∧ send.amount = recv.amount
      ∧ send.fees = recv.fees
      ∧ send.senders = [tx.sender] ∧ recv.senders = [tx.sender]
      ∧ send.recipients = [tx.receiver] ∧ recv.recipients = [tx.receiver] := by
  obtain ⟨l, d, h⟩ := interpretTransaction_send_receive H acc wallet tx out hw hs.symm hr.symm
  exact ⟨_, _, _, h, rfl, rfl, rfl, rfl, rfl, rfl, rfl, rfl, rfl, rfl⟩

/-- C1, at the sample account: a confirmed self-transfer carrying a token transfer. -/
theorem interpretTransaction_self_transfer_witness :
    sampleAccount.wallet = some sampleWallet
    ∧ (sampleTx "X" "X" 1 (some sampleBlock) [sampleTransfer "X" "X"]).sender
        = sampleAccount.accountAddress
    ∧ (sampleTx "X" "X" 1 (some sampleBlock) [sampleTransfer "X" "X"]).receiver
        = sampleAccount.accountAddress
    ∧ ∃ acc1 send recv,
      interpretTransaction sampleScheme sampleAccount
          (sampleTx "X" "X" 1 (some sampleBlock) [sampleTransfer "X" "X"]) []
        = Except.ok (acc1, [] ++ [send, recv])
      ∧ send.type = OperationType.SEND ∧ recv.type = OperationType.RECEIVE
      ∧ send.ethereumTransaction = recv.ethereumTransaction
      ∧ send.ethereumTransaction.map (fun t => t.hash)
          = some (sampleTx "X" "X" 1 (some sampleBlock) [sampleTransfer "X" "X"]).hash
      ∧ send.amount = recv.amount
      ∧ send.fees = recv.fees
      ∧ send.senders = [(sampleTx "X" "X" 1 (some sampleBlock) [sampleTransfer "X" "X"]).sender]
      ∧ recv.senders = [(sampleTx "X" "X" 1 (some sampleBlock) [sampleTransfer "X" "X"]).sender]
      ∧ send.recipients
          = [(sampleTx "X" "X" 1 (some sampleBlock) [sampleTransfer "X" "X"]).receiver]
      ∧ recv.recipients
          = [(sampleTx "X" "X" 1 (some sampleBlock) [sampleTransfer "X" "X"]).receiver] :=
  ⟨rfl, rfl, rfl,
    interpretTransaction_self_transfer sampleScheme sampleAccount sampleWallet
      (sampleTx "X" "X" 1 (some sampleBlock) [sampleTransfer "X" "X"]) [] rfl rfl rfl⟩

/-- C2: with a live wallet, a transaction whose status is 0 (failure) and whose block is
present makes `interpretTransaction` return, and every operation it appends has amount 0 and
recorded fees equal to the gas price times the gas used (the gas used counts as 0 when the
record has none). -/
theorem interpretTransaction_failed_amount_zero (H : UidScheme) (acc : EthereumLikeAccount)
    (wallet : Wallet) (tx : EthereumLikeBlockchainExplorerTransaction) (out : List Operation)
    (hw : acc.wallet = some wallet) (hstatus : tx.status = 0) (hblock : tx.block.isSome = true) :
    ∃ acc1 ops,
      interpretTransaction H acc tx out = Except.ok (acc1, out ++ ops)
      ∧ ∀ op ∈ ops, op.amount = 0 ∧ op.fees = some (tx.gasPrice * tx.gasUsed.getD 0) := by
  obtain ⟨l, ops, h, hops⟩ := interpretTransaction_shape H acc wallet tx out hw
  refine ⟨_, ops, h, ?_⟩
  intro op hop
  obtain ⟨ty, a, rfl⟩ := hops op hop
  refine ⟨?_, rfl⟩
  show (if tx.status = 0 ∧ tx.block.isSome = true then (0 : Int) else tx.value) = 0
  rw [if_pos ⟨hstatus, hblock⟩]

/-- C2, at the sample account: a failed, confirmed self-transfer. -/
theorem interpretTransaction_failed_amount_zero_witness :
    sampleAccount.wallet = some sampleWallet
    ∧ (sampleTx "X" "X" 0 (some sampleBlock) []).status = 0
    ∧ (sampleTx "X" "X" 0 (some sampleBlock) []).block.isSome = true
    ∧ ∃ acc1 ops,
      interpretTransaction sampleScheme sampleAccount
          (sampleTx "X" "X" 0 (some sampleBlock) []) [] = Except.ok (acc1, [] ++ ops)
      ∧ ∀ op ∈ ops, op.amount = 0
          ∧ op.fees = some ((sampleTx "X" "X" 0 (some sampleBlock) []).gasPrice
              * (sampleTx "X" "X" 0 (some sampleBlock) []).gasUsed.getD 0) :=
  ⟨rfl, rfl, rfl,
    interpretTransaction_failed_amount_zero sampleScheme sampleAccount sampleWallet
      (sampleTx "X" "X" 0 (some sampleBlock) []) [] rfl rfl rfl⟩

/-- C3: with a live wallet, a successful (status not 0) transaction sent from the watched
address X to another address Y, confirmed (block present) or not, makes `interpretTransaction`
append exactly one operation, a SEND whose amount is the transaction value, whose fees are the
gas price times the gas used, with senders `[X]` and recipients `[Y]`. -/
theorem interpretTransaction_confirmed_send (H : UidScheme) (acc : EthereumLikeAccount)
    (wallet : Wallet) (tx : EthereumLikeBlockchainExplorerTransaction) (out : List Operation)
    (hw : acc.wallet = some wallet) (hstatus : tx.status ≠ 0)
    (hs : tx.sender = acc.accountAddress) (hr : tx.receiver ≠ acc.accountAddress) :
    ∃ acc1 op,
      interpretTransaction H acc tx out = Except.ok (acc1, out ++ [op])
      ∧ op.type = OperationType.SEND
      ∧ op.amount = tx.value
      ∧ op.fees = some (tx.gasPrice * tx.gasUsed.getD 0)
      ∧ op.senders = [acc.accountAddress]
      ∧ op.recipients = [tx.receiver] := by
  obtain ⟨l, d, h⟩ := interpretTransaction_send_only H acc wallet tx out hw hs.symm
    (fun e => hr e.symm)
  refine ⟨_, _, h, rfl, ?_, rfl, ?_, rfl⟩
  · show (if tx.status = 0 ∧ tx.block.isSome = true then (0 : Int) else tx.value) = tx.value
    rw [if_neg (fun c => hstatus c.1)]
  · show [tx.sender] = [acc.accountAddress]
    rw [hs]

/-- C3, at the sample account: a confirmed, successful transaction from `"X"` to `"Y"`. -/
theorem interpretTransaction_confirmed_send_witness :
    sampleAccount.wallet = some sampleWallet
    ∧ (sampleTx "X" "Y" 1 (some sampleBlock) []).status ≠ 0
    ∧ (sampleTx "X" "Y" 1 (some sampleBlock) []).sender = sampleAccount.accountAddress
    ∧ (sampleTx "X" "Y" 1 (some sampleBlock) []).receiver ≠ sampleAccount.accountAddress
    ∧ ∃ acc1 op,
      interpretTransaction sampleScheme sampleAccount
          (sampleTx "X" "Y" 1 (some sampleBlock) []) [] = Except.ok (acc1, [] ++ [op])
      ∧ op.type = OperationType.SEND
      ∧ op.amount = (sampleTx "X" "Y" 1 (some sampleBlock) []).value
      ∧ op.fees = some ((sampleTx "X" "Y" 1 (some sampleBlock) []).gasPrice
          * (sampleTx "X" "Y" 1 (some sampleBlock) []).gasUsed.getD 0)
      ∧ op.senders = [sampleAccount.accountAddress]
      ∧ op.recipients = [(sampleTx "X" "Y" 1 (some sampleBlock) []).receiver] :=
  ⟨rfl, by decide, rfl, by decide,
    interpretTransaction_confirmed_send sampleScheme sampleAccount sampleWallet
      (sampleTx "X" "Y" 1 (some sampleBlock) []) [] rfl (by decide) rfl (by decide)⟩

end ledger.core

/-! ## Replay of a transaction -/

namespace ledger.core

/-- C4: with a live wallet and a ledger keyed by uid (no two rows share a uid), interpreting a
transaction, inserting, and then interpreting and inserting the same transaction again gives
the second time operations with the same uids and the same kinds as the first time; each of
them has the uid of its (account, transaction hash, kind) triple, the ledger holds exactly one
row with that uid after the replay, and the replay leaves the size of the ledger unchanged. -/
theorem replay_is_idempotent (H : UidScheme) (acc : EthereumLikeAccount) (wallet : Wallet)
    (tx : EthereumLikeBlockchainExplorerTransaction) (store : AccountStore)
    (hw : acc.wallet = some wallet)
    (hkeys : (store.ledger.map (fun r => r.uid)).Nodup) :
    ∃ acc1 ops1 store1 n1 acc2 ops2 store2 n2,
      interpretTransaction H acc tx [] = Except.ok (acc1, ops1)
      ∧ bulkInsert acc1 store ops1 = Except.ok (store1, n1)
      ∧ interpretTransaction H acc1 tx [] = Except.ok (acc2, ops2)
      ∧ bulkInsert acc2 store1 ops2 = Except.ok (store2, n2)
      ∧ ops2.map (fun op => op.uid) = ops1.map (fun op => op.uid)
      ∧ ops2.map (fun op => op.type) = ops1.map (fun op => op.type)
      ∧ (∀ op ∈ ops1, op.uid = H.createUid acc.accountUid tx.hash op.type
          ∧ (store2.ledger.map (fun r => r.uid)).count op.uid = 1)
      ∧ store2.ledger.length = store1.ledger.length := by
  obtain ⟨l1, ops1, h1, k1⟩ := interpretTransaction_kinds H acc wallet tx [] hw
  have hw1 : (acc.setERC20LikeAccounts l1).wallet = some wallet := hw
  obtain ⟨l2, ops2, h2, k2⟩ :=
    interpretTransaction_kinds H (acc.setERC20LikeAccounts l1) wallet tx [] hw1
  have hw2 : ((acc.setERC20LikeAccounts l1).setERC20LikeAccounts l2).wallet = some wallet := hw
  rw [List.nil_append] at h1 h2
  have hk : ops2.map (fun op => op.setAttachedData none)
      = ops1.map (fun op => op.setAttachedData none) := k2.trans k1.symm
  have huid : ops2.map (fun op => op.uid) = ops1.map (fun op => op.uid) := by
    have h := congrArg (List.map (fun op : Operation => op.uid)) hk
    simpa only [List.map_map, Function.comp_def, Operation.setAttachedData] using h
  have hty : ops2.map (fun op => op.type) = ops1.map (fun op => op.type) := by
    have h := congrArg (List.map (fun op : Operation => op.type)) hk
    simpa only [List.map_map, Function.comp_def, Operation.setAttachedData] using h
  have hb1 : bulkInsert (acc.setERC20LikeAccounts l1) store ops1
      = Except.ok ({ ledger := databaseBulkInsert store.ledger ops1
                     events := emitAttachedERC20Operations wallet (acc.setERC20LikeAccounts l1)
                       (emitNewOperationsEvent store.events ops1) ops1 }, ops1.length) := by
    unfold bulkInsert
    rw [hw1]
  obtain ⟨store1, hs1, hl1⟩ : ∃ s1 : AccountStore,
      bulkInsert (acc.setERC20LikeAccounts l1) store ops1 = Except.ok (s1, ops1.length)
      ∧ s1.ledger = databaseBulkInsert store.ledger ops1 := ⟨_, hb1, rfl⟩
  have hb2 : bulkInsert ((acc.setERC20LikeAccounts l1).setERC20LikeAccounts l2) store1 ops2
      = Except.ok ({ ledger := databaseBulkInsert store1.ledger ops2
                     events := emitAttachedERC20Operations wallet
                       ((acc.setERC20LikeAccounts l1).setERC20LikeAccounts l2)
                       (emitNewOperationsEvent store1.events ops2) ops2 }, ops2.length) := by
    unfold bulkInsert
    rw [hw2]
  have hsub : ∀ op ∈ ops2, op.uid ∈ store1.ledger.map (fun r => r.uid) := by
    intro op hop
    rw [hl1, databaseBulkInsert_mem]
    refine Or.inr ?_
    rw [← huid]
    exact List.mem_map_of_mem (fun op : Operation => op.uid) hop
  refine ⟨_, ops1, store1, _, _, ops2, _, _, h1, hs1, h2, hb2, huid, hty, ?_, ?_⟩
  · intro op hop
    constructor
    · have hm : op.setAttachedData none ∈ ops1.map (fun op => op.setAttachedData none) :=
        List.mem_map_of_mem (fun op : Operation => op.setAttachedData none) hop
      rw [k1, List.mem_map] at hm
      obtain ⟨ty, _, hty1⟩ := hm
      have hu : op.uid = (typedOperation H tx (operationSkeleton acc wallet tx) ty).uid :=
        (congrArg Operation.uid hty1).symm
      have ht : op.type = ty := (congrArg Operation.type hty1).symm
      rw [hu, ht]
      rfl
    · apply List.count_eq_one_of_mem
      · show ((databaseBulkInsert store1.ledger ops2).map (fun r => r.uid)).Nodup
        apply databaseBulkInsert_nodup
        rw [hl1]
        exact databaseBulkInsert_nodup _ _ hkeys
      · show op.uid ∈ (databaseBulkInsert store1.ledger ops2).map (fun r => r.uid)
        rw [databaseBulkInsert_mem, hl1, databaseBulkInsert_mem]
        exact Or.inl (Or.inr (List.mem_map_of_mem (fun op : Operation => op.uid) hop))
  · exact databaseBulkInsert_length_of_subset ops2 store1.ledger hsub

/-- C4, at the sample account with an empty ledger: the replay of a self-transfer that carries
a token transfer (the first interpretation creates the token sub-account). -/
theorem replay_is_idempotent_witness :
    sampleAccount.wallet = some sampleWallet
    ∧ (emptyStore.ledger.map (fun r => r.uid)).Nodup
    ∧ ∃ acc1 ops1 store1 n1 acc2 ops2 store2 n2,
      interpretTransaction sampleScheme sampleAccount
          (sampleTx "X" "X" 1 (some sampleBlock) [sampleTransfer "Y" "X"]) []
        = Except.ok (acc1, ops1)
      ∧ bulkInsert acc1 emptyStore ops1 = Except.ok (store1, n1)
      ∧ interpretTransaction sampleScheme acc1
          (sampleTx "X" "X" 1 (some sampleBlock) [sampleTransfer "Y" "X"]) []
        = Except.ok (acc2, ops2)
      ∧ bulkInsert acc2 store1 ops2 = Except.ok (store2, n2)
      ∧ ops2.map (fun op => op.uid) = ops1.map (fun op => op.uid)
      ∧ ops2.map (fun op => op.type) = ops1.map (fun op => op.type)
      ∧ (∀ op ∈ ops1,
          op.uid = sampleScheme.createUid sampleAccount.accountUid
            (sampleTx "X" "X" 1 (some sampleBlock) [sampleTransfer "Y" "X"]).hash op.type
          ∧ (store2.ledger.map (fun r => r.uid)).count op.uid = 1)
      ∧ store2.ledger.length = store1.ledger.length :=
  ⟨rfl, List.nodup_nil,
    replay_is_idempotent sampleScheme sampleAccount sampleWallet
      (sampleTx "X" "X" 1 (some sampleBlock) [sampleTransfer "Y" "X"]) emptyStore rfl
      List.nodup_nil⟩

end ledger.core

/-! ## Balance history: length, range check, entries -/

namespace ledger.core

/-- C5: for `startDate < endDate`, a bucket width `p > 0` and any operations (ledger operations
and internal rows, whatever their dates and kinds), `getBalanceHistory` returns, given fuel for
every bucket, and the number of entries it returns is exactly the ceiling of
`(endDate - startDate) / p`. -/
theorem getBalanceHistory_length (fuel : Nat) (s e p : Int) (ledgerOperations : List Operation)
    (rows : List InternalOperationRow) (hse : s < e) (hp : 0 < p)
    (hfuel : bucketCount s e p ≤ fuel) :
    ∃ amounts, getBalanceHistory fuel s e p ledgerOperations rows = some (Except.ok amounts)
      ∧ ((amounts.length : Nat) : Int) = ⌈((e - s : Int) : ℚ) / ((p : Int) : ℚ)⌉ := by
  refine ⟨_, getBalanceHistory_eq fuel s e p ledgerOperations rows hse hp hfuel, ?_⟩
  rw [expectedHistory_length, bucketCount_eq_ceil s e p hse hp]

/-- C5, at a range of 31 ticks cut in buckets of 10 ticks. -/
theorem getBalanceHistory_length_witness :
    (10 : Int) < 41 ∧ (0 : Int) < 10 ∧ bucketCount 10 41 10 ≤ 4
    ∧ ∃ amounts,
      getBalanceHistory 4 10 41 10
          [sampleOperation OperationType.SEND 35 4 1, sampleOperation OperationType.RECEIVE 5 100 0]
          [] = some (Except.ok amounts)
      ∧ ((amounts.length : Nat) : Int) = ⌈(((41 : Int) - 10 : Int) : ℚ) / (((10 : Int) : Int) : ℚ)⌉ :=
  ⟨by decide, by decide, by decide,
    getBalanceHistory_length 4 10 41 10
      [sampleOperation OperationType.SEND 35 4 1, sampleOperation OperationType.RECEIVE 5 100 0]
      [] (by decide) (by decide) (by decide)⟩

/-- C6: on parsed dates, whatever the fuel, the bucket width and the operations,
`getBalanceHistory` fails with `INVALID_DATE_FORMAT` if and only if `startDate >= endDate`; the
failure carries no amounts, and with `startDate < endDate` this error is never raised. -/
theorem getBalanceHistory_invalid_range_iff (fuel : Nat) (s e p : Int)
    (ledgerOperations : List Operation) (rows : List InternalOperationRow) :
    getBalanceHistory fuel s e p ledgerOperations rows
        = some (Except.error ErrorCode.INVALID_DATE_FORMAT)
      ↔ s ≥ e := by
  unfold getBalanceHistory
  constructor
  · intro h
    by_contra hc
    rw [if_neg hc] at h
    cases hb : balanceHistoryOfSorted fuel s e p
        (sortOperations (ledgerOperations ++ getInternalOperations rows)) with
    | none => simp [hb] at h
    | some amounts => simp [hb] at h
  · intro h
    rw [if_pos h]

/-- C7: for `startDate < endDate`, a bucket width `p > 0` and any operations, `getBalanceHistory`
returns, given fuel for every bucket, one entry per bucket, and entry `k` is the running signed
sum over all operations dated at or before `startDate + (k + 1) * p`, operations before
`startDate` included (`+amount` for a RECEIVE, `-(amount + fees)` for a SEND, nothing
otherwise). So every entry is zero when there is no operation, and a bucket whose upper bound
is at or after the date of every operation holds the sum over all operations. -/
theorem getBalanceHistory_entries (fuel : Nat) (s e p : Int) (ledgerOperations : List Operation)
    (rows : List InternalOperationRow) (hse : s < e) (hp : 0 < p)
    (hfuel : bucketCount s e p ≤ fuel) :
    ∃ amounts, getBalanceHistory fuel s e p ledgerOperations rows = some (Except.ok amounts)
      ∧ amounts.length = bucketCount s e p
      ∧ (∀ k : Nat, k < bucketCount s e p →
          amounts[k]? = some (balanceAt (ledgerOperations ++ getInternalOperations rows)
            (s + ((k : Int) + 1) * p)))
      ∧ (ledgerOperations ++ getInternalOperations rows = [] → ∀ a ∈ amounts, a = 0)
      ∧ (∀ k : Nat, k < bucketCount s e p →
          (∀ o ∈ ledgerOperations ++ getInternalOperations rows,
            o.date ≤ s + ((k : Int) + 1) * p) →
          amounts[k]? = some
            (((ledgerOperations ++ getInternalOperations rows).map signedAmount).sum)) := by
  have hentry : ∀ k : Nat, k < bucketCount s e p →
      (expectedHistory s e p (ledgerOperations ++ getInternalOperations rows))[k]?
        = some (balanceAt (ledgerOperations ++ getInternalOperations rows)
            (s + ((k : Int) + 1) * p)) := by
    intro k hk
    unfold expectedHistory
    rw [List.getElem?_map, List.getElem?_range hk]
    rfl
  refine ⟨_, getBalanceHistory_eq fuel s e p ledgerOperations rows hse hp hfuel,
    expectedHistory_length _ _ _ _, hentry, ?_, ?_⟩
  · intro hnil a ha
    rw [hnil] at ha
    unfold expectedHistory at ha
    rw [List.mem_map] at ha
    obtain ⟨k, _, hk⟩ := ha
    rw [← hk]
    rfl
  · intro k hk hall
    rw [hentry k hk, balanceAt_of_all_le _ _ hall]

/-- C7, at a range of 31 ticks cut in buckets of 10 ticks. -/
theorem getBalanceHistory_entries_witness :
    (10 : Int) < 41 ∧ (0 : Int) < 10 ∧ bucketCount 10 41 10 ≤ 4
    ∧ ∃ amounts,
      getBalanceHistory 4 10 41 10
          [sampleOperation OperationType.SEND 35 4 1, sampleOperation OperationType.RECEIVE 5 100 0]
          [] = some (Except.ok amounts)
      ∧ amounts.length = bucketCount 10 41 10
      ∧ (∀ k : Nat, k < bucketCount 10 41 10 →
          amounts[k]? = some (balanceAt
            ([sampleOperation OperationType.SEND 35 4 1,
              sampleOperation OperationType.RECEIVE 5 100 0] ++ getInternalOperations [])
            (10 + ((k : Int) + 1) * 10)))
      ∧ ([sampleOperation OperationType.SEND 35 4 1,
            sampleOperation OperationType.RECEIVE 5 100 0] ++ getInternalOperations [] = [] →
          ∀ a ∈ amounts, a = 0)
      ∧ (∀ k : Nat, k < bucketCount 10 41 10 →
          (∀ o ∈ [sampleOperation OperationType.SEND 35 4 1,
              sampleOperation OperationType.RECEIVE 5 100 0] ++ getInternalOperations [],
            o.date ≤ 10 + ((k : Int) + 1) * 10) →
          amounts[k]? = some
            ((([sampleOperation OperationType.SEND 35 4 1,
                sampleOperation OperationType.RECEIVE 5 100 0]
              ++ getInternalOperations []).map signedAmount).sum)) :=
  ⟨by decide, by decide, by decide,
    getBalanceHistory_entries 4 10 41 10
      [sampleOperation OperationType.SEND 35 4 1, sampleOperation OperationType.RECEIVE 5 100 0]
      [] (by decide) (by decide) (by decide)⟩

end ledger.core

/-! ## The build function: funds, wipe, argument check -/

namespace ledger.core

/-- C8: for a non-wipe request with the gas limit `L`, the gas price `P` and the value `A` set,
and a balance `B` obtained from `getBalance`, the build function fails with `NOT_ENOUGH_FUNDS`
if and only if `B - L * P < A`; the nonce fetch of the explorer, which follows the check, is
taken not to fail with that code itself. -/
theorem buildFunction_not_enough_funds_iff (balanceCache : Option Int)
    (explorerBalance explorerNonce : Except ErrorCode Int) (accountAddress : String)
    (request : EthereumLikeTransactionBuildRequest) (B L P A : Int)
    (hL : request.gasLimit = some L) (hP : request.gasPrice = some P)
    (hA : request.value = some A) (hwipe : request.wipe = false)
    (hB : (getBalance balanceCache explorerBalance).result = Except.ok B)
    (hnonce : explorerNonce ≠ Except.error ErrorCode.NOT_ENOUGH_FUNDS) :
    (buildFunction balanceCache explorerBalance explorerNonce accountAddress request).result
        = Except.error ErrorCode.NOT_ENOUGH_FUNDS
      ↔ B - L * P < A := by
  unfold buildFunction
  simp only [hB]
  unfold buildWithBalance
  simp only [hL, hP, hA, hwipe, Option.isNone_some, Option.getD_some, Bool.false_eq_true,
    false_and, or_self, if_false]
  by_cases hlt : B - L * P < A
  · simp only [hlt, if_true]
  · simp only [hlt, if_false, iff_false]
    cases explorerNonce with
    | error e =>
      intro h
      apply hnonce
      injection h with h1
      rw [h1]
    | ok nonce =>
      intro h
      cases h

/-- C8, at a balance of 100 fetched from the explorer: 10 units of gas at price 2 and a value
of 81. -/
theorem buildFunction_not_enough_funds_iff_witness :
    (sampleRequest (some 81) (some 10) false).gasLimit = some 10
    ∧ (sampleRequest (some 81) (some 10) false).gasPrice = some 2
    ∧ (sampleRequest (some 81) (some 10) false).value = some 81
    ∧ (sampleRequest (some 81) (some 10) false).wipe = false
    ∧ (getBalance none (Except.ok 100)).result = Except.ok 100
    ∧ (Except.ok 7 : Except ErrorCode Int) ≠ Except.error ErrorCode.NOT_ENOUGH_FUNDS
    ∧ ((buildFunction none (Except.ok 100) (Except.ok 7) "X"
          (sampleRequest (some 81) (some 10) false)).result
          = Except.error ErrorCode.NOT_ENOUGH_FUNDS
        ↔ (100 : Int) - 10 * 2 < 81) :=
  ⟨rfl, rfl, rfl, rfl, rfl, fun h => Except.noConfusion h,
    buildFunction_not_enough_funds_iff none (Except.ok 100) (Except.ok 7) "X"
      (sampleRequest (some 81) (some 10) false) 100 10 2 81 rfl rfl rfl rfl rfl
      (fun h => Except.noConfusion h)⟩

/-- C9: for a wipe request with the gas limit `L` and the gas price `P` set, with or without a
value, and a balance `B` obtained from `getBalance` with `B - L * P >= 0`, the build function
passes its checks: it fails only if the nonce fetch fails, with the error of that fetch, and
otherwise returns a transaction whose value is exactly `B - L * P`. -/
theorem buildFunction_wipe_sends_all (balanceCache : Option Int)
    (explorerBalance explorerNonce : Except ErrorCode Int) (accountAddress : String)
    (request : EthereumLikeTransactionBuildRequest) (B L P : Int)
    (hL : request.gasLimit = some L) (hP : request.gasPrice = some P)
    (hwipe : request.wipe = true)
    (hB : (getBalance balanceCache explorerBalance).result = Except.ok B)
    (hfunds : 0 ≤ B - L * P) :
    (∀ nonce, explorerNonce = Except.ok nonce →
      ∃ tx, (buildFunction balanceCache explorerBalance explorerNonce accountAddress
              request).result = Except.ok tx
        ∧ tx.value = some (B - L * P) ∧ tx.nonce = some nonce)
    ∧ (∀ e, explorerNonce = Except.error e →
        (buildFunction balanceCache explorerBalance explorerNonce accountAddress request).result
          = Except.error e) := by
  have hnot : ¬ B - L * P < 0 := not_lt.mpr hfunds
  have hres : (buildFunction balanceCache explorerBalance explorerNonce accountAddress
      request).result
      = match explorerNonce with
        | Except.error e => Except.error e
        | Except.ok nonce =>
          Except.ok { assembleTransaction request (B - L * P) accountAddress with
                      nonce := some nonce } := by
    unfold buildFunction
    simp only [hB]
    unfold buildWithBalance
    simp only [hL, hP, hwipe, Option.isNone_some, Option.getD_some, Bool.false_eq_true,
      Bool.true_eq_false, and_false, or_self, if_false, if_true, hnot]
  constructor
  · intro nonce hn
    rw [hres, hn]
    refine ⟨_, rfl, ?_, rfl⟩
    show (if request.wipe = true then some (B - L * P) else request.value) = some (B - L * P)
    rw [if_pos hwipe]
  · intro e he
    rw [hres, he]

/-- C9, at a cached balance of 100: a wipe request that also carries a value, 10 units of gas
at price 2. -/
theorem buildFunction_wipe_sends_all_witness :
    (sampleRequest (some 500) (some 10) true).gasLimit = some 10
    ∧ (sampleRequest (some 500) (some 10) true).gasPrice = some 2
    ∧ (sampleRequest (some 500) (some 10) true).wipe = true
    ∧ (getBalance (some 100) (Except.error ErrorCode.HTTP_ERROR)).result = Except.ok 100
    ∧ (0 : Int) ≤ 100 - 10 * 2
    ∧ (∀ nonce, (Except.ok 7 : Except ErrorCode Int) = Except.ok nonce →
        ∃ tx, (buildFunction (some 100) (Except.error ErrorCode.HTTP_ERROR) (Except.ok 7) "X"
                (sampleRequest (some 500) (some 10) true)).result = Except.ok tx
          ∧ tx.value = some (100 - 10 * 2) ∧ tx.nonce = some nonce)
    ∧ (∀ e, (Except.ok 7 : Except ErrorCode Int) = Except.error e →
        (buildFunction (some 100) (Except.error ErrorCode.HTTP_ERROR) (Except.ok 7) "X"
          (sampleRequest (some 500) (some 10) true)).result = Except.error e) :=
  ⟨rfl, rfl, rfl, rfl, by decide,
    buildFunction_wipe_sends_all (some 100) (Except.error ErrorCode.HTTP_ERROR) (Except.ok 7)
      "X" (sampleRequest (some 500) (some 10) true) 100 10 2 rfl rfl rfl rfl (by decide)⟩

/-- C10, as stated, fails: the build function fetches the balance before it checks the
arguments. With an empty cache and a failing explorer, a request without gas limit fails with
the error of the fetch, not with `INVALID_ARGUMENT`; with an empty cache and a working
explorer, the same request fails with `INVALID_ARGUMENT` after one fetch. -/
theorem buildFunction_argument_check_follows_fetch :
    (sampleRequest (some 1) none false).gasLimit = none
    ∧ (buildFunction none (Except.error ErrorCode.HTTP_ERROR) (Except.ok 7) "X"
        (sampleRequest (some 1) none false)).result = Except.error ErrorCode.HTTP_ERROR
    ∧ (buildFunction none (Except.error ErrorCode.HTTP_ERROR) (Except.ok 7) "X"
        (sampleRequest (some 1) none false)).result ≠ Except.error ErrorCode.INVALID_ARGUMENT
    ∧ (buildFunction none (Except.error ErrorCode.HTTP_ERROR) (Except.ok 7) "X"
        (sampleRequest (some 1) none false)).balanceFetches = 1
    ∧ (buildFunction none (Except.ok 100) (Except.ok 7) "X"
        (sampleRequest (some 1) none false)).result = Except.error ErrorCode.INVALID_ARGUMENT
    ∧ (buildFunction none (Except.ok 100) (Except.ok 7) "X"
        (sampleRequest (some 1) none false)).balanceFetches = 1 :=
  ⟨rfl, rfl, (fun h => Except.noConfusion h (fun e => ErrorCode.noConfusion e)), rfl, rfl, rfl⟩

/-- C10, amended: for a request that lacks the gas limit, lacks the gas price, or has neither a
value nor the wipe flag, the build function fails with `INVALID_ARGUMENT` whenever `getBalance`
succeeds, whatever the balance is; the check runs after `getBalance`, so when the balance
fetch fails the build fails with the error of the fetch. -/
theorem buildFunction_invalid_argument (balanceCache : Option Int)
    (explorerBalance explorerNonce : Except ErrorCode Int) (accountAddress : String)
    (request : EthereumLikeTransactionBuildRequest)
    (hreq : request.gasLimit = none ∨ request.gasPrice = none
      ∨ (request.value = none ∧ request.wipe = false)) :
    (∀ B, (getBalance balanceCache explorerBalance).result = Except.ok B →
      (buildFunction balanceCache explorerBalance explorerNonce accountAddress request).result
        = Except.error ErrorCode.INVALID_ARGUMENT)
    ∧ (∀ e, (getBalance balanceCache explorerBalance).result = Except.error e →
      (buildFunction balanceCache explorerBalance explorerNonce accountAddress request).result
        = Except.error e) := by
  constructor
  · intro B hB
    unfold buildFunction
    simp only [hB]
    unfold buildWithBalance
    rw [if_pos]
    rcases hreq with h | h | ⟨h1, h2⟩
    · exact Or.inl (by rw [h]; rfl)
    · exact Or.inr (Or.inl (by rw [h]; rfl))
    · exact Or.inr (Or.inr ⟨by rw [h1]; rfl, h2⟩)
  · intro e he
    unfold buildFunction
    simp only [he]

/-- C10 amended, at a request without gas limit, with a cached balance and with a failing
explorer. -/
theorem buildFunction_invalid_argument_witness :
    ((sampleRequest (some 1) none false).gasLimit = none
      ∨ (sampleRequest (some 1) none false).gasPrice = none
      ∨ ((sampleRequest (some 1) none false).value = none
          ∧ (sampleRequest (some 1) none false).wipe = false))
    ∧ (∀ B, (getBalance (some 100) (Except.error ErrorCode.HTTP_ERROR)).result = Except.ok B →
      (buildFunction (some 100) (Except.error ErrorCode.HTTP_ERROR) (Except.ok 7) "X"
        (sampleRequest (some 1) none false)).result = Except.error ErrorCode.INVALID_ARGUMENT)
    ∧ (∀ e, (getBalance (some 100) (Except.error ErrorCode.HTTP_ERROR)).result
          = Except.error e →
      (buildFunction (some 100) (Except.error ErrorCode.HTTP_ERROR) (Except.ok 7) "X"
        (sampleRequest (some 1) none false)).result = Except.error e) :=
  ⟨Or.inl rfl,
    buildFunction_invalid_argument (some 100) (Except.error ErrorCode.HTTP_ERROR) (Except.ok 7)
      "X" (sampleRequest (some 1) none false) (Or.inl rfl)⟩

end ledger.core

/-! ## Token transfer parsing of a raw transaction -/

namespace ledger.core

theorem hexValue_hexDigit (n : Nat) (h : n < 16) : hexValue (hexDigit n) = n := by
  interval_cases n <;> rfl

theorem hex_toString_length (bytes : List Nat) :
    (hex.toString bytes).length = 2 * bytes.length := by
  show (bytes.flatMap (fun b => [hexDigit (b / 16 % 16), hexDigit (b % 16)])).length = _
  induction bytes with
  | nil => rfl
  | cons b rest ih =>
    rw [List.flatMap_cons, List.length_append, ih, List.length_cons]
    simp only [List.length_cons, List.length_nil]
    omega

theorem hex_toString_append (a b : List Nat) :
    (hex.toString (a ++ b)).data = (hex.toString a).data ++ (hex.toString b).data := by
  show (a ++ b).flatMap _ = a.flatMap _ ++ b.flatMap _
  rw [List.flatMap_append]

theorem fromHex_toString_aux (bytes : List Nat) (hbytes : ∀ b ∈ bytes, b < 256) :
    ∀ n : Nat,
      (bytes.flatMap (fun b => [hexDigit (b / 16 % 16), hexDigit (b % 16)])).foldl
          (fun n c => n * 16 + hexValue c) n
        = bytes.foldl (fun n b => n * 256 + b) n := by
  induction bytes with
  | nil => intro n; rfl
  | cons b rest ih =>
    intro n
    have hb : b < 256 := hbytes b (List.mem_cons_self _ _)
    rw [List.flatMap_cons, List.foldl_append, List.foldl_cons, List.foldl_cons, List.foldl_nil,
      List.foldl_cons, hexValue_hexDigit _ (Nat.mod_lt _ (by decide)),
      hexValue_hexDigit _ (Nat.mod_lt _ (by decide)),
      ih (fun x hx => hbytes x (List.mem_cons_of_mem _ hx))]
    congr 1
    omega

/-- Reading the hexadecimal string of bytes gives their big-endian integer. -/
theorem fromHex_toString (bytes : List Nat) (hbytes : ∀ b ∈ bytes, b < 256) :
    BigInt.fromHex (hex.toString bytes) = bigEndian bytes := by
  unfold BigInt.fromHex bigEndian
  rw [show (hex.toString bytes).data
      = bytes.flatMap (fun b => [hexDigit (b / 16 % 16), hexDigit (b % 16)]) from rfl,
    fromHex_toString_aux bytes hbytes 0]

theorem startsWith_append (p s : List Char) : startsWith (p ++ s) p = true := by
  induction p with
  | nil => cases s <;> rfl
  | cons c p ih =>
    show (c == c && startsWith (p ++ s) p) = true
    rw [ih]
    simp

theorem containsSubstring_append (p s : List Char) : containsSubstring (p ++ s) p = true := by
  cases h : p ++ s with
  | nil =>
    have hp : p = [] := (List.append_eq_nil.mp h).1
    rw [hp]
    rfl
  | cons c t =>
    show (startsWith (c :: t) p || containsSubstring t p) = true
    rw [← h, startsWith_append]
    rfl

/-- A raw transaction whose data is the transfer selector followed by two 32-byte words gives
a record with exactly one token transfer: from the own address of the account, of the
big-endian value of the second word, on the contract that receives the transaction, of kind
SEND, and to the address that the codec makes of `"0x"` and the hexadecimal digits, without
leading zeros, of the big-endian integer of the first word. -/
theorem getETHLikeBlockchainExplorerTxFromRawTx_transfer (codec : RawTransactionCodec)
    (account : EthereumLikeAccount) (txHash : String) (now : Int) (rawTx : List Nat)
    (tx : ParsedRawTransaction) (w1 w2 : List Nat) (toAddress : String)
    (hparse : codec.parseRawSignedTransaction rawTx = Except.ok tx)
    (hdata : tx.data = some (transferSelector ++ w1 ++ w2))
    (h1 : w1.length = 32) (h2 : w2.length = 32)
    (hb1 : ∀ b ∈ w1, b < 256) (hb2 : ∀ b ∈ w2, b < 256)
    (hto : codec.addressToEIP55 ("0x" ++ BigInt.toHexString (bigEndian w1))
      = Except.ok toAddress) :
    ∃ record, getETHLikeBlockchainExplorerTxFromRawTx codec account txHash now rawTx
        = Except.ok record
      ∧ record.erc20Transactions
        = [{ fromAddress := account.accountAddress, toAddress := toAddress,
             value := bigEndian w2, contractAddress := tx.receiver,
             type := OperationType.SEND }] := by
  have hlen : (hex.toString (transferSelector ++ w1 ++ w2)).length = 136 := by
    rw [hex_toString_length]
    simp only [List.length_append, h1, h2]
    rfl
  have hsel : containsSubstring (hex.toString (transferSelector ++ w1 ++ w2)).data
      ERC20MethodsID_transfer.data = true := by
    rw [List.append_assoc, hex_toString_append]
    exact containsSubstring_append _ _
  have hdrop : (transferSelector ++ w1 ++ w2).drop 4 = w1 ++ w2 := by
    rw [List.append_assoc]
    exact List.drop_left' rfl
  have hrec : erc20RecipientString (transferSelector ++ w1 ++ w2)
      = "0x" ++ BigInt.toHexString (bigEndian w1) := by
    unfold erc20RecipientString
    rw [hdrop, List.take_left' h1, fromHex_toString w1 hb1]
  have hval : erc20TransferValue (transferSelector ++ w1 ++ w2) = bigEndian w2 := by
    unfold erc20TransferValue
    rw [hdrop, List.drop_left' h1, List.take_of_length_le (le_of_eq h2),
      fromHex_toString w2 hb2]
  unfold getETHLikeBlockchainExplorerTxFromRawTx
  rw [hparse]
  simp only [hdata, Option.getD_some]
  rw [if_pos ⟨hlen, hsel⟩, hrec, hto, hval]
  exact ⟨_, rfl, rfl⟩

/-- A raw transaction whose hexadecimal data is not 136 characters long, or does not contain
the transfer selector, gives a record without token transfer. -/
theorem getETHLikeBlockchainExplorerTxFromRawTx_no_transfer (codec : RawTransactionCodec)
    (account : EthereumLikeAccount) (txHash : String) (now : Int) (rawTx : List Nat)
    (tx : ParsedRawTransaction) (hparse : codec.parseRawSignedTransaction rawTx = Except.ok tx)
    (hshape : ¬ ((hex.toString (tx.data.getD [])).length = 136
      ∧ containsSubstring (hex.toString (tx.data.getD [])).data ERC20MethodsID_transfer.data
          = true)) :
    ∃ record, getETHLikeBlockchainExplorerTxFromRawTx codec account txHash now rawTx
        = Except.ok record
      ∧ record.erc20Transactions = [] := by
  unfold getETHLikeBlockchainExplorerTxFromRawTx
  rw [hparse]
  simp only
  rw [if_neg hshape]
  exact ⟨_, rfl, rfl⟩

set_option maxRecDepth 20000

/-- C11, at a failing input: a transfer of 5 units to the 20-byte address
`0x000000000000000000000000000000000000dead`, with the selector, the address word and the value
word in place. The round trip through `BigInt` drops the leading zeros of the address itself:
the address codec receives `"0xdead"`, not the 40 digits of the address, and the token transfer
of the record carries what the codec makes of that string. -/
theorem getETHLikeBlockchainExplorerTxFromRawTx_drops_address_zeros :
    transferToDeadAddress
        = transferSelector ++ (List.replicate 12 0 ++ deadAddressBytes)
          ++ (List.replicate 31 0 ++ [5])
    ∧ deadAddressBytes.length = 20
    ∧ "0x" ++ hex.toString deadAddressBytes = "0x000000000000000000000000000000000000dead"
    ∧ erc20RecipientString transferToDeadAddress = "0xdead"
    ∧ erc20RecipientString transferToDeadAddress ≠ "0x" ++ hex.toString deadAddressBytes
    ∧ (getETHLikeBlockchainExplorerTxFromRawTx sampleCodec sampleAccount "h" 50
          transferToDeadAddress).map (fun record => record.erc20Transactions)
        = Except.ok [{ fromAddress := "X", toAddress := "0xdead", value := 5,
                       contractAddress := "0xToken", type := OperationType.SEND }] := by
  refine ⟨rfl, rfl, by decide, by decide, by decide, ?_⟩
  rfl

/-- C12, at a failing input: 68 bytes of call data that begin with the selector `0x12345678`,
not with the transfer selector, whose address word contains the bytes `a9 05 9c bb`. The test
of the source looks for the selector at any offset, so the record carries a token transfer. -/
theorem getETHLikeBlockchainExplorerTxFromRawTx_selector_at_any_offset :
    otherCallData.length = 68
    ∧ otherCallData.take 4 = [0x12, 0x34, 0x56, 0x78]
    ∧ otherCallData.take 4 ≠ transferSelector
    ∧ (getETHLikeBlockchainExplorerTxFromRawTx sampleCodec sampleAccount "h" 50
          otherCallData).map (fun record => record.erc20Transactions)
        = Except.ok [{ fromAddress := "X",
                       toAddress := "0xa9059cbb11111111111111111111111111111111", value := 5,
                       contractAddress := "0xToken", type := OperationType.SEND }] := by
  refine ⟨rfl, rfl, by decide, ?_⟩
  rfl

end ledger.core

/-! ## Balance cache, broadcast, foreign transactions -/

namespace ledger.core

/-- C15: `getBalance` reads through the cache. When the cache holds an amount, it returns that
amount, makes no fetch at the explorer and leaves the cache as it is. When the cache is empty
and the fetch succeeds, it makes exactly one fetch, returns the fetched amount and leaves the
cache holding that amount, so that the next `getBalance` returns the same amount without a
fetch, whatever the explorer would answer then. -/
theorem getBalance_reads_through_cache (explorerBalance : Except ErrorCode Int) :
    (∀ a : Int,
      (getBalance (some a) explorerBalance).result = Except.ok a
      ∧ (getBalance (some a) explorerBalance).fetches = 0
      ∧ (getBalance (some a) explorerBalance).balanceCache = some a)
    ∧ (∀ b : Int,
      (getBalance none (Except.ok b)).result = Except.ok b
      ∧ (getBalance none (Except.ok b)).fetches = 1
      ∧ (getBalance none (Except.ok b)).balanceCache = some b
      ∧ (getBalance (getBalance none (Except.ok b)).balanceCache explorerBalance).result
          = Except.ok b
      ∧ (getBalance (getBalance none (Except.ok b)).balanceCache explorerBalance).fetches = 0) :=
  ⟨fun _ => ⟨rfl, rfl, rfl⟩, fun _ => ⟨rfl, rfl, rfl, rfl, rfl⟩⟩

/-- C16: when the explorer accepts the pushed transaction and returns the hash `h`, the result
of `broadcastRawTransaction` is `h`, whether the optimistic update succeeds or fails with any
error; when it fails, the account and the store are left as they were. -/
theorem broadcastRawTransaction_returns_hash (codec : RawTransactionCodec) (H : UidScheme)
    (account : EthereumLikeAccount) (store : AccountStore) (now : Int) (h : String)
    (transaction : List Nat) :
    (broadcastRawTransaction codec H account store now (Except.ok h) transaction).result
        = Except.ok h
    ∧ (∀ e, optimisticUpdate codec H account store h now transaction = Except.error e →
        (broadcastRawTransaction codec H account store now (Except.ok h) transaction).account
            = account
        ∧ (broadcastRawTransaction codec H account store now (Except.ok h) transaction).store
            = store) := by
  cases hu : optimisticUpdate codec H account store h now transaction with
  | error e =>
    have hb : broadcastRawTransaction codec H account store now (Except.ok h) transaction
        = { result := Except.ok h, account := account, store := store } := by
      unfold broadcastRawTransaction
      simp only [hu]
    rw [hb]
    exact ⟨rfl, fun _ _ => ⟨rfl, rfl⟩⟩
  | ok r =>
    have hb : (broadcastRawTransaction codec H account store now (Except.ok h)
        transaction).result = Except.ok h := by
      unfold broadcastRawTransaction
      simp only [hu]
    refine ⟨hb, ?_⟩
    intro e he
    cases he

/-- C16, at two inputs: a raw transaction that the parser rejects, so that the optimistic
update fails, and a token transfer whose optimistic update succeeds. -/
theorem broadcastRawTransaction_returns_hash_witness :
    optimisticUpdate failingCodec sampleScheme sampleAccount emptyStore "h" 50 [1, 2, 3]
        = Except.error ErrorCode.INVALID_ARGUMENT
    ∧ (broadcastRawTransaction failingCodec sampleScheme sampleAccount emptyStore 50
        (Except.ok "h") [1, 2, 3]).result = Except.ok "h"
    ∧ (broadcastRawTransaction sampleCodec sampleScheme sampleAccount emptyStore 50
        (Except.ok "h") transferToDeadAddress).result = Except.ok "h" :=
  ⟨rfl,
    (broadcastRawTransaction_returns_hash failingCodec sampleScheme sampleAccount emptyStore 50
      "h" [1, 2, 3]).1,
    (broadcastRawTransaction_returns_hash sampleCodec sampleScheme sampleAccount emptyStore 50
      "h" transferToDeadAddress).1⟩

/-- C19: with a live wallet, a transaction of which the watched address is neither the sender
nor the receiver makes `interpretTransaction` append exactly one operation, of kind NONE, when
it carries a token transfer or an internal transaction, and no operation at all otherwise. -/
theorem interpretTransaction_foreign (H : UidScheme) (acc : EthereumLikeAccount)
    (wallet : Wallet) (tx : EthereumLikeBlockchainExplorerTransaction) (out : List Operation)
    (hw : acc.wallet = some wallet) (hs : tx.sender ≠ acc.accountAddress)
    (hr : tx.receiver ≠ acc.accountAddress) :
    ((tx.erc20Transactions ≠ [] ∨ tx.internalTransactions ≠ []) →
      ∃ acc1 op, interpretTransaction H acc tx out = Except.ok (acc1, out ++ [op])
        ∧ op.type = OperationType.NONE)
    ∧ ((tx.erc20Transactions = [] ∧ tx.internalTransactions = []) →
      interpretTransaction H acc tx out = Except.ok (acc, out)) := by
  have hs1 : ¬ acc.accountAddress = tx.sender := fun e => hs e.symm
  have hr1 : ¬ acc.accountAddress = tx.receiver := fun e => hr e.symm
  constructor
  · intro hside
    have hside1 : ¬ tx.erc20Transactions.isEmpty = true
        ∨ ¬ tx.internalTransactions.isEmpty = true := by
      rcases hside with h | h
      · exact Or.inl (fun c => h (List.isEmpty_iff.mp c))
      · exact Or.inr (fun c => h (List.isEmpty_iff.mp c))
    obtain ⟨l, d, h⟩ := interpretTransaction_carrier H acc wallet tx out hw hs1 hr1 hside1
    exact ⟨_, _, h, rfl⟩
  · intro hnone
    apply interpretTransaction_ignored H acc wallet tx out hw hs1 hr1
    rintro (h | h)
    · exact h (List.isEmpty_iff.mpr hnone.1)
    · exact h (List.isEmpty_iff.mpr hnone.2)

/-- C19, at the sample account: a transaction between two other addresses, with a token
transfer to the watched address. -/
theorem interpretTransaction_foreign_witness :
    sampleAccount.wallet = some sampleWallet
    ∧ (sampleTx "Y" "Z" 1 (some sampleBlock) [sampleTransfer "Y" "X"]).sender
        ≠ sampleAccount.accountAddress
    ∧ (sampleTx "Y" "Z" 1 (some sampleBlock) [sampleTransfer "Y" "X"]).receiver
        ≠ sampleAccount.accountAddress
    ∧ (((sampleTx "Y" "Z" 1 (some sampleBlock) [sampleTransfer "Y" "X"]).erc20Transactions ≠ []
        ∨ (sampleTx "Y" "Z" 1 (some sampleBlock)
            [sampleTransfer "Y" "X"]).internalTransactions ≠ []) →
      ∃ acc1 op, interpretTransaction sampleScheme sampleAccount
          (sampleTx "Y" "Z" 1 (some sampleBlock) [sampleTransfer "Y" "X"]) []
            = Except.ok (acc1, [] ++ [op])
        ∧ op.type = OperationType.NONE)
    ∧ (((sampleTx "Y" "Z" 1 (some sampleBlock) [sampleTransfer "Y" "X"]).erc20Transactions = []
        ∧ (sampleTx "Y" "Z" 1 (some sampleBlock)
            [sampleTransfer "Y" "X"]).internalTransactions = []) →
      interpretTransaction sampleScheme sampleAccount
          (sampleTx "Y" "Z" 1 (some sampleBlock) [sampleTransfer "Y" "X"]) []
        = Except.ok (sampleAccount, [])) :=
  ⟨rfl, by decide, by decide,
    interpretTransaction_foreign sampleScheme sampleAccount sampleWallet
      (sampleTx "Y" "Z" 1 (some sampleBlock) [sampleTransfer "Y" "X"]) [] rfl
      (by decide) (by decide)⟩

end ledger.core

/-! ## The effect of the interpreter on the account -/

namespace ledger.core

theorem setERC20LikeAccounts_append_nil (acc : EthereumLikeAccount) :
    acc.setERC20LikeAccounts (acc.erc20LikeAccounts ++ []) = acc := by
  rw [List.append_nil]
  rfl

theorem setERC20LikeAccounts_append_append (acc : EthereumLikeAccount)
    (a b : List ERC20LikeAccount) :
    (acc.setERC20LikeAccounts (acc.erc20LikeAccounts ++ a)).setERC20LikeAccounts
        ((acc.setERC20LikeAccounts (acc.erc20LikeAccounts ++ a)).erc20LikeAccounts ++ b)
      = acc.setERC20LikeAccounts (acc.erc20LikeAccounts ++ (a ++ b)) := by
  show acc.setERC20LikeAccounts ((acc.erc20LikeAccounts ++ a) ++ b) = _
  rw [List.append_assoc]

/-- A call of `updateERC20Operation` that returns only appends to the registry. -/
theorem updateERC20Operation_grows (H : UidScheme) (acc acc1 : EthereumLikeAccount)
    (op op1 : Operation) (t : ERC20Transaction)
    (h : updateERC20Operation H acc op t = Except.ok (acc1, op1)) :
    ∃ extra, acc1 = acc.setERC20LikeAccounts (acc.erc20LikeAccounts ++ extra) := by
  unfold updateERC20Operation at h
  cases hd : op.attachedData with
  | none =>
    rw [hd] at h
    cases h
  | some d =>
    rw [hd] at h
    simp only at h
    split at h
    · injection h with h1
      injection h1 with h2 _
      exact ⟨_, h2.symm⟩
    · injection h with h1
      injection h1 with h2 _
      exact ⟨[], by rw [setERC20LikeAccounts_append_nil]; exact h2.symm⟩

end ledger.core

namespace ledger.core

end ledger.core

namespace ledger.core

end ledger.core

/-! ## The events of a bulk insert -/

namespace ledger.core

theorem emitNewERC20Operation_batchedOpUids (wallet : Wallet) (acc : EthereumLikeAccount)
    (ev : EventState) (op : ERC20LikeOperation) (accountUid : String) :
    (emitNewERC20Operation wallet acc ev op accountUid).batchedOpUids
        = ev.batchedOpUids ++ [op.uid]
    ∧ (emitNewERC20Operation wallet acc ev op accountUid).newOperationsEvents
        = ev.newOperationsEvents := by
  unfold emitNewERC20Operation emitNewERC20Operations EventState.batchedOpUids
  cases ev.batchedErc20Event with
  | none => exact ⟨rfl, rfl⟩
  | some e => exact ⟨rfl, rfl⟩

theorem emitAttached_inner (wallet : Wallet) (acc : EthereumLikeAccount)
    (its : List (String × ERC20LikeOperation)) :
    ∀ ev : EventState,
      (its.foldl (fun ev2 it => emitNewERC20Operation wallet acc ev2 it.2 it.1) ev).batchedOpUids
          = ev.batchedOpUids ++ its.map (fun it => it.2.uid)
      ∧ (its.foldl (fun ev2 it => emitNewERC20Operation wallet acc ev2 it.2 it.1)
            ev).newOperationsEvents = ev.newOperationsEvents := by
  induction its with
  | nil =>
    intro ev
    exact ⟨by rw [List.map_nil, List.append_nil]; rfl, rfl⟩
  | cons it rest ih =>
    intro ev
    obtain ⟨h1, h2⟩ := emitNewERC20Operation_batchedOpUids wallet acc ev it.2 it.1
    obtain ⟨k1, k2⟩ := ih (emitNewERC20Operation wallet acc ev it.2 it.1)
    rw [List.foldl_cons]
    refine ⟨?_, ?_⟩
    · rw [k1, h1, List.map_cons, List.append_assoc, List.singleton_append]
    · rw [k2, h2]

/-- The loop of `bulkInsert` appends the uid of every attached token sub-operation to the
batched token event and leaves the new-operations notifications as they are. -/
theorem emitAttachedERC20Operations_uids (wallet : Wallet) (acc : EthereumLikeAccount)
    (operations : List Operation) :
    ∀ ev : EventState,
      (emitAttachedERC20Operations wallet acc ev operations).batchedOpUids
          = ev.batchedOpUids ++ attachedERC20Uids operations
      ∧ (emitAttachedERC20Operations wallet acc ev operations).newOperationsEvents
          = ev.newOperationsEvents := by
  induction operations with
  | nil =>
    intro ev
    exact ⟨by unfold attachedERC20Uids; rw [List.flatMap_nil, List.append_nil]; rfl, rfl⟩
  | cons op rest ih =>
    intro ev
    unfold emitAttachedERC20Operations attachedERC20Uids
    rw [List.foldl_cons, List.flatMap_cons]
    cases hd : op.attachedData with
    | none =>
      simp only
      have h := ih ev
      unfold emitAttachedERC20Operations attachedERC20Uids at h
      rw [List.nil_append]
      exact h
    | some data =>
      simp only
      obtain ⟨h1, h2⟩ := emitAttached_inner wallet acc data.erc20Operations ev
      have h := ih (data.erc20Operations.foldl
        (fun ev2 it => emitNewERC20Operation wallet acc ev2 it.2 it.1) ev)
      unfold emitAttachedERC20Operations attachedERC20Uids at h
      refine ⟨?_, ?_⟩
      · rw [h.1, h1, List.append_assoc]
      · rw [h.2, h2]

/-- C18, as stated, fails: a replay of `bulkInsert` with the same operations, whose uids are in
the ledger by then, leaves one row in the ledger but hands the uid of the operation to a second
new-operations notification and appends the uid of its token sub-operation to the batched
token event a second time. -/
theorem bulkInsert_replay_fires_again :
    sampleInterpreted.map (fun op => op.uid) = ["acc/h/SEND"]
    ∧ attachedERC20Uids sampleInterpreted = ["acc/h/SEND/C/SEND"]
    ∧ ((bulkInsert sampleAccount emptyStore sampleInterpreted).bind
          (fun first => bulkInsert sampleAccount first.1 sampleInterpreted)).map
        (fun second => (second.1.ledger.length, second.1.events.newOperationsEvents,
          second.1.events.batchedOpUids))
      = Except.ok (1, [["acc/h/SEND"], ["acc/h/SEND"]],
          ["acc/h/SEND/C/SEND", "acc/h/SEND/C/SEND"]) :=
  ⟨rfl, rfl, rfl⟩

/-- C18, amended: with a live wallet `bulkInsert` commits and returns the size of the batch;
it emits one new-operations notification, which carries the uid of every operation of the
batch, and appends the uid of every attached token sub-operation to the batched token event,
whether or not these uids were in the ledger before. -/
theorem bulkInsert_emits_whole_batch (acc : EthereumLikeAccount) (wallet : Wallet)
    (store : AccountStore) (operations : List Operation) (hw : acc.wallet = some wallet) :
    ∃ store1, bulkInsert acc store operations = Except.ok (store1, operations.length)
      ∧ store1.ledger = databaseBulkInsert store.ledger operations
      ∧ store1.events.newOperationsEvents
          = store.events.newOperationsEvents ++ [operations.map (fun op => op.uid)]
      ∧ store1.events.batchedOpUids
          = store.events.batchedOpUids ++ attachedERC20Uids operations := by
  unfold bulkInsert
  rw [hw]
  obtain ⟨h1, h2⟩ := emitAttachedERC20Operations_uids wallet acc operations
    (emitNewOperationsEvent store.events operations)
  refine ⟨_, rfl, rfl, ?_, ?_⟩
  · show (emitAttachedERC20Operations wallet acc
      (emitNewOperationsEvent store.events operations) operations).newOperationsEvents = _
    rw [h2]
    rfl
  · show (emitAttachedERC20Operations wallet acc
      (emitNewOperationsEvent store.events operations) operations).batchedOpUids = _
    rw [h1]
    rfl

/-- C18 amended, at the sample account: the operations of a send with a token transfer,
inserted in a store that holds them already. -/
theorem bulkInsert_emits_whole_batch_witness :
    sampleAccount.wallet = some sampleWallet
    ∧ ∃ store1,
      bulkInsert sampleAccount
          { ledger := sampleInterpreted, events := emptyStore.events } sampleInterpreted
        = Except.ok (store1, sampleInterpreted.length)
      ∧ store1.ledger = databaseBulkInsert sampleInterpreted sampleInterpreted
      ∧ store1.events.newOperationsEvents
          = emptyStore.events.newOperationsEvents
            ++ [sampleInterpreted.map (fun op => op.uid)]
      ∧ store1.events.batchedOpUids
          = emptyStore.events.batchedOpUids ++ attachedERC20Uids sampleInterpreted :=
  ⟨rfl,
    bulkInsert_emits_whole_batch sampleAccount sampleWallet
      { ledger := sampleInterpreted, events := emptyStore.events } sampleInterpreted rfl⟩

end ledger.core

/-! ## Synchronization: single flight and terminal event -/

namespace ledger.core

/-- C13: while the account is RUNNING (an event bus is stored), `synchronize` returns that same
bus and leaves the state as it is: no pass is launched and the stored bus is unchanged. When
the account is IDLE, it stores the bus of a fresh publisher, launches exactly one pass and
returns that fresh bus. -/
theorem synchronize_single_flight (now : Int) (st : SyncState) :
    (∀ bus, st.currentSyncEventBus = some bus → synchronize now st = (st, bus))
    ∧ (st.currentSyncEventBus = none →
        (synchronize now st).2 = st.publishers
        ∧ (synchronize now st).1.currentSyncEventBus = some (synchronize now st).2
        ∧ (synchronize now st).1.publishers = st.publishers + 1
        ∧ (synchronize now st).1.launched = st.launched + 1
        ∧ (synchronize now st).1.running
            = st.running ++ [{ eventPublisher := st.publishers, startTime := now }]) := by
  constructor
  · intro bus h
    unfold synchronize
    rw [h]
  · intro h
    unfold synchronize
    rw [h]
    exact ⟨rfl, rfl, rfl, rfl, rfl⟩

/-- C13, at a second call of `synchronize` while the first pass runs. -/
theorem synchronize_single_flight_witness :
    (synchronize 0 SyncState.idle).1.currentSyncEventBus = some 0
    ∧ synchronize 5 (synchronize 0 SyncState.idle).1 = ((synchronize 0 SyncState.idle).1, 0)
    ∧ (synchronize 5 (synchronize 0 SyncState.idle).1).1.launched = 1 :=
  ⟨rfl, (synchronize_single_flight 5 (synchronize 0 SyncState.idle).1).1 0 rfl, rfl⟩

theorem SingleFlight.step (names : ErrorCodeNames) (st : SyncState) (action : SyncAction)
    (hinv : SingleFlight st)
    (herase : action = SyncAction.eraseDataSince → st.running = []) :
    SingleFlight (st.step names action) := by
  cases action with
  | synchronize now =>
    show SingleFlight (synchronize now st).1
    rcases hinv with ⟨hc, hr⟩ | ⟨pass, hc, hr⟩
    · unfold synchronize
      rw [hc]
      refine Or.inr ⟨{ eventPublisher := st.publishers, startTime := now }, rfl, ?_⟩
      show st.running ++ _ = _
      rw [hr]
      rfl
    · unfold synchronize
      rw [hc]
      exact Or.inr ⟨pass, hc, hr⟩
  | complete eventPublisher now result =>
    rcases hinv with ⟨hc, hr⟩ | ⟨pass, hc, hr⟩
    · have hstep : st.step names (SyncAction.complete eventPublisher now result) = st := by
        unfold SyncState.step
        rw [hr]
        rfl
      rw [hstep]
      exact Or.inl ⟨hc, hr⟩
    · by_cases hp : pass.eventPublisher = eventPublisher
      · have hstep : st.step names (SyncAction.complete eventPublisher now result)
            = completeSynchronization names now pass result st := by
          unfold SyncState.step
          rw [hr]
          simp [List.find?, hp]
        rw [hstep]
        refine Or.inl ⟨rfl, ?_⟩
        show st.running.filter _ = []
        rw [hr]
        simp
      · have hstep : st.step names (SyncAction.complete eventPublisher now result) = st := by
          unfold SyncState.step
          rw [hr]
          simp [List.find?, hp]
        rw [hstep]
        exact Or.inr ⟨pass, hc, hr⟩
  | eraseDataSince =>
    have hr := herase rfl
    rcases hinv with ⟨hc, _⟩ | ⟨pass, _, hr1⟩
    · exact Or.inl ⟨rfl, hr⟩
    · rw [hr] at hr1
      cases hr1

theorem SingleFlight.run (names : ErrorCodeNames) (actions : List SyncAction) :
    ∀ st : SyncState, SingleFlight st → erasesWhileIdle names st actions = true →
      SingleFlight (st.run names actions) := by
  induction actions with
  | nil => intro st h _; exact h
  | cons action rest ih =>
    intro st hinv hidle
    show SingleFlight ((st.step names action).run names rest)
    cases action with
    | synchronize now =>
      exact ih _ (SingleFlight.step names st _ hinv (fun c => by cases c)) hidle
    | complete eventPublisher now result =>
      exact ih _ (SingleFlight.step names st _ hinv (fun c => by cases c)) hidle
    | eraseDataSince =>
      simp only [erasesWhileIdle, Bool.and_eq_true] at hidle
      exact ih _ (SingleFlight.step names st _ hinv
        (fun _ => List.isEmpty_iff.mp hidle.1)) hidle.2

/-- C14, as stated, fails: `eraseDataSince` clears the stored event bus without stopping the
pass in flight, so the call of `synchronize` that follows launches a second pass while the
first is still running. -/
theorem eraseDataSince_breaks_single_flight :
    (SyncState.idle.run sampleNames
        [SyncAction.synchronize 0, SyncAction.eraseDataSince, SyncAction.synchronize 1]).running
      = [{ eventPublisher := 0, startTime := 0 }, { eventPublisher := 1, startTime := 1 }]
    ∧ (SyncState.idle.run sampleNames
        [SyncAction.synchronize 0, SyncAction.eraseDataSince,
          SyncAction.synchronize 1]).running.length = 2 :=
  ⟨rfl, rfl⟩

/-- C14, amended: in every state reached from IDLE through a sequence of `synchronize` calls,
pass completions and `eraseDataSince` calls in which every `eraseDataSince` is called while no
pass is in flight, at most one pass is in flight, and its bus is the stored one. -/
theorem at_most_one_pass_in_flight (names : ErrorCodeNames) (actions : List SyncAction)
    (hidle : erasesWhileIdle names SyncState.idle actions = true) :
    (SyncState.idle.run names actions).running.length ≤ 1
    ∧ SingleFlight (SyncState.idle.run names actions) := by
  have h := SingleFlight.run names actions SyncState.idle (Or.inl ⟨rfl, rfl⟩) hidle
  refine ⟨?_, h⟩
  rcases h with ⟨_, hr⟩ | ⟨pass, _, hr⟩
  · rw [hr]
    exact Nat.zero_le 1
  · rw [hr]
    exact Nat.le_refl 1

/-- C14 amended, at a sequence with two calls of `synchronize` during one pass, its completion,
an `eraseDataSince` and a new pass. -/
theorem at_most_one_pass_in_flight_witness :
    erasesWhileIdle sampleNames SyncState.idle
        [SyncAction.synchronize 0, SyncAction.synchronize 1,
          SyncAction.complete 0 9 (Except.ok sampleContext),
          SyncAction.eraseDataSince, SyncAction.synchronize 10] = true
    ∧ (SyncState.idle.run sampleNames
        [SyncAction.synchronize 0, SyncAction.synchronize 1,
          SyncAction.complete 0 9 (Except.ok sampleContext),
          SyncAction.eraseDataSince, SyncAction.synchronize 10]).running.length ≤ 1
    ∧ SingleFlight (SyncState.idle.run sampleNames
        [SyncAction.synchronize 0, SyncAction.synchronize 1,
          SyncAction.complete 0 9 (Except.ok sampleContext),
          SyncAction.eraseDataSince, SyncAction.synchronize 10]) :=
  ⟨rfl,
    at_most_one_pass_in_flight sampleNames
      [SyncAction.synchronize 0, SyncAction.synchronize 1,
        SyncAction.complete 0 9 (Except.ok sampleContext),
        SyncAction.eraseDataSince, SyncAction.synchronize 10] rfl⟩

end ledger.core

namespace ledger.core

theorem toInt32_of_small (n : Nat) (h : n < 2 ^ 31) : toInt32 (n : Int) = (n : Int) := by
  unfold toInt32
  have h1 : (n : Int) < 2 ^ 31 := by exact_mod_cast h
  have h2 : (0 : Int) ≤ (n : Int) := Int.ofNat_nonneg n
  norm_num at h1 ⊢
  omega

/-- C20: the handler of a pass posts exactly one terminal event, on the publisher of the pass,
and removes the pass from the passes in flight. On success the code is
`SYNCHRONIZATION_SUCCEED` and the payload holds the duration, the last block height and the
count of new operations of the context (cast to 32 bits, so themselves below `2 ^ 31`), a
reorganization height exactly when the context has one, and no error key. On failure the code
is `SYNCHRONIZATION_FAILED` and the payload holds the duration, the error code and the error
message, and none of the block height, new operations or reorganization keys. -/
theorem synchronization_terminal_event (names : ErrorCodeNames) (startTime now : Int) :
    (∀ (pass : SynchronizationPass)
        (result : Except SynchronizationFailure SynchronizationContext) (st : SyncState),
      (completeSynchronization names now pass result st).posted
          = st.posted
            ++ [(pass.eventPublisher,
                 synchronizationTerminalEvent names pass.startTime now result)]
      ∧ pass ∉ (completeSynchronization names now pass result st).running)
    ∧ (∀ context : SynchronizationContext,
      (synchronizationTerminalEvent names startTime now (Except.ok context)).code
          = EventCode.SYNCHRONIZATION_SUCCEED
      ∧ (synchronizationTerminalEvent names startTime now (Except.ok context)).payload.get
            PayloadKey.EV_SYNC_DURATION_MS = some (DynamicValue.long (now - startTime))
      ∧ (synchronizationTerminalEvent names startTime now (Except.ok context)).payload.get
            PayloadKey.EV_SYNC_LAST_BLOCK_HEIGHT
          = some (DynamicValue.int (toInt32 context.lastBlockHeight))
      ∧ (synchronizationTerminalEvent names startTime now (Except.ok context)).payload.get
            PayloadKey.EV_SYNC_NEW_OPERATIONS
          = some (DynamicValue.int (toInt32 context.newOperations))
      ∧ (synchronizationTerminalEvent names startTime now (Except.ok context)).payload.get
            PayloadKey.EV_SYNC_REORG_BLOCK_HEIGHT
          = context.reorgBlockHeight.map (fun height => DynamicValue.int (toInt32 height))
      ∧ (synchronizationTerminalEvent names startTime now (Except.ok context)).payload.get
            PayloadKey.EV_SYNC_ERROR_CODE = none
      ∧ (synchronizationTerminalEvent names startTime now (Except.ok context)).payload.get
            PayloadKey.EV_SYNC_ERROR_CODE_INT = none
      ∧ (synchronizationTerminalEvent names startTime now (Except.ok context)).payload.get
            PayloadKey.EV_SYNC_ERROR_MESSAGE = none
      ∧ (context.lastBlockHeight < 2 ^ 31 →
          toInt32 context.lastBlockHeight = context.lastBlockHeight)
      ∧ (context.newOperations < 2 ^ 31 →
          toInt32 context.newOperations = context.newOperations))
    ∧ (∀ failure : SynchronizationFailure,
      (synchronizationTerminalEvent names startTime now (Except.error failure)).code
          = EventCode.SYNCHRONIZATION_FAILED
      ∧ (synchronizationTerminalEvent names startTime now (Except.error failure)).payload.get
            PayloadKey.EV_SYNC_DURATION_MS = some (DynamicValue.long (now - startTime))
      ∧ (synchronizationTerminalEvent names startTime now (Except.error failure)).payload.get
            PayloadKey.EV_SYNC_ERROR_CODE
          = some (DynamicValue.string (names.name failure.errorCode))
      ∧ (synchronizationTerminalEvent names startTime now (Except.error failure)).payload.get
            PayloadKey.EV_SYNC_ERROR_CODE_INT
          = some (DynamicValue.int (toInt32 (names.number failure.errorCode)))
      ∧ (synchronizationTerminalEvent names startTime now (Except.error failure)).payload.get
            PayloadKey.EV_SYNC_ERROR_MESSAGE = some (DynamicValue.string failure.message)
      ∧ (synchronizationTerminalEvent names startTime now (Except.error failure)).payload.get
            PayloadKey.EV_SYNC_LAST_BLOCK_HEIGHT = none
      ∧ (synchronizationTerminalEvent names startTime now (Except.error failure)).payload.get
            PayloadKey.EV_SYNC_NEW_OPERATIONS = none
      ∧ (synchronizationTerminalEvent names startTime now (Except.error failure)).payload.get
            PayloadKey.EV_SYNC_REORG_BLOCK_HEIGHT = none) := by
  refine ⟨?_, ?_, ?_⟩
  · intro pass result st
    refine ⟨rfl, ?_⟩
    show pass ∉ st.running.filter _
    intro hmem
    rw [List.mem_filter] at hmem
    simpa using hmem.2
  · intro context
    refine ⟨rfl, ?_, ?_, ?_, ?_, ?_, ?_, ?_, toInt32_of_small _, toInt32_of_small _⟩
    all_goals
      obtain ⟨reorg, last, count⟩ := context
      cases reorg <;> rfl
  · intro failure
    exact ⟨rfl, rfl, rfl, rfl, rfl, rfl, rfl, rfl⟩

/-- C20, at a pass that succeeds after 9 milliseconds and at a pass that fails. -/
theorem synchronization_terminal_event_witness :
    (synchronizationTerminalEvent sampleNames 0 9 (Except.ok sampleContext))
        = { code := EventCode.SYNCHRONIZATION_SUCCEED
            payload := [(PayloadKey.EV_SYNC_DURATION_MS, DynamicValue.long 9),
                        (PayloadKey.EV_SYNC_LAST_BLOCK_HEIGHT, DynamicValue.int 7),
                        (PayloadKey.EV_SYNC_NEW_OPERATIONS, DynamicValue.int 2)] }
    ∧ (synchronizationTerminalEvent sampleNames 0 9 (Except.ok sampleContext)).code
        = EventCode.SYNCHRONIZATION_SUCCEED
    ∧ (synchronizationTerminalEvent sampleNames 0 9
        (Except.error { errorCode := ErrorCode.HTTP_ERROR, message := "down" })).code
        = EventCode.SYNCHRONIZATION_FAILED :=
  ⟨by decide,
    ((synchronization_terminal_event sampleNames 0 9).2.1 sampleContext).1,
    ((synchronization_terminal_event sampleNames 0 9).2.2
      { errorCode := ErrorCode.HTTP_ERROR, message := "down" }).1⟩

end ledger.core

/-! ## Token transfers: classification and handling -/

namespace ledger.core

/-- The loop of `updateERC20Accounts` is the sequence of the calls `erc20HandlingCalls`. -/
theorem updateERC20AccountsLoop_eq_calls (H : UidScheme) (ts : List ERC20Transaction) :
    ∀ (acc : EthereumLikeAccount) (op : Operation),
      updateERC20AccountsLoop H ts acc op
        = handleERC20Calls H (erc20HandlingCalls acc.accountAddress ts) acc op := by
  induction ts with
  | nil => intro acc op; rfl
  | cons t rest ih =>
    intro acc op
    simp only [updateERC20AccountsLoop, erc20HandlingCalls, handleERC20Calls]
    have hty : (if t.fromAddress = acc.accountAddress then OperationType.SEND
        else if t.toAddress = acc.accountAddress then OperationType.RECEIVE
        else OperationType.NONE) = classifyERC20 acc.accountAddress t := rfl
    rw [hty]
    cases h1 : updateERC20Operation H acc op
        { t with type := classifyERC20 acc.accountAddress t } with
    | error e => rfl
    | ok r1 =>
      obtain ⟨acc1, op1⟩ := r1
      obtain ⟨extra1, rfl⟩ := updateERC20Operation_grows H acc acc1 op op1 _ h1
      simp only
      by_cases hto : t.toAddress = acc.accountAddress
      · rw [if_pos hto, if_pos hto]
        simp only [List.singleton_append, handleERC20Calls]
        cases h2 : updateERC20Operation H
            (acc.setERC20LikeAccounts (acc.erc20LikeAccounts ++ extra1)) op1
            { t with type := OperationType.RECEIVE } with
        | error e => rfl
        | ok r2 =>
          obtain ⟨acc2, op2⟩ := r2
          obtain ⟨extra2, rfl⟩ := updateERC20Operation_grows H _ acc2 op1 op2 _ h2
          simp only
          exact ih _ op2
      · rw [if_neg hto, if_neg hto]
        simp only [List.nil_append]
        exact ih _ op1

end ledger.core

namespace ledger.core

/-- C21, at a failing input: a token transfer from `"Y"` to the watched address `"X"`, a plain
RECEIVE. The loop classifies it RECEIVE and calls the handling, and then calls it a second
time with the kind RECEIVE, because the second call is made whenever the destination is the
watched address: the parent operation gets two sub-operations of kind RECEIVE with the same
uid. -/
theorem updateERC20Accounts_handles_plain_receive_twice :
    (sampleTransfer "Y" "X").fromAddress ≠ sampleAccount.accountAddress
    ∧ (sampleTransfer "Y" "X").toAddress = sampleAccount.accountAddress
    ∧ classifyERC20 sampleAccount.accountAddress (sampleTransfer "Y" "X") = OperationType.RECEIVE
    ∧ (erc20HandlingCalls sampleAccount.accountAddress [sampleTransfer "Y" "X"]).map
        (fun call => call.type) = [OperationType.RECEIVE, OperationType.RECEIVE]
    ∧ (updateERC20Accounts sampleScheme sampleAccount sampleParent).map
        (fun r => r.2.attachedData.map
          (fun data => data.erc20Operations.map (fun it => (it.2.uid, it.2.operationType))))
      = Except.ok (some [("op/C/RECEIVE", OperationType.RECEIVE),
                         ("op/C/RECEIVE", OperationType.RECEIVE)]) :=
  ⟨by decide, rfl, rfl, rfl, rfl⟩

end ledger.core

namespace ledger.core

theorem putOperation_eq (account : ERC20LikeAccount) (op : Operation) (e : ERC20LikeOperation)
    (d : EthereumOperationAttachedData) (h : op.attachedData = some d) :
    account.putOperation op e
      = op.setAttachedData (some { accounts := d.accounts
                                   erc20Operations := d.erc20Operations ++ [(account.uid, e)] }) := by
  unfold ERC20LikeAccount.putOperation
  rw [h]

/-- The loop of `updateERC20Operation` over the registry gives the sub-operation to every
matching sub-account, and keeps `needNewAccount` only if none matches. -/
theorem putInMatchingAccounts_eq (a c : String) (e : ERC20LikeOperation)
    (l : List ERC20LikeAccount) :
    ∀ (op : Operation) (need : Bool) (d : EthereumOperationAttachedData),
      op.attachedData = some d →
      putInMatchingAccounts a c e l (op, need)
        = (op.setAttachedData (some
            { accounts := d.accounts
              erc20Operations := d.erc20Operations
                ++ (matchingAccounts a c l).map (fun account => (account.uid, e)) }),
           need && (matchingAccounts a c l).isEmpty) := by
  induction l with
  | nil =>
    intro op need d h
    simp only [putInMatchingAccounts, matchingAccounts, List.filter_nil, List.map_nil,
      List.append_nil, List.isEmpty_nil, Bool.and_true]
    rw [← h]
    rfl
  | cons account rest ih =>
    intro op need d h
    simp only [putInMatchingAccounts]
    by_cases hm : account.token.contractAddress = c ∧ account.address = a
    · rw [if_pos hm, putOperation_eq account op e d h, ih _ false _ rfl]
      have hf : matchingAccounts a c (account :: rest)
          = account :: matchingAccounts a c rest := by
        unfold matchingAccounts
        rw [List.filter_cons_of_pos (by simpa using hm)]
      rw [hf]
      simp only [List.map_cons, List.isEmpty_cons, Bool.and_false, Bool.false_and,
        List.append_assoc, List.singleton_append]
      rfl
    · rw [if_neg hm, ih op need d h]
      have hf : matchingAccounts a c (account :: rest) = matchingAccounts a c rest := by
        unfold matchingAccounts
        rw [List.filter_cons_of_neg (by simpa using hm)]
      rw [hf]

/-- The function `updateERC20Operation` on a parent operation with attached data, by cases on
the sub-accounts of the registry that match the contract and the watched address. -/
theorem updateERC20Operation_eq (H : UidScheme) (acc : EthereumLikeAccount) (op : Operation)
    (t : ERC20Transaction) (d : EthereumOperationAttachedData) (hd : op.attachedData = some d) :
    updateERC20Operation H acc op t
      = if matchingAccounts acc.accountAddress t.contractAddress acc.erc20LikeAccounts = [] then
          Except.ok (acc.setERC20LikeAccounts
              (acc.erc20LikeAccounts ++ [newERC20Account H acc t.contractAddress]),
            op.setAttachedData (some
              { accounts := d.accounts ++ [newERC20Account H acc t.contractAddress]
                erc20Operations := d.erc20Operations
                  ++ [((newERC20Account H acc t.contractAddress).uid,
                       erc20OperationOf H op t)] }))
        else
          Except.ok (acc,
            op.setAttachedData (some
              { accounts := d.accounts
                erc20Operations := d.erc20Operations
                  ++ (matchingAccounts acc.accountAddress t.contractAddress
                        acc.erc20LikeAccounts).map
                      (fun account => (account.uid, erc20OperationOf H op t)) })) := by
  unfold updateERC20Operation
  rw [hd]
  simp only
  rw [putInMatchingAccounts_eq _ _ _ _ op true d hd]
  by_cases hm : matchingAccounts acc.accountAddress t.contractAddress acc.erc20LikeAccounts = []
  · rw [if_pos hm, hm]
    simp only [List.isEmpty_nil, Bool.and_true, if_true, List.map_nil, List.append_nil]
    rfl
  · rw [if_neg hm]
    have hne : (matchingAccounts acc.accountAddress t.contractAddress
        acc.erc20LikeAccounts).isEmpty = false := by
      cases hl : matchingAccounts acc.accountAddress t.contractAddress acc.erc20LikeAccounts with
      | nil => exact absurd hl hm
      | cons x xs => rfl
    rw [hne]
    simp only [Bool.and_false, Bool.false_eq_true, if_false]
    rfl

end ledger.core

namespace ledger.core

theorem mem_matchingAccounts (a c : String) (l : List ERC20LikeAccount)
    (account : ERC20LikeAccount) :
    account ∈ matchingAccounts a c l ↔ account ∈ l ∧ account.key = (c, a) := by
  unfold matchingAccounts ERC20LikeAccount.key
  rw [List.mem_filter]
  simp only [decide_eq_true_eq, Prod.mk.injEq]

/-- C22: for a parent operation that carries attached data and a token transfer,
`updateERC20Operation` returns. When no registered sub-account matches the contract of the
transfer and the watched address, it appends exactly one new sub-account, of that contract and
that address, to the registry of the account and to the account list of the attached data;
when one matches, it appends nothing to either list. So a registry without two sub-accounts of
the same (contract, address) pair has none afterwards, and the registry afterwards contains a
sub-account of the pair that received the sub-operation. -/
theorem updateERC20Operation_registers_once (H : UidScheme) (acc : EthereumLikeAccount)
    (op : Operation) (t : ERC20Transaction) (d : EthereumOperationAttachedData)
    (hd : op.attachedData = some d) :
    ∃ acc1 d1, updateERC20Operation H acc op t = Except.ok (acc1, op.setAttachedData (some d1))
      ∧ (matchingAccounts acc.accountAddress t.contractAddress acc.erc20LikeAccounts = [] →
          acc1.erc20LikeAccounts
              = acc.erc20LikeAccounts ++ [newERC20Account H acc t.contractAddress]
          ∧ d1.accounts = d.accounts ++ [newERC20Account H acc t.contractAddress]
          ∧ (newERC20Account H acc t.contractAddress).key
              = (t.contractAddress, acc.accountAddress))
      ∧ (matchingAccounts acc.accountAddress t.contractAddress acc.erc20LikeAccounts ≠ [] →
          acc1.erc20LikeAccounts = acc.erc20LikeAccounts ∧ d1.accounts = d.accounts)
      ∧ ((acc.erc20LikeAccounts.map ERC20LikeAccount.key).Nodup →
          (acc1.erc20LikeAccounts.map ERC20LikeAccount.key).Nodup)
      ∧ ∃ account ∈ acc1.erc20LikeAccounts,
          account.key = (t.contractAddress, acc.accountAddress)
          ∧ (account.uid, erc20OperationOf H op t) ∈ d1.erc20Operations := by
  have heq := updateERC20Operation_eq H acc op t d hd
  by_cases hm : matchingAccounts acc.accountAddress t.contractAddress acc.erc20LikeAccounts = []
  · rw [if_pos hm] at heq
    refine ⟨_, _, heq, fun _ => ⟨rfl, rfl, rfl⟩, fun hne => absurd hm hne, ?_, ?_⟩
    · intro hnodup
      show ((acc.erc20LikeAccounts ++ [newERC20Account H acc t.contractAddress]).map
        ERC20LikeAccount.key).Nodup
      rw [List.map_append, List.nodup_append]
      refine ⟨hnodup, List.nodup_singleton _, ?_⟩
      intro k hk hk1
      rw [List.map_singleton, List.mem_singleton] at hk1
      rw [List.mem_map] at hk
      obtain ⟨account, hacc, hkey⟩ := hk
      have hin : account ∈ matchingAccounts acc.accountAddress t.contractAddress
          acc.erc20LikeAccounts := by
        rw [mem_matchingAccounts]
        exact ⟨hacc, by rw [hkey, hk1]; rfl⟩
      rw [hm] at hin
      exact absurd hin (List.not_mem_nil _)
    · refine ⟨newERC20Account H acc t.contractAddress, ?_, rfl, ?_⟩
      · show _ ∈ acc.erc20LikeAccounts ++ [newERC20Account H acc t.contractAddress]
        exact List.mem_append_right _ (List.mem_singleton_self _)
      · show _ ∈ d.erc20Operations ++ [_]
        exact List.mem_append_right _ (List.mem_singleton_self _)
  · rw [if_neg hm] at heq
    refine ⟨_, _, heq, fun he => absurd he hm, fun _ => ⟨rfl, rfl⟩, fun hnodup => hnodup, ?_⟩
    obtain ⟨account, hmem⟩ := List.exists_mem_of_ne_nil _ hm
    have hmem1 := (mem_matchingAccounts _ _ _ _).mp hmem
    refine ⟨account, hmem1.1, hmem1.2, ?_⟩
    show _ ∈ d.erc20Operations ++ _
    apply List.mem_append_right
    exact List.mem_map_of_mem (fun a : ERC20LikeAccount => (a.uid, erc20OperationOf H op t)) hmem

/-- C22, at the sample account: the first token transfer of the contract `"C"`. -/
theorem updateERC20Operation_registers_once_witness :
    sampleParent.attachedData = some { accounts := [], erc20Operations := [] }
    ∧ ∃ acc1 d1,
      updateERC20Operation sampleScheme sampleAccount sampleParent (sampleTransfer "Y" "X")
        = Except.ok (acc1, sampleParent.setAttachedData (some d1))
      ∧ (matchingAccounts sampleAccount.accountAddress (sampleTransfer "Y" "X").contractAddress
            sampleAccount.erc20LikeAccounts = [] →
          acc1.erc20LikeAccounts
              = sampleAccount.erc20LikeAccounts
                ++ [newERC20Account sampleScheme sampleAccount
                      (sampleTransfer "Y" "X").contractAddress]
          ∧ d1.accounts
              = ([] : List ERC20LikeAccount)
                ++ [newERC20Account sampleScheme sampleAccount
                      (sampleTransfer "Y" "X").contractAddress]
          ∧ (newERC20Account sampleScheme sampleAccount
                (sampleTransfer "Y" "X").contractAddress).key
              = ((sampleTransfer "Y" "X").contractAddress, sampleAccount.accountAddress))
      ∧ (matchingAccounts sampleAccount.accountAddress (sampleTransfer "Y" "X").contractAddress
            sampleAccount.erc20LikeAccounts ≠ [] →
          acc1.erc20LikeAccounts = sampleAccount.erc20LikeAccounts
          ∧ d1.accounts = ([] : List ERC20LikeAccount))
      ∧ ((sampleAccount.erc20LikeAccounts.map ERC20LikeAccount.key).Nodup →
          (acc1.erc20LikeAccounts.map ERC20LikeAccount.key).Nodup)
      ∧ ∃ account ∈ acc1.erc20LikeAccounts,
          account.key = ((sampleTransfer "Y" "X").contractAddress, sampleAccount.accountAddress)
          ∧ (account.uid, erc20OperationOf sampleScheme sampleParent (sampleTransfer "Y" "X"))
              ∈ d1.erc20Operations :=
  ⟨rfl,
    updateERC20Operation_registers_once sampleScheme sampleAccount sampleParent
      (sampleTransfer "Y" "X") { accounts := [], erc20Operations := [] } rfl⟩

end ledger.core

/-! ## The batched token event -/

namespace ledger.core

theorem emitNewERC20Operations_fold (accountUid : String) (ops : List ERC20LikeOperation) :
    ∀ e : ERC20OperationsEvent,
      ops.foldl (fun e1 op =>
          ({ e1 with newOpUid := e1.newOpUid ++ [op.uid]
                     newOpErc20AccountUid := e1.newOpErc20AccountUid ++ [accountUid] } :
            ERC20OperationsEvent)) e
        = { e with newOpUid := e.newOpUid ++ ops.map (fun op => op.uid)
                   newOpErc20AccountUid := e.newOpErc20AccountUid
                     ++ ops.map (fun _ => accountUid) } := by
  induction ops with
  | nil =>
    intro e
    simp only [List.foldl_nil, List.map_nil, List.append_nil]
  | cons op rest ih =>
    intro e
    rw [List.foldl_cons, ih]
    simp only [List.map_cons, List.append_assoc, List.singleton_append]

/-- One call of `emitNewERC20Operations`: the uids of the sub-operations and the account uid,
once for each, join the batch; the events pushed are left as they are; an empty list changes
nothing. -/
theorem emitNewERC20Operations_batch (wallet : Wallet) (acc : EthereumLikeAccount)
    (ev : EventState) (ops : List ERC20LikeOperation) (accountUid : String) :
    (emitNewERC20Operations wallet acc ev ops accountUid).batchedOpUids
        = ev.batchedOpUids ++ ops.map (fun op => op.uid)
    ∧ (emitNewERC20Operations wallet acc ev ops accountUid).batchedAccountUids
        = ev.batchedAccountUids ++ ops.map (fun _ => accountUid)
    ∧ (emitNewERC20Operations wallet acc ev ops accountUid).pushedErc20Events
        = ev.pushedErc20Events
    ∧ (ops = [] → emitNewERC20Operations wallet acc ev ops accountUid = ev) := by
  cases ops with
  | nil =>
    refine ⟨?_, ?_, rfl, fun _ => rfl⟩
    · show ev.batchedOpUids = ev.batchedOpUids ++ []
      rw [List.append_nil]
    · show ev.batchedAccountUids = ev.batchedAccountUids ++ []
      rw [List.append_nil]
  | cons op rest =>
    unfold emitNewERC20Operations
    simp only [List.isEmpty_cons, Bool.false_eq_true, if_false]
    rw [emitNewERC20Operations_fold]
    unfold EventState.batchedOpUids EventState.batchedAccountUids
    cases ev.batchedErc20Event with
    | none =>
      refine ⟨?_, ?_, ?_, ?_⟩
      · rfl
      · rfl
      · trivial
      · intro h
        exact absurd h (List.cons_ne_nil _ _)
    | some e =>
      refine ⟨?_, ?_, ?_, ?_⟩
      · rfl
      · rfl
      · trivial
      · intro h
        exact absurd h (List.cons_ne_nil _ _)

/-- A sequence of calls of `emitNewERC20Operations` appends its pairs to the batch. -/
theorem emitAllERC20Operations_batch (wallet : Wallet) (acc : EthereumLikeAccount)
    (calls : List (List ERC20LikeOperation × String)) :
    ∀ ev : EventState,
      (emitAllERC20Operations wallet acc ev calls).batchedOpUids
          = ev.batchedOpUids ++ (appendedPairs calls).map (fun pair => pair.1)
      ∧ (emitAllERC20Operations wallet acc ev calls).batchedAccountUids
          = ev.batchedAccountUids ++ (appendedPairs calls).map (fun pair => pair.2)
      ∧ (emitAllERC20Operations wallet acc ev calls).pushedErc20Events
          = ev.pushedErc20Events := by
  induction calls with
  | nil =>
    intro ev
    refine ⟨?_, ?_, rfl⟩
    · show ev.batchedOpUids = ev.batchedOpUids ++ []
      rw [List.append_nil]
    · show ev.batchedAccountUids = ev.batchedAccountUids ++ []
      rw [List.append_nil]
  | cons call rest ih =>
    intro ev
    obtain ⟨h1, h2, h3, _⟩ := emitNewERC20Operations_batch wallet acc ev call.1 call.2
    obtain ⟨k1, k2, k3⟩ := ih (emitNewERC20Operations wallet acc ev call.1 call.2)
    unfold emitAllERC20Operations at k1 k2 k3 ⊢
    unfold appendedPairs at k1 k2 ⊢
    rw [List.foldl_cons, List.flatMap_cons, List.map_append, List.map_append]
    refine ⟨?_, ?_, ?_⟩
    · rw [k1, h1, List.append_assoc, List.map_map]
      rfl
    · rw [k2, h2, List.append_assoc, List.map_map]
      rfl
    · rw [k3, h3]

end ledger.core

namespace ledger.core

/-- C23: from an empty buffer, after any sequence of calls of `emitNewERC20Operations` that
append at least one sub-operation in total, `emitEventsNow` pushes exactly one token event;
its `NEW_OP_UID` array holds the operation uids appended, in the order of the appends, and its
`NEW_OP_ERC20_ACCOUNT_UID` array, of the same length, holds the account uid of each at the same
index. The buffer is empty afterwards, so a second `emitEventsNow` pushes nothing; and a call
of `emitNewERC20Operations` with an empty list changes nothing, so it creates no event. -/
theorem batched_token_event_flush (wallet : Wallet) (acc : EthereumLikeAccount)
    (ev : EventState) (calls : List (List ERC20LikeOperation × String))
    (hempty : ev.batchedErc20Event = none) (hn : 1 ≤ (appendedPairs calls).length) :
    ∃ event,
      (emitEventsNow (emitAllERC20Operations wallet acc ev calls)).pushedErc20Events
          = ev.pushedErc20Events ++ [event]
      ∧ event.newOpUid = (appendedPairs calls).map (fun pair => pair.1)
      ∧ event.newOpErc20AccountUid = (appendedPairs calls).map (fun pair => pair.2)
      ∧ event.newOpUid.length = (appendedPairs calls).length
      ∧ event.newOpErc20AccountUid.length = event.newOpUid.length
      ∧ (emitEventsNow (emitAllERC20Operations wallet acc ev calls)).batchedErc20Event = none
      ∧ emitEventsNow (emitEventsNow (emitAllERC20Operations wallet acc ev calls))
          = emitEventsNow (emitAllERC20Operations wallet acc ev calls)
      ∧ (∀ (ev0 : EventState) (accountUid : String),
          emitNewERC20Operations wallet acc ev0 [] accountUid = ev0) := by
  obtain ⟨h1, h2, h3⟩ := emitAllERC20Operations_batch wallet acc calls ev
  have hb1 : ev.batchedOpUids = [] := by
    unfold EventState.batchedOpUids
    rw [hempty]
  have hb2 : ev.batchedAccountUids = [] := by
    unfold EventState.batchedAccountUids
    rw [hempty]
  rw [hb1, List.nil_append] at h1
  rw [hb2, List.nil_append] at h2
  cases hev : (emitAllERC20Operations wallet acc ev calls).batchedErc20Event with
  | none =>
    unfold EventState.batchedOpUids at h1
    rw [hev] at h1
    have hlen := congrArg List.length h1
    rw [List.length_map, List.length_nil] at hlen
    omega
  | some event =>
    unfold EventState.batchedOpUids at h1
    unfold EventState.batchedAccountUids at h2
    rw [hev] at h1 h2
    have h1 : event.newOpUid = (appendedPairs calls).map (fun pair => pair.1) := h1
    have h2 : event.newOpErc20AccountUid = (appendedPairs calls).map (fun pair => pair.2) := h2
    have hflush : emitEventsNow (emitAllERC20Operations wallet acc ev calls)
        = { emitAllERC20Operations wallet acc ev calls with
            pushedErc20Events :=
              (emitAllERC20Operations wallet acc ev calls).pushedErc20Events ++ [event]
            batchedErc20Event := none } := by
      unfold emitEventsNow
      rw [hev]
    refine ⟨event, ?_, h1, h2, ?_, ?_, ?_, ?_, fun _ _ => rfl⟩
    · rw [hflush]
      show (emitAllERC20Operations wallet acc ev calls).pushedErc20Events ++ [event] = _
      rw [h3]
    · rw [h1, List.length_map]
    · rw [h1, h2, List.length_map, List.length_map]
    · rw [hflush]
    · rw [hflush]
      rfl

/-- C23, at two calls that append three sub-operations, with a call of an empty list between
them. -/
theorem batched_token_event_flush_witness :
    emptyStore.events.batchedErc20Event = none
    ∧ 1 ≤ (appendedPairs
        [([sampleERC20Operation "a", sampleERC20Operation "b"], "acc#C"), ([], "acc#D"),
          ([sampleERC20Operation "c"], "acc#E")]).length
    ∧ ∃ event,
      (emitEventsNow (emitAllERC20Operations sampleWallet sampleAccount emptyStore.events
          [([sampleERC20Operation "a", sampleERC20Operation "b"], "acc#C"), ([], "acc#D"),
            ([sampleERC20Operation "c"], "acc#E")])).pushedErc20Events
          = emptyStore.events.pushedErc20Events ++ [event]
      ∧ event.newOpUid = (appendedPairs
          [([sampleERC20Operation "a", sampleERC20Operation "b"], "acc#C"), ([], "acc#D"),
            ([sampleERC20Operation "c"], "acc#E")]).map (fun pair => pair.1)
      ∧ event.newOpErc20AccountUid = (appendedPairs
          [([sampleERC20Operation "a", sampleERC20Operation "b"], "acc#C"), ([], "acc#D"),
            ([sampleERC20Operation "c"], "acc#E")]).map (fun pair => pair.2)
      ∧ event.newOpUid.length = (appendedPairs
          [([sampleERC20Operation "a", sampleERC20Operation "b"], "acc#C"), ([], "acc#D"),
            ([sampleERC20Operation "c"], "acc#E")]).length
      ∧ event.newOpErc20AccountUid.length = event.newOpUid.length
      ∧ (emitEventsNow (emitAllERC20Operations sampleWallet sampleAccount emptyStore.events
          [([sampleERC20Operation "a", sampleERC20Operation "b"], "acc#C"), ([], "acc#D"),
            ([sampleERC20Operation "c"], "acc#E")])).batchedErc20Event = none
      ∧ emitEventsNow (emitEventsNow (emitAllERC20Operations sampleWallet sampleAccount
          emptyStore.events
          [([sampleERC20Operation "a", sampleERC20Operation "b"], "acc#C"), ([], "acc#D"),
            ([sampleERC20Operation "c"], "acc#E")]))
          = emitEventsNow (emitAllERC20Operations sampleWallet sampleAccount emptyStore.events
              [([sampleERC20Operation "a", sampleERC20Operation "b"], "acc#C"), ([], "acc#D"),
                ([sampleERC20Operation "c"], "acc#E")])
      ∧ (∀ (ev0 : EventState) (accountUid : String),
          emitNewERC20Operations sampleWallet sampleAccount ev0 [] accountUid = ev0) :=
  ⟨rfl, by decide,
    batched_token_event_flush sampleWallet sampleAccount emptyStore.events
      [([sampleERC20Operation "a", sampleERC20Operation "b"], "acc#C"), ([], "acc#D"),
        ([sampleERC20Operation "c"], "acc#E")] rfl (by decide)⟩

end ledger.core

/-! ## Attached data, orderings of the history, affordable transactions, optimistic records -/

namespace ledger.core

theorem matchingAccounts_append_new (H : UidScheme) (acc : EthereumLikeAccount)
    (c0 c : String) :
    matchingAccounts acc.accountAddress c (acc.erc20LikeAccounts ++ [newERC20Account H acc c0])
      = matchingAccounts acc.accountAddress c acc.erc20LikeAccounts
          ++ (if c0 = c then [newERC20Account H acc c0] else []) := by
  unfold matchingAccounts
  rw [List.filter_append]
  congr 1
  by_cases hc : c0 = c
  · rw [if_pos hc]
    simp [List.filter, newERC20Account, hc]
  · rw [if_neg hc]
    simp [List.filter, newERC20Account, hc]

/-- A sub-account created by a call does not change which sub-accounts later calls reach. -/
theorem receivingAccounts_after_new (H : UidScheme) (acc : EthereumLikeAccount)
    (c0 c : String)
    (hm : matchingAccounts acc.accountAddress c0 acc.erc20LikeAccounts = []) :
    receivingAccounts H
        (acc.setERC20LikeAccounts (acc.erc20LikeAccounts ++ [newERC20Account H acc c0])) c
      = receivingAccounts H acc c := by
  have happ := matchingAccounts_append_new H acc c0 c
  have hnew : newERC20Account H
      (acc.setERC20LikeAccounts (acc.erc20LikeAccounts ++ [newERC20Account H acc c0])) c
      = newERC20Account H acc c := rfl
  unfold receivingAccounts
  rw [hnew]
  show (if matchingAccounts acc.accountAddress c
          (acc.erc20LikeAccounts ++ [newERC20Account H acc c0]) = [] then _
        else matchingAccounts acc.accountAddress c
          (acc.erc20LikeAccounts ++ [newERC20Account H acc c0])) = _
  rw [happ]
  by_cases hc : c0 = c
  · subst hc
    rw [if_pos rfl, hm]
    simp
  · rw [if_neg hc, List.append_nil]

theorem attachedERC20Operations_after_new (H : UidScheme) (acc : EthereumLikeAccount)
    (op : Operation) (a : Option EthereumOperationAttachedData) (c0 : String)
    (calls : List ERC20Transaction)
    (hm : matchingAccounts acc.accountAddress c0 acc.erc20LikeAccounts = []) :
    attachedERC20Operations H
        (acc.setERC20LikeAccounts (acc.erc20LikeAccounts ++ [newERC20Account H acc c0]))
        (op.setAttachedData a) calls
      = attachedERC20Operations H acc op calls := by
  unfold attachedERC20Operations
  congr 1
  funext t
  rw [receivingAccounts_after_new H acc c0 t.contractAddress hm]
  rfl

/-- A sequence of calls of `updateERC20Operation` on a parent operation with attached data
returns: the sub-accounts it creates join the registry and the account list of the attached
data, and the sub-operations of the calls join the attached data, call by call. -/
theorem handleERC20Calls_eq (H : UidScheme) (calls : List ERC20Transaction) :
    ∀ (acc : EthereumLikeAccount) (op : Operation) (d : EthereumOperationAttachedData),
      op.attachedData = some d →
      ∃ extra, handleERC20Calls H calls acc op
        = Except.ok (acc.setERC20LikeAccounts (acc.erc20LikeAccounts ++ extra),
            op.setAttachedData (some
              { accounts := d.accounts ++ extra
                erc20Operations := d.erc20Operations
                  ++ attachedERC20Operations H acc op calls })) := by
  induction calls with
  | nil =>
    intro acc op d hd
    refine ⟨[], ?_⟩
    simp only [handleERC20Calls, attachedERC20Operations, List.flatMap_nil, List.append_nil]
    rw [← hd]
    rfl
  | cons t rest ih =>
    intro acc op d hd
    simp only [handleERC20Calls]
    rw [updateERC20Operation_eq H acc op t d hd]
    by_cases hm : matchingAccounts acc.accountAddress t.contractAddress acc.erc20LikeAccounts = []
    · rw [if_pos hm]
      simp only
      obtain ⟨extra, h⟩ := ih
        (acc.setERC20LikeAccounts
          (acc.erc20LikeAccounts ++ [newERC20Account H acc t.contractAddress]))
        (op.setAttachedData (some
          { accounts := d.accounts ++ [newERC20Account H acc t.contractAddress]
            erc20Operations := d.erc20Operations
              ++ [((newERC20Account H acc t.contractAddress).uid,
                   erc20OperationOf H op t)] })) _ rfl
      refine ⟨newERC20Account H acc t.contractAddress :: extra, ?_⟩
      rw [h, attachedERC20Operations_after_new H acc op _ t.contractAddress rest hm]
      have hhead : attachedERC20Operations H acc op (t :: rest)
          = ((newERC20Account H acc t.contractAddress).uid, erc20OperationOf H op t)
              :: attachedERC20Operations H acc op rest := by
        unfold attachedERC20Operations receivingAccounts
        rw [List.flatMap_cons, if_pos hm]
        rfl
      rw [hhead, setERC20LikeAccounts_append_append]
      simp only [List.append_assoc, List.singleton_append]
      rfl
    · rw [if_neg hm]
      simp only
      obtain ⟨extra, h⟩ := ih acc
        (op.setAttachedData (some
          { accounts := d.accounts
            erc20Operations := d.erc20Operations
              ++ (matchingAccounts acc.accountAddress t.contractAddress
                    acc.erc20LikeAccounts).map
                  (fun account => (account.uid, erc20OperationOf H op t)) })) _ rfl
      refine ⟨extra, ?_⟩
      rw [h]
      have hhead : attachedERC20Operations H acc op (t :: rest)
          = (matchingAccounts acc.accountAddress t.contractAddress
                acc.erc20LikeAccounts).map
              (fun account => (account.uid, erc20OperationOf H op t))
            ++ attachedERC20Operations H acc op rest := by
        unfold attachedERC20Operations receivingAccounts
        rw [List.flatMap_cons, if_neg hm]
      rw [hhead]
      simp only [List.append_assoc]
      rfl

/-- The token handling that the interpreter runs on its first operation: on a parent operation
with a transaction and fresh attached data, `updateERC20Accounts` returns; the sub-accounts it
creates join the registry and the attached data, and the sub-operations of its calls join the
attached data. -/
theorem updateERC20Accounts_eq (H : UidScheme) (acc : EthereumLikeAccount) (op : Operation)
    (tx0 : EthereumLikeBlockchainExplorerTransaction)
    (htx : op.ethereumTransaction = some tx0) :
    ∃ extra, updateERC20Accounts H acc
          (op.setAttachedData (some { accounts := [], erc20Operations := [] }))
        = Except.ok (acc.setERC20LikeAccounts (acc.erc20LikeAccounts ++ extra),
            op.setAttachedData (some
              { accounts := extra
                erc20Operations := attachedERC20Operations H acc op
                  (erc20HandlingCalls acc.accountAddress tx0.erc20Transactions) })) := by
  obtain ⟨extra, h⟩ := handleERC20Calls_eq H
    (erc20HandlingCalls acc.accountAddress tx0.erc20Transactions) acc
    (op.setAttachedData (some { accounts := [], erc20Operations := [] })) _ rfl
  refine ⟨extra, ?_⟩
  have h0 : (op.setAttachedData
      (some { accounts := [], erc20Operations := [] })).ethereumTransaction = some tx0 := htx
  unfold updateERC20Accounts
  simp only [h0]
  rw [updateERC20AccountsLoop_eq_calls, h]
  simp only [List.nil_append]
  rfl

/-- The first call of the lambda `updateOperation`, given what the token handling returns. -/
theorem updateOperation_first_of (H : UidScheme)
    (tx : EthereumLikeBlockchainExplorerTransaction) (st : InterpretState)
    (ty : OperationType) (acc1 : EthereumLikeAccount) (op1 : Operation)
    (hres : st.result = 0)
    (h : updateERC20Accounts H st.acc
        ((typedOperation H tx st.operation ty).setAttachedData
          (some { accounts := [], erc20Operations := [] })) = Except.ok (acc1, op1)) :
    updateOperation H tx st ty = Except.ok
      { acc := acc1
        operation := op1.setAttachedData none
        out := st.out ++ [op1]
        result := st.result } := by
  unfold updateOperation
  simp only [hres, if_true, h]

/-- Every sub-operation of the calls on a parent operation names that operation as its
parent. -/
theorem attachedERC20Operations_parent (H : UidScheme) (acc : EthereumLikeAccount)
    (op : Operation) (calls : List ERC20Transaction) :
    ∀ it ∈ attachedERC20Operations H acc op calls, it.2.ethUidOperation = op.uid := by
  intro it hit
  unfold attachedERC20Operations at hit
  rw [List.mem_flatMap] at hit
  obtain ⟨t, _, ht⟩ := hit
  rw [List.mem_map] at ht
  obtain ⟨account, _, rfl⟩ := ht
  rfl

theorem receivingAccounts_ne_nil (H : UidScheme) (acc : EthereumLikeAccount) (c : String) :
    receivingAccounts H acc c ≠ [] := by
  unfold receivingAccounts
  by_cases hm : matchingAccounts acc.accountAddress c acc.erc20LikeAccounts = []
  · rw [if_pos hm]
    exact List.cons_ne_nil _ _
  · rw [if_neg hm]
    exact hm

theorem mem_erc20HandlingCalls (a : String) (ts : List ERC20Transaction)
    (t : ERC20Transaction) (ht : t ∈ ts) :
    { t with type := classifyERC20 a t } ∈ erc20HandlingCalls a ts := by
  induction ts with
  | nil => cases ht
  | cons u rest ih =>
    simp only [erc20HandlingCalls]
    rcases List.mem_cons.1 ht with h | h
    · rw [h]
      exact List.mem_cons_self _ _
    · exact List.mem_cons_of_mem _ (List.mem_append_right _ (ih h))

/-- Every token transfer of the list has a sub-operation among those of the calls, with its
classified kind, its addresses and its value. -/
theorem attachedERC20Operations_covers (H : UidScheme) (acc : EthereumLikeAccount)
    (op : Operation) (ts : List ERC20Transaction) (t : ERC20Transaction) (ht : t ∈ ts) :
    ∃ it ∈ attachedERC20Operations H acc op (erc20HandlingCalls acc.accountAddress ts),
      it.2.ethUidOperation = op.uid
      ∧ it.2.operationType = classifyERC20 acc.accountAddress t
      ∧ it.2.sender = t.fromAddress ∧ it.2.receiver = t.toAddress
      ∧ it.2.value = t.value := by
  have hne := receivingAccounts_ne_nil H acc t.contractAddress
  cases hl : receivingAccounts H acc t.contractAddress with
  | nil => exact absurd hl hne
  | cons account rest =>
    refine ⟨(account.uid, erc20OperationOf H op
      { t with type := classifyERC20 acc.accountAddress t }), ?_, rfl, rfl, rfl, rfl, rfl⟩
    unfold attachedERC20Operations
    rw [List.mem_flatMap]
    refine ⟨_, mem_erc20HandlingCalls acc.accountAddress ts t ht, ?_⟩
    rw [List.mem_map]
    refine ⟨account, ?_, rfl⟩
    show account ∈ receivingAccounts H acc t.contractAddress
    rw [hl]
    exact List.mem_cons_self _ _

/-- With a live wallet the interpreter returns. Either it appends nothing and leaves the
account as it is, or its first operation is the typed skeleton on which the token handling has
run, and the operations after it carry no attached data. -/
theorem interpretTransaction_handled (H : UidScheme) (acc : EthereumLikeAccount)
    (wallet : Wallet) (tx : EthereumLikeBlockchainExplorerTransaction) (out : List Operation)
    (hw : acc.wallet = some wallet) :
    ∃ extra ops, interpretTransaction H acc tx out
        = Except.ok (acc.setERC20LikeAccounts (acc.erc20LikeAccounts ++ extra), out ++ ops)
      ∧ ((ops = [] ∧ extra = [] ∧ ¬ acc.accountAddress = tx.sender)
        ∨ ∃ ty rest,
            ops = (typedOperation H tx (operationSkeleton acc wallet tx) ty).setAttachedData
                (some { accounts := extra
                        erc20Operations := attachedERC20Operations H acc
                          (typedOperation H tx (operationSkeleton acc wallet tx) ty)
                          (erc20HandlingCalls acc.accountAddress tx.erc20Transactions) })
              :: rest
            ∧ updateERC20Accounts H acc
                ((typedOperation H tx (operationSkeleton acc wallet tx) ty).setAttachedData
                  (some { accounts := [], erc20Operations := [] }))
              = Except.ok (acc.setERC20LikeAccounts (acc.erc20LikeAccounts ++ extra),
                  (typedOperation H tx (operationSkeleton acc wallet tx) ty).setAttachedData
                    (some { accounts := extra
                            erc20Operations := attachedERC20Operations H acc
                              (typedOperation H tx (operationSkeleton acc wallet tx) ty)
                              (erc20HandlingCalls acc.accountAddress
                                tx.erc20Transactions) }))
            ∧ (∀ o ∈ rest, o.attachedData = none)
            ∧ (acc.accountAddress = tx.sender → acc.accountAddress = tx.receiver →
                ty = OperationType.SEND
                ∧ rest = [typedOperation H tx (operationSkeleton acc wallet tx)
                            OperationType.RECEIVE])) := by
  have key : ∀ ty : OperationType, ∃ extra, updateERC20Accounts H acc
        ((typedOperation H tx (operationSkeleton acc wallet tx) ty).setAttachedData
          (some { accounts := [], erc20Operations := [] }))
      = Except.ok (acc.setERC20LikeAccounts (acc.erc20LikeAccounts ++ extra),
          (typedOperation H tx (operationSkeleton acc wallet tx) ty).setAttachedData
            (some { accounts := extra
                    erc20Operations := attachedERC20Operations H acc
                      (typedOperation H tx (operationSkeleton acc wallet tx) ty)
                      (erc20HandlingCalls acc.accountAddress tx.erc20Transactions) })) :=
    fun ty => updateERC20Accounts_eq H acc
      (typedOperation H tx (operationSkeleton acc wallet tx) ty)
      { tx with block := tx.block.map (fun b => { b with currencyName := wallet.currencyName }) }
      rfl
  by_cases hs : acc.accountAddress = tx.sender
  · obtain ⟨extra, hU⟩ := key OperationType.SEND
    have hO := updateOperation_first_of H tx
      { acc := acc, operation := operationSkeleton acc wallet tx, out := out,
        result := FLAG_TRANSACTION_IGNORED } OperationType.SEND _ _ rfl hU
    by_cases hr : acc.accountAddress = tx.receiver
    · refine ⟨extra, _, ?_, Or.inr ⟨OperationType.SEND,
        [typedOperation H tx (operationSkeleton acc wallet tx) OperationType.RECEIVE],
        rfl, hU, ?_, fun _ _ => ⟨rfl, rfl⟩⟩⟩
      · unfold interpretTransaction
        simp only [hw]
        rw [if_pos hs, hO]
        simp only [Except.map]
        rw [if_pos hr, updateOperation_later _ _ _ _
          (by simp [FLAG_TRANSACTION_CREATED_SENDING_OPERATION])]
        simp only [Except.map]
        rw [if_neg (by simp [FLAG_TRANSACTION_CREATED_RECEPTION_OPERATION])]
        simp only [List.append_assoc, List.singleton_append]
        rfl
      · intro o ho
        rw [List.mem_singleton] at ho
        rw [ho]
        rfl
    · refine ⟨extra, _, ?_, Or.inr ⟨OperationType.SEND, [], rfl, hU,
        fun o ho => absurd ho (List.not_mem_nil o), fun _ c => absurd c hr⟩⟩
      unfold interpretTransaction
      simp only [hw]
      rw [if_pos hs, hO]
      simp only [Except.map]
      rw [if_neg hr]
      simp only
      rw [if_neg (by simp [FLAG_TRANSACTION_CREATED_SENDING_OPERATION])]
  · by_cases hr : acc.accountAddress = tx.receiver
    · obtain ⟨extra, hU⟩ := key OperationType.RECEIVE
      have hO := updateOperation_first_of H tx
        { acc := acc, operation := operationSkeleton acc wallet tx, out := out,
          result := FLAG_TRANSACTION_IGNORED } OperationType.RECEIVE _ _ rfl hU
      refine ⟨extra, _, ?_, Or.inr ⟨OperationType.RECEIVE, [], rfl, hU,
        fun o ho => absurd ho (List.not_mem_nil o), fun c _ => absurd c hs⟩⟩
      unfold interpretTransaction
      simp only [hw]
      rw [if_neg hs]
      simp only
      rw [if_pos hr, hO]
      simp only [Except.map]
      rw [if_neg (by simp [FLAG_TRANSACTION_CREATED_RECEPTION_OPERATION])]
    · by_cases hside : ¬ tx.erc20Transactions.isEmpty = true
          ∨ ¬ tx.internalTransactions.isEmpty = true
      · obtain ⟨extra, hU⟩ := key OperationType.NONE
        have hO := updateOperation_first_of H tx
          { acc := acc, operation := operationSkeleton acc wallet tx, out := out,
            result := FLAG_TRANSACTION_IGNORED } OperationType.NONE _ _ rfl hU
        refine ⟨extra, _, ?_, Or.inr ⟨OperationType.NONE, [], rfl, hU,
          fun o ho => absurd ho (List.not_mem_nil o), fun c _ => absurd c hs⟩⟩
        unfold interpretTransaction
        simp only [hw]
        rw [if_neg hs]
        simp only
        rw [if_neg hr]
        simp only
        rw [if_pos ⟨rfl, hside⟩, hO]
        rfl
      · refine ⟨[], [], ?_, Or.inl ⟨rfl, rfl, hs⟩⟩
        rw [interpretTransaction_ignored H acc wallet tx out hw hs hr hside]
        simp only [List.append_nil]
        rfl

theorem attachedData_first_only (a : Operation) (rest : List Operation)
    (ha : a.attachedData.isSome = true) (hrest : ∀ o ∈ rest, o.attachedData = none) :
    ∀ (i : Nat) (op : Operation), (a :: rest)[i]? = some op →
      (op.attachedData.isSome = true ↔ i = 0) := by
  intro i op h
  cases i with
  | zero =>
    rw [List.getElem?_cons_zero] at h
    injection h with h1
    rw [← h1]
    exact ⟨fun _ => rfl, fun _ => ha⟩
  | succ j =>
    rw [List.getElem?_cons_succ] at h
    have hmem : op ∈ rest := List.getElem?_mem h
    rw [hrest op hmem]
    constructor
    · intro c
      cases c
    · intro c
      cases c

/-- C24: with a live wallet, among the operations that one call of `interpretTransaction`
appends, the first one carries attached token data and no other does, and the token handling
runs on the first one only. When nothing is appended no handling runs and the account is
unchanged. Otherwise the first operation and the account afterwards are what
`updateERC20Accounts` returns on the first operation with fresh attached data: its attached
data holds the sub-operations of the handling calls of the token transfers of the transaction,
every token transfer has a sub-operation there with its classified kind, its addresses and
its value, every sub-operation names the first operation as its parent, the sub-accounts
created are the ones listed in the attached data, and the operations after the first carry no
attached data. In a self-transfer the operations are a SEND with attached data and a RECEIVE
without. -/
theorem interpretTransaction_attaches_to_first_only (H : UidScheme) (acc : EthereumLikeAccount)
    (wallet : Wallet) (tx : EthereumLikeBlockchainExplorerTransaction) (out : List Operation)
    (hw : acc.wallet = some wallet) :
    ∃ acc1 ops, interpretTransaction H acc tx out = Except.ok (acc1, out ++ ops)
      ∧ (∀ (i : Nat) (op : Operation), ops[i]? = some op →
          (op.attachedData.isSome = true ↔ i = 0))
      ∧ (ops = [] → acc1 = acc)
      ∧ (∀ first rest, ops = first :: rest →
          updateERC20Accounts H acc
              (first.setAttachedData (some { accounts := [], erc20Operations := [] }))
            = Except.ok (acc1, first)
          ∧ (∃ d, first.attachedData = some d
              ∧ d.erc20Operations = attachedERC20Operations H acc first
                  (erc20HandlingCalls acc.accountAddress tx.erc20Transactions)
              ∧ acc1.erc20LikeAccounts = acc.erc20LikeAccounts ++ d.accounts
              ∧ (∀ t ∈ tx.erc20Transactions, ∃ it ∈ d.erc20Operations,
                  it.2.ethUidOperation = first.uid
                  ∧ it.2.operationType = classifyERC20 acc.accountAddress t
                  ∧ it.2.sender = t.fromAddress ∧ it.2.receiver = t.toAddress
                  ∧ it.2.value = t.value)
              ∧ (∀ it ∈ d.erc20Operations, it.2.ethUidOperation = first.uid))
          ∧ (∀ o ∈ rest, o.attachedData = none))
      ∧ (tx.sender = acc.accountAddress → tx.receiver = acc.accountAddress →
          ∃ send recv, ops = [send, recv]
            ∧ send.type = OperationType.SEND ∧ send.attachedData.isSome = true
            ∧ recv.type = OperationType.RECEIVE ∧ recv.attachedData = none) := by
  obtain ⟨extra, ops, h, hcase⟩ := interpretTransaction_handled H acc wallet tx out hw
  rcases hcase with ⟨hops, hextra, hs⟩ | ⟨ty, rest, hops, hU, hrest, hself⟩
  · subst hops
    subst hextra
    refine ⟨_, [], h, ?_, fun _ => setERC20LikeAccounts_append_nil acc, ?_,
      fun c _ => absurd c.symm hs⟩
    · intro i op hi
      rw [List.getElem?_nil] at hi
      cases hi
    · intro first rest he
      cases he
  · subst hops
    refine ⟨_, _, h, ?_, ?_, ?_, ?_⟩
    · exact attachedData_first_only _ rest (by rfl) hrest
    · intro c
      cases c
    · intro first rest1 he
      injection he with h1 h2
      subst h1
      subst h2
      refine ⟨hU, ⟨_, rfl, rfl, rfl, ?_, ?_⟩, hrest⟩
      · intro t ht
        exact attachedERC20Operations_covers H acc
          (typedOperation H tx (operationSkeleton acc wallet tx) ty) tx.erc20Transactions t ht
      · exact attachedERC20Operations_parent H acc
          (typedOperation H tx (operationSkeleton acc wallet tx) ty) _
    · intro hs hr
      obtain ⟨hty, hr2⟩ := hself hs.symm hr.symm
      subst hty
      subst hr2
      exact ⟨_, _, rfl, rfl, rfl, rfl, rfl⟩

set_option maxRecDepth 20000

/-- C24, at the sample account: a self-transfer that carries a token transfer. -/
theorem interpretTransaction_attaches_to_first_only_witness :
    sampleAccount.wallet = some sampleWallet
    ∧ ∃ acc1 ops,
      interpretTransaction sampleScheme sampleAccount sampleSelfTransfer []
        = Except.ok (acc1, [] ++ ops)
      ∧ (∀ (i : Nat) (op : Operation), ops[i]? = some op →
          (op.attachedData.isSome = true ↔ i = 0))
      ∧ (ops = [] → acc1 = sampleAccount)
      ∧ (∀ first rest, ops = first :: rest →
          updateERC20Accounts sampleScheme sampleAccount
              (first.setAttachedData (some { accounts := [], erc20Operations := [] }))
            = Except.ok (acc1, first)
          ∧ (∃ d, first.attachedData = some d
              ∧ d.erc20Operations = attachedERC20Operations sampleScheme sampleAccount first
                  (erc20HandlingCalls sampleAccount.accountAddress
                    sampleSelfTransfer.erc20Transactions)
              ∧ acc1.erc20LikeAccounts = sampleAccount.erc20LikeAccounts ++ d.accounts
              ∧ (∀ t ∈ sampleSelfTransfer.erc20Transactions, ∃ it ∈ d.erc20Operations,
                  it.2.ethUidOperation = first.uid
                  ∧ it.2.operationType = classifyERC20 sampleAccount.accountAddress t
                  ∧ it.2.sender = t.fromAddress ∧ it.2.receiver = t.toAddress
                  ∧ it.2.value = t.value)
              ∧ (∀ it ∈ d.erc20Operations, it.2.ethUidOperation = first.uid))
          ∧ (∀ o ∈ rest, o.attachedData = none))
      ∧ (sampleSelfTransfer.sender = sampleAccount.accountAddress →
          sampleSelfTransfer.receiver = sampleAccount.accountAddress →
          ∃ send recv, ops = [send, recv]
            ∧ send.type = OperationType.SEND ∧ send.attachedData.isSome = true
            ∧ recv.type = OperationType.RECEIVE ∧ recv.attachedData = none) :=
  ⟨rfl,
    interpretTransaction_attaches_to_first_only sampleScheme sampleAccount sampleWallet
      sampleSelfTransfer [] rfl⟩

end ledger.core

namespace ledger.core

theorem getInternalOperations_perm (rows1 rows2 : List InternalOperationRow)
    (h : rows1.Perm rows2) :
    (getInternalOperations rows1).Perm (getInternalOperations rows2) := by
  unfold getInternalOperations
  exact h.filterMap _

/-- C25: for `startDate < endDate`, a bucket width `p > 0` and fuel for every bucket, the
result of `getBalanceHistory` is the same for any two orderings of the same ledger operations
and internal rows; and the bucket walk gives that result on any ordering of the gathered
operations that is sorted by date, whatever the order of operations of the same date, so the
result does not depend on how the sort breaks ties. -/
theorem getBalanceHistory_order_independent (fuel : Nat) (s e p : Int)
    (ledger1 ledger2 : List Operation) (rows1 rows2 : List InternalOperationRow)
    (hse : s < e) (hp : 0 < p) (hfuel : bucketCount s e p ≤ fuel)
    (hledger : ledger1.Perm ledger2) (hrows : rows1.Perm rows2) :
    getBalanceHistory fuel s e p ledger1 rows1 = getBalanceHistory fuel s e p ledger2 rows2
    ∧ (∀ sorted : List Operation,
        sorted.Perm (ledger1 ++ getInternalOperations rows1) →
        sorted.Pairwise (fun a b => a.date ≤ b.date) →
        (balanceHistoryOfSorted fuel s e p sorted).map Except.ok
          = getBalanceHistory fuel s e p ledger1 rows1) := by
  have hperm : (ledger1 ++ getInternalOperations rows1).Perm
      (ledger2 ++ getInternalOperations rows2) :=
    hledger.append (getInternalOperations_perm rows1 rows2 hrows)
  constructor
  · rw [getBalanceHistory_eq fuel s e p ledger1 rows1 hse hp hfuel,
      getBalanceHistory_eq fuel s e p ledger2 rows2 hse hp hfuel,
      expectedHistory_perm s e p _ _ hperm]
  · intro sorted hsp hsorted
    rw [getBalanceHistory_eq fuel s e p ledger1 rows1 hse hp hfuel,
      balanceHistoryOfSorted_eq fuel s e p sorted hp hfuel hsorted,
      expectedHistory_perm s e p _ _ hsp]
    rfl

/-- C25, at two operations of the same date, in both orders. -/
theorem getBalanceHistory_order_independent_witness :
    (10 : Int) < 41 ∧ (0 : Int) < 10 ∧ bucketCount 10 41 10 ≤ 4
    ∧ [sampleOperation OperationType.SEND 15 4 1,
        sampleOperation OperationType.RECEIVE 15 100 0].Perm
        [sampleOperation OperationType.RECEIVE 15 100 0,
          sampleOperation OperationType.SEND 15 4 1]
    ∧ ([] : List InternalOperationRow).Perm []
    ∧ getBalanceHistory 4 10 41 10
          [sampleOperation OperationType.SEND 15 4 1,
            sampleOperation OperationType.RECEIVE 15 100 0] []
        = getBalanceHistory 4 10 41 10
          [sampleOperation OperationType.RECEIVE 15 100 0,
            sampleOperation OperationType.SEND 15 4 1] []
    ∧ (∀ sorted : List Operation,
        sorted.Perm ([sampleOperation OperationType.SEND 15 4 1,
          sampleOperation OperationType.RECEIVE 15 100 0] ++ getInternalOperations []) →
        sorted.Pairwise (fun a b => a.date ≤ b.date) →
        (balanceHistoryOfSorted 4 10 41 10 sorted).map Except.ok
          = getBalanceHistory 4 10 41 10
              [sampleOperation OperationType.SEND 15 4 1,
                sampleOperation OperationType.RECEIVE 15 100 0] []) :=
  ⟨by decide, by decide, by decide, List.Perm.swap _ _ _, List.Perm.refl _,
    getBalanceHistory_order_independent 4 10 41 10
      [sampleOperation OperationType.SEND 15 4 1, sampleOperation OperationType.RECEIVE 15 100 0]
      [sampleOperation OperationType.RECEIVE 15 100 0, sampleOperation OperationType.SEND 15 4 1]
      [] [] (by decide) (by decide) (by decide) (List.Perm.swap _ _ _) (List.Perm.refl _)⟩

end ledger.core

namespace ledger.core

/-- A transaction that the continuation of the build function returns is affordable. -/
theorem buildWithBalance_affordable (request : EthereumLikeTransactionBuildRequest)
    (explorerNonce : Except ErrorCode Int) (accountAddress : String) (B : Int)
    (tx : EthereumLikeTransactionApi)
    (h : buildWithBalance request explorerNonce accountAddress B = Except.ok tx) :
    ∃ L P v, tx.gasLimit = some L ∧ tx.gasPrice = some P ∧ tx.value = some v
      ∧ v + L * P ≤ B := by
  unfold buildWithBalance at h
  by_cases hargs : request.gasLimit.isNone = true ∨ request.gasPrice.isNone = true
      ∨ (request.value.isNone = true ∧ request.wipe = false)
  · rw [if_pos hargs] at h
    cases h
  · rw [if_neg hargs] at h
    simp only at h
    by_cases hfunds : B - request.gasLimit.getD 0 * request.gasPrice.getD 0
        < (if request.wipe = true then 0 else request.value.getD 0)
    · rw [if_pos hfunds] at h
      cases h
    · rw [if_neg hfunds] at h
      cases hn : explorerNonce with
      | error err =>
        rw [hn] at h
        cases h
      | ok nonce =>
        rw [hn] at h
        simp only at h
        injection h with h1
        cases hL : request.gasLimit with
        | none => exact absurd (Or.inl (by rw [hL]; rfl)) hargs
        | some L =>
          cases hP : request.gasPrice with
          | none => exact absurd (Or.inr (Or.inl (by rw [hP]; rfl))) hargs
          | some P =>
            rw [hL, hP] at hfunds
            simp only [Option.getD_some] at hfunds
            by_cases hw : request.wipe = true
            · rw [if_pos hw] at hfunds
              refine ⟨L, P, B - L * P, ?_, ?_, ?_, ?_⟩
              · rw [← h1]
                exact hL
              · rw [← h1]
                exact hP
              · rw [← h1]
                show (if request.wipe = true then some (B - request.gasLimit.getD 0
                  * request.gasPrice.getD 0) else request.value) = _
                rw [if_pos hw, hL, hP]
                rfl
              · omega
            · rw [if_neg hw] at hfunds
              cases hv : request.value with
              | none =>
                exact absurd (Or.inr (Or.inr ⟨by rw [hv]; rfl, by simpa using hw⟩)) hargs
              | some v =>
                rw [hv] at hfunds
                simp only [Option.getD_some] at hfunds
                refine ⟨L, P, v, ?_, ?_, ?_, ?_⟩
                · rw [← h1]
                  exact hL
                · rw [← h1]
                  exact hP
                · rw [← h1]
                  show (if request.wipe = true then some (B - request.gasLimit.getD 0
                    * request.gasPrice.getD 0) else request.value) = _
                  rw [if_neg hw, hv]
                · omega

/-- C26: every transaction that the build function returns is affordable: its value plus its
gas limit times its gas price is at most the balance that `getBalance` gave, for a wipe
request or not. And a wipe request with both fee components set and a balance `B` with
`B - L * P < 0` fails with `NOT_ENOUGH_FUNDS`: no transaction of negative value comes out. -/
theorem buildFunction_affordable (balanceCache : Option Int)
    (explorerBalance explorerNonce : Except ErrorCode Int) (accountAddress : String)
    (request : EthereumLikeTransactionBuildRequest) :
    (∀ tx, (buildFunction balanceCache explorerBalance explorerNonce accountAddress
          request).result = Except.ok tx →
      ∃ B L P v, (getBalance balanceCache explorerBalance).result = Except.ok B
        ∧ tx.gasLimit = some L ∧ tx.gasPrice = some P ∧ tx.value = some v
        ∧ v + L * P ≤ B)
    ∧ (∀ B L P : Int, request.wipe = true → request.gasLimit = some L →
        request.gasPrice = some P →
        (getBalance balanceCache explorerBalance).result = Except.ok B →
        B - L * P < 0 →
        (buildFunction balanceCache explorerBalance explorerNonce accountAddress
          request).result = Except.error ErrorCode.NOT_ENOUGH_FUNDS) := by
  constructor
  · intro tx h
    unfold buildFunction at h
    cases hB : (getBalance balanceCache explorerBalance).result with
    | error err =>
      simp only [hB] at h
      cases h
    | ok B =>
      simp only [hB] at h
      obtain ⟨L, P, v, h1, h2, h3, h4⟩ :=
        buildWithBalance_affordable request explorerNonce accountAddress B tx h
      exact ⟨B, L, P, v, rfl, h1, h2, h3, h4⟩
  · intro B L P hw hL hP hB hneg
    unfold buildFunction
    simp only [hB]
    unfold buildWithBalance
    simp only [hL, hP, hw, Option.isNone_some, Option.getD_some, Bool.false_eq_true,
      Bool.true_eq_false, and_false, or_self, if_false, if_true, hneg]

/-- C26, at a balance of 100: a request of 80 with 10 units of gas at price 2 is assembled
and affordable, and a wipe request with 60 units of gas at price 2 fails. -/
theorem buildFunction_affordable_witness :
    (∃ tx, (buildFunction none (Except.ok 100) (Except.ok 7) "X"
          (sampleRequest (some 80) (some 10) false)).result = Except.ok tx
      ∧ ∃ B L P v, (getBalance none (Except.ok 100)).result = Except.ok B
        ∧ tx.gasLimit = some L ∧ tx.gasPrice = some P ∧ tx.value = some v
        ∧ v + L * P ≤ B)
    ∧ (buildFunction none (Except.ok 100) (Except.ok 7) "X"
        (sampleRequest none (some 60) true)).result = Except.error ErrorCode.NOT_ENOUGH_FUNDS :=
  ⟨⟨_, rfl,
      (buildFunction_affordable none (Except.ok 100) (Except.ok 7) "X"
        (sampleRequest (some 80) (some 10) false)).1 _ rfl⟩,
    (buildFunction_affordable none (Except.ok 100) (Except.ok 7) "X"
      (sampleRequest none (some 60) true)).2 100 60 2 rfl rfl rfl rfl (by decide)⟩

/-- The fields that every record of `getETHLikeBlockchainExplorerTxFromRawTx` carries, whatever
the shape of the data: the optimistic status, no block, no gas used, the own address as sender,
and the value and the gas price of the parsed transaction. -/
theorem getETHLikeBlockchainExplorerTxFromRawTx_fields (codec : RawTransactionCodec)
    (account : EthereumLikeAccount) (txHash : String) (now : Int) (rawTx : List Nat)
    (record : EthereumLikeBlockchainExplorerTransaction)
    (h : getETHLikeBlockchainExplorerTxFromRawTx codec account txHash now rawTx
      = Except.ok record) :
    ∃ tx, codec.parseRawSignedTransaction rawTx = Except.ok tx
      ∧ record.status = 1 ∧ record.block = none ∧ record.gasUsed = some 0
      ∧ record.sender = account.accountAddress ∧ record.value = tx.value
      ∧ record.gasPrice = tx.gasPrice ∧ record.gasLimit = tx.gasLimit := by
  unfold getETHLikeBlockchainExplorerTxFromRawTx at h
  cases hp : codec.parseRawSignedTransaction rawTx with
  | error err =>
    rw [hp] at h
    cases h
  | ok tx =>
    rw [hp] at h
    simp only at h
    refine ⟨tx, rfl, ?_⟩
    by_cases hshape : (hex.toString (tx.data.getD [])).length = 136
        ∧ containsSubstring (hex.toString (tx.data.getD [])).data ERC20MethodsID_transfer.data
            = true
    · rw [if_pos hshape] at h
      cases hto : codec.addressToEIP55 (erc20RecipientString (tx.data.getD [])) with
      | error err =>
        rw [hto] at h
        cases h
      | ok toAddress =>
        rw [hto] at h
        simp only at h
        injection h with h1
        rw [← h1]
        exact ⟨rfl, rfl, rfl, rfl, rfl, rfl, rfl⟩
    · rw [if_neg hshape] at h
      injection h with h1
      rw [← h1]
      exact ⟨rfl, rfl, rfl, rfl, rfl, rfl, rfl⟩

/-- The fees and the amount of an operation that the interpreter types from a record with
status 1 and no gas used: zero fees, and the value of the record. -/
theorem typedOperation_optimistic (H : UidScheme) (acc : EthereumLikeAccount) (wallet : Wallet)
    (record : EthereumLikeBlockchainExplorerTransaction) (ty : OperationType)
    (hstatus : record.status = 1) (hgas : record.gasUsed = some 0) :
    (typedOperation H record (operationSkeleton acc wallet record) ty).fees = some 0
      ∧ (typedOperation H record (operationSkeleton acc wallet record) ty).amount
          = record.value
      ∧ (typedOperation H record (operationSkeleton acc wallet record) ty).type = ty := by
  refine ⟨?_, ?_, rfl⟩
  · show some (record.gasPrice * record.gasUsed.getD 0) = some 0
    rw [hgas]
    simp
  · show (if record.status = 0 ∧ record.block.isSome = true then 0 else record.value)
      = record.value
    rw [if_neg]
    intro hc
    rw [hstatus] at hc
    exact absurd hc.1 (by decide)

/-- C27: the record that the optimistic update synthesizes from a raw transaction has status
1 (successful), no block, zero gas used and the own address of the account as sender; the
interpreter, with a live wallet, derives operations from it, each of them with zero fees and
with the parsed value as amount, and a SEND operation is among them. -/
theorem optimistic_record_interpretation (codec : RawTransactionCodec) (H : UidScheme)
    (acc : EthereumLikeAccount) (wallet : Wallet) (txHash : String) (now : Int)
    (rawTx : List Nat) (record : EthereumLikeBlockchainExplorerTransaction)
    (out : List Operation)
    (hw : acc.wallet = some wallet)
    (hrec : getETHLikeBlockchainExplorerTxFromRawTx codec acc txHash now rawTx
      = Except.ok record) :
    record.status = 1 ∧ record.block = none ∧ record.gasUsed = some 0
      ∧ record.sender = acc.accountAddress
      ∧ ∃ tx, codec.parseRawSignedTransaction rawTx = Except.ok tx
        ∧ ∃ acc1 ops, interpretTransaction H acc record out = Except.ok (acc1, out ++ ops)
          ∧ (∀ op ∈ ops, op.fees = some 0 ∧ op.amount = tx.value)
          ∧ ∃ op ∈ ops, op.type = OperationType.SEND := by
  obtain ⟨tx, hp, hstatus, hblock, hgas, hsender, hvalue, _, _⟩ :=
    getETHLikeBlockchainExplorerTxFromRawTx_fields codec acc txHash now rawTx record hrec
  refine ⟨hstatus, hblock, hgas, hsender, tx, hp, ?_⟩
  have hsend := typedOperation_optimistic H acc wallet record OperationType.SEND hstatus hgas
  have hreceive :=
    typedOperation_optimistic H acc wallet record OperationType.RECEIVE hstatus hgas
  by_cases hr : acc.accountAddress = record.receiver
  · obtain ⟨l, d, h⟩ :=
      interpretTransaction_send_receive H acc wallet record out hw hsender.symm hr
    refine ⟨_, _, h, ?_, _, List.mem_cons_self _ _, hsend.2.2⟩
    intro op hop
    rcases List.mem_cons.1 hop with h1 | h1
    · rw [h1]
      exact ⟨hsend.1, hsend.2.1.trans hvalue⟩
    · rw [List.mem_singleton.1 h1]
      exact ⟨hreceive.1, hreceive.2.1.trans hvalue⟩
  · obtain ⟨l, d, h⟩ :=
      interpretTransaction_send_only H acc wallet record out hw hsender.symm hr
    refine ⟨_, _, h, ?_, _, List.mem_singleton_self _, hsend.2.2⟩
    intro op hop
    rw [List.mem_singleton.1 hop]
    exact ⟨hsend.1, hsend.2.1.trans hvalue⟩

set_option maxRecDepth 20000

/-- C27, at the sample account with its wallet and the call data of a token transfer, parsed
with gas price 2 and gas limit 21000: the record has the optimistic fields, and the interpreter
derives operations with zero fees, among them a SEND. -/
theorem optimistic_record_interpretation_witness :
    ∃ record, getETHLikeBlockchainExplorerTxFromRawTx sampleCodec sampleAccount "h" 50
        transferToDeadAddress = Except.ok record
      ∧ record.gasPrice = 2
      ∧ record.status = 1 ∧ record.block = none ∧ record.gasUsed = some 0
      ∧ record.sender = sampleAccount.accountAddress
      ∧ ∃ tx, sampleCodec.parseRawSignedTransaction transferToDeadAddress = Except.ok tx
        ∧ ∃ acc1 ops, interpretTransaction sampleScheme sampleAccount record []
            = Except.ok (acc1, [] ++ ops)
          ∧ (∀ op ∈ ops, op.fees = some 0 ∧ op.amount = tx.value)
          ∧ ∃ op ∈ ops, op.type = OperationType.SEND :=
  ⟨_, rfl, rfl,
    optimistic_record_interpretation sampleCodec sampleScheme sampleAccount sampleWallet "h" 50
      transferToDeadAddress _ [] rfl rfl⟩

end ledger.core
